import Mathlib

/-!
# RenderMan: render scheduling and parameter-patch engine

A shallow embedding of `Source/RenderEngine.cpp` / `Source/RenderEngine.h`.

Conventions of the embedding

* A C++ `int` variable is an `Int`.  Where the source computes a product of two `int`s the
  32-bit result is taken with `wrapInt32`.
* C++ `double` / `float` values are `FloatingPoint` values: a finite value, `+inf`, `-inf` or
  NaN.  Every `double` operation of the source is rounded to binary64 (`roundToDouble`, round
  to nearest, ties to even); comparisons with a NaN are false; `double → int` conversion
  truncates toward zero into the 32-bit range (`doubleToInt`).
* The samples of an audio buffer are only copied by the engine; they are kept as rationals.
* Every member function of `RenderEngine` becomes a function from the engine state to a
  result paired with the new engine state.
* The hosted plugin (`juce::AudioPluginInstance`) is an opaque collaborator: its behaviour
  is a record of functions `SoundModule σ` over an arbitrary plugin state `σ`.
-/

namespace RenderMan

/-! ## Floating-point and machine-integer arithmetic -/

/-- A value of a C++ floating-point type (`double`, `float`): a finite value, given by the
rational number it denotes, an infinity, or a NaN.  The sign of a zero is not kept: no
operation of the sources below distinguishes `-0.0` from `+0.0`. -/
inductive FloatingPoint where
  | finite (q : ℚ)
  | posInf
  | negInf
  | nan
  deriving DecidableEq

/-- The C++ type `double` (IEEE 754 binary64).  The results of arithmetic are rounded to the
type by `roundToDouble`; arguments are arbitrary values of `FloatingPoint`, which include every
`double`. -/
abbrev CDouble := FloatingPoint

/-- The C++ type `float`.  The sources compare and store `float`s and do no arithmetic on
them. -/
abbrev CFloat := FloatingPoint

instance : OfNat FloatingPoint 0 := ⟨FloatingPoint.finite 0⟩

instance : OfNat FloatingPoint 1 := ⟨FloatingPoint.finite 1⟩

/-- The comparison `a < b` of C++ on floating-point values: false whenever an operand is a
NaN. -/
def FloatingPoint.blt : FloatingPoint → FloatingPoint → Bool
  | FloatingPoint.finite a, FloatingPoint.finite b => decide (a < b)
  | FloatingPoint.finite _, FloatingPoint.posInf => true
  | FloatingPoint.negInf, FloatingPoint.finite _ => true
  | FloatingPoint.negInf, FloatingPoint.posInf => true
  | _, _ => false

/-- The comparison `a <= b` of C++ on floating-point values: false whenever an operand is a
NaN. -/
def FloatingPoint.ble : FloatingPoint → FloatingPoint → Bool
  | FloatingPoint.finite a, FloatingPoint.finite b => decide (a ≤ b)
  | FloatingPoint.finite _, FloatingPoint.posInf => true
  | FloatingPoint.negInf, FloatingPoint.finite _ => true
  | FloatingPoint.negInf, FloatingPoint.posInf => true
  | FloatingPoint.posInf, FloatingPoint.posInf => true
  | FloatingPoint.negInf, FloatingPoint.negInf => true
  | _, _ => false

instance : LT FloatingPoint := ⟨fun a b => FloatingPoint.blt a b = true⟩

instance : LE FloatingPoint := ⟨fun a b => FloatingPoint.ble a b = true⟩

instance (a b : FloatingPoint) : Decidable (a < b) :=
  inferInstanceAs (Decidable (FloatingPoint.blt a b = true))

instance (a b : FloatingPoint) : Decidable (a ≤ b) :=
  inferInstanceAs (Decidable (FloatingPoint.ble a b = true))

/-- Rounding of a rational to the nearest integer, a tie going to the even neighbour. -/
def roundNearestEven (x : ℚ) : Int :=
  if x - (⌊x⌋ : ℚ) < 1 / 2 then ⌊x⌋
  else if 1 / 2 < x - (⌊x⌋ : ℚ) then ⌊x⌋ + 1
  else if ⌊x⌋ % 2 = 0 then ⌊x⌋ else ⌊x⌋ + 1

/-- The exponent of the unit in the last place of a binary64 value of the magnitude of `q`:
53 significant bits, the smallest normal exponent is `-1022` (below it the spacing of the
subnormal numbers, `2 ^ (-1074)`, applies). -/
def ulpExponent (q : ℚ) : Int := max (Int.log 2 |q|) (-1022) - 52

/-- Rounding of a rational to the binary64 grid (round to nearest, ties to even), before the
overflow test. -/
def roundFinite (q : ℚ) : ℚ :=
  (roundNearestEven (q / (2 : ℚ) ^ ulpExponent q) : ℚ) * (2 : ℚ) ^ ulpExponent q

/-- The `double` that an arithmetic operation with the exact result `q` delivers in the default
rounding mode: the nearest binary64 value, an infinity when that is `2 ^ 1024` or more in
magnitude. -/
def roundToDouble (q : ℚ) : CDouble :=
  if (2 : ℚ) ^ (1024 : Nat) ≤ |roundFinite q| then
    (if 0 < q then FloatingPoint.posInf else FloatingPoint.negInf)
  else FloatingPoint.finite (roundFinite q)

/-- The product `a * b` of two `double`s. -/
def FloatingPoint.mul : CDouble → CDouble → CDouble
  | FloatingPoint.finite a, FloatingPoint.finite b => roundToDouble (a * b)
  | FloatingPoint.finite a, FloatingPoint.posInf =>
      if 0 < a then FloatingPoint.posInf
      else if a < 0 then FloatingPoint.negInf else FloatingPoint.nan
  | FloatingPoint.finite a, FloatingPoint.negInf =>
      if 0 < a then FloatingPoint.negInf
      else if a < 0 then FloatingPoint.posInf else FloatingPoint.nan
  | FloatingPoint.posInf, FloatingPoint.finite b =>
      if 0 < b then FloatingPoint.posInf
      else if b < 0 then FloatingPoint.negInf else FloatingPoint.nan
  | FloatingPoint.negInf, FloatingPoint.finite b =>
      if 0 < b then FloatingPoint.negInf
      else if b < 0 then FloatingPoint.posInf else FloatingPoint.nan
  | FloatingPoint.posInf, FloatingPoint.posInf => FloatingPoint.posInf
  | FloatingPoint.posInf, FloatingPoint.negInf => FloatingPoint.negInf
  | FloatingPoint.negInf, FloatingPoint.posInf => FloatingPoint.negInf
  | FloatingPoint.negInf, FloatingPoint.negInf => FloatingPoint.posInf
  | _, _ => FloatingPoint.nan

/-- The sum `a + b` of two `double`s. -/
def FloatingPoint.add : CDouble → CDouble → CDouble
  | FloatingPoint.finite a, FloatingPoint.finite b => roundToDouble (a + b)
  | FloatingPoint.finite _, FloatingPoint.posInf => FloatingPoint.posInf
  | FloatingPoint.finite _, FloatingPoint.negInf => FloatingPoint.negInf
  | FloatingPoint.posInf, FloatingPoint.finite _ => FloatingPoint.posInf
  | FloatingPoint.negInf, FloatingPoint.finite _ => FloatingPoint.negInf
  | FloatingPoint.posInf, FloatingPoint.posInf => FloatingPoint.posInf
  | FloatingPoint.negInf, FloatingPoint.negInf => FloatingPoint.negInf
  | _, _ => FloatingPoint.nan

/-- The quotient `a / b` of a `double` by an `int`, which C++ converts to `double` first (the
conversion is exact, and `0` becomes `+0.0`). -/
def FloatingPoint.divInt : CDouble → Int → CDouble
  | FloatingPoint.finite a, b =>
      if b = 0 then
        (if 0 < a then FloatingPoint.posInf
         else if a < 0 then FloatingPoint.negInf else FloatingPoint.nan)
      else roundToDouble (a / (b : ℚ))
  | FloatingPoint.posInf, b => if 0 ≤ b then FloatingPoint.posInf else FloatingPoint.negInf
  | FloatingPoint.negInf, b => if 0 ≤ b then FloatingPoint.negInf else FloatingPoint.posInf
  | FloatingPoint.nan, _ => FloatingPoint.nan

/-- The function `std::ceil` on `double`: exact on finite values, the identity on the
others. -/
def FloatingPoint.ceil : CDouble → CDouble
  | FloatingPoint.finite a => FloatingPoint.finite ((⌈a⌉ : Int) : ℚ)
  | x => x

/-- Conversion `double → int` of C++: truncation toward zero.  A value whose truncation does
not fit the 32-bit `int`, an infinity and a NaN have no defined result in C++; the conversion
instruction of x86-64 delivers `INT_MIN` for them, and so does the model. -/
def doubleToInt (x : CDouble) : Int :=
  match x with
  | FloatingPoint.finite a =>
      let t : Int := if 0 ≤ a then ⌊a⌋ else ⌈a⌉
      if -2147483648 ≤ t ∧ t ≤ 2147483647 then t else -2147483648
  | _ => -2147483648

/-- The value that a 32-bit `int` holds after an arithmetic result `z` that may have left the
range of the type (two's complement wrap-around). -/
def wrapInt32 (z : Int) : Int := (z + 2147483648) % 4294967296 - 2147483648

/-! ## Data model -/

/-- The kind of a MIDI message.  `other` is the default-constructed `MidiMessage`. -/
inductive MidiKind where
  | noteOn
  | noteOff
  | other
  deriving DecidableEq, Repr

/-- Modelled from the spec: `juce::MidiMessage` is a library type that is not part of the
sources; the spec describes a note event by kind, channel, pitch and velocity. -/
structure MidiMessage where
  kind     : MidiKind
  channel  : Nat
  pitch    : Nat
  velocity : Nat
  deriving DecidableEq, Repr

/-- Modelled from the spec: `MidiMessage::noteOn (channel, noteNumber, velocity)`. -/
def MidiMessage.noteOn (channel pitch velocity : Nat) : MidiMessage :=
  ⟨MidiKind.noteOn, channel, pitch, velocity⟩

/-- Modelled from the spec: `MidiMessage::noteOff (channel, noteNumber, velocity)`. -/
def MidiMessage.noteOff (channel pitch velocity : Nat) : MidiMessage :=
  ⟨MidiKind.noteOff, channel, pitch, velocity⟩

/-- The default-constructed message `MidiMessage m;` of `render`. -/
def MidiMessage.default : MidiMessage := ⟨MidiKind.other, 0, 0, 0⟩

/-- Modelled from the spec: `juce::MidiBuffer` is a library container that is not part of the
sources.  It holds `(samplePosition, message)` pairs in ascending position order, ties in
insertion order. -/
abbrev MidiBuffer := List (Int × MidiMessage)

/-- Modelled from the spec: `MidiBuffer::addEvent (message, sampleNumber)` inserts the event
behind every stored event whose position is `≤ sampleNumber` (sorted position, ties broken by
insertion order). -/
def MidiBuffer.addEvent : MidiBuffer → MidiMessage → Int → MidiBuffer
  | [], m, s => [(s, m)]
  | (t, x) :: rest, m, s =>
      if t ≤ s then (t, x) :: MidiBuffer.addEvent rest m s else (s, m) :: (t, x) :: rest

/-- The type `PluginPatch` of the header: `std::vector<std::pair<int, float>>`. -/
abbrev PluginPatch := List (Int × CFloat)

/-- Contents of an `AudioSampleBuffer`: `read c i` is sample `i` of channel `c`
(`getArrayOfReadPointers()[c][i]`). -/
abbrev AudioData := Nat → Nat → ℚ

/-- An `AudioSampleBuffer` with its channel count, its sample count and its contents. -/
structure AudioSampleBuffer where
  numChannels : Nat
  numSamples  : Nat
  read        : AudioData

/-- The capability interface of the hosted plugin, over a plugin state `σ`.  `processBlock`
receives the contents of the audio buffer and the MIDI buffer (both passed by reference in the
source) and returns the new plugin state together with what it left in the two buffers; the
dimensions of the audio buffer belong to the host and are not changed by the plugin. -/
structure SoundModule (σ : Type) where
  getTotalNumOutputChannels : σ → Nat
  getNumParameters          : σ → Nat
  getParameterName          : σ → Nat → String
  getParameter              : σ → Int → CFloat
  setParameter              : σ → Int → CFloat → σ
  prepareToPlay             : σ → CDouble → Int → σ
  processBlock              : σ → AudioData → MidiBuffer → σ × AudioData × MidiBuffer

/-- The data members of `class RenderEngine`. -/
structure RenderEngine (σ : Type) where
  midiBuffer                 : MidiBuffer
  sampleRate                 : CDouble
  bufferSize                 : Int
  plugin                     : Option σ
  pluginParameters           : PluginPatch
  overridenParameters        : PluginPatch
  processedAudioPreviewLeft  : List ℚ
  processedAudioPreviewRight : List ℚ

/-- The constructor `RenderEngine (int sr, int bs)`; the member `sampleRate` is a `double`
initialised from the `int` argument. -/
def RenderEngine.new (σ : Type) (sr bs : Int) : RenderEngine σ :=
  { midiBuffer := [], sampleRate := FloatingPoint.finite (sr : ℚ), bufferSize := bs,
    plugin := none, pluginParameters := [], overridenParameters := [],
    processedAudioPreviewLeft := [], processedAudioPreviewRight := [] }

/-! ## Parameter patch store -/

/-- The function `RenderEngine::fillAvailablePluginParameters`: one slot `(i, 0.0f)` for every
plugin parameter `i` whose name is not `"Param"`. -/
def fillAvailablePluginParameters {σ : Type} (M : SoundModule σ) (p : σ) : PluginPatch :=
  (List.range (M.getNumParameters p)).foldl
    (fun params i =>
      if M.getParameterName p i ≠ "Param" then params ++ [((i : Int), (0 : CFloat))] else params)
    []

/-- The success and failure paths of `RenderEngine::loadPlugin`, after plugin discovery:
`created` is the result of `createPluginInstance` (`none` for `nullptr`). -/
def loadPlugin {σ : Type} (M : SoundModule σ) (e : RenderEngine σ) (created : Option σ) :
    Bool × RenderEngine σ :=
  match created with
  | some p =>
      let p1 := M.prepareToPlay p e.sampleRate e.bufferSize
      (true, { e with plugin := some p1,
                      pluginParameters := fillAvailablePluginParameters M p1 })
  | none => (false, { e with plugin := none })

/-- The algorithm `std::find_if` over a patch: the position of the first element satisfying
`pred`, or the length of the patch (the `end()` iterator) when there is none. -/
def find_if (pred : Int × CFloat → Bool) : PluginPatch → Nat
  | [] => 0
  | p :: ps => if pred p then 0 else find_if pred ps + 1

/-- The function `RenderEngine::overridePluginParameter`.  The range test
`value < 0.0 || value > 1.0` is a pair of floating-point comparisons: both are false for a
NaN, which therefore passes the test. -/
def overridePluginParameter {σ : Type} (e : RenderEngine σ) (index : Int) (value : CFloat) :
    Bool × RenderEngine σ :=
  let biggestParameterIndex : Int := (e.pluginParameters.length : Int) - 1
  if biggestParameterIndex < 0 then (false, e)
  else if index > (e.pluginParameters.getD biggestParameterIndex.toNat (0, 0)).1 then (false, e)
  else if index < 0 then (false, e)
  else if value < 0 ∨ value > 1 then (false, e)
  else
    let iterator := find_if (fun parameter => decide (parameter.1 = index)) e.overridenParameters
    let exists_ := decide (iterator ≠ e.overridenParameters.length)
    if exists_ then
      let first := (e.overridenParameters.getD iterator (0, 0)).1
      (true, { e with overridenParameters := e.overridenParameters.set iterator (first, value) })
    else
      (true, { e with overridenParameters := e.overridenParameters ++ [(index, value)] })

/-- The function `RenderEngine::removeOverridenParameter`. -/
def removeOverridenParameter {σ : Type} (e : RenderEngine σ) (index : Int) :
    Bool × RenderEngine σ :=
  let biggestParameterIndex : Int := (e.pluginParameters.length : Int) - 1
  if biggestParameterIndex < 0 then (false, e)
  else if index > (e.pluginParameters.getD biggestParameterIndex.toNat (0, 0)).1 then (false, e)
  else if index < 0 then (false, e)
  else
    let iterator := find_if (fun parameter => decide (parameter.1 = index)) e.overridenParameters
    let exists_ := decide (iterator ≠ e.overridenParameters.length)
    if exists_ then
      (true, { e with overridenParameters := e.overridenParameters.eraseIdx iterator })
    else (false, e)

/-- The function `RenderEngine::setPatch`. -/
def setPatch {σ : Type} (e : RenderEngine σ) (patch : PluginPatch) : RenderEngine σ :=
  let currentParameterSize := e.pluginParameters.length
  let newPatchParameterSize := patch.length
  if currentParameterSize = newPatchParameterSize then { e with pluginParameters := patch }
  else e

/-- The call `std::any_of (overridenParameters.begin(), overridenParameters.end(), lambda)` of
`getPatch`, whose lambda stores every visited element in the captured variable `copy` before
testing it.  Returns the result of `any_of` and the final content of `copy`. -/
def anyOfCopy (index : Int) : PluginPatch → Int × CFloat → Bool × (Int × CFloat)
  | [], copy => (false, copy)
  | p :: ps, _ => if p.1 = index then (true, p) else anyOfCopy index ps p

/-- The range-for loop of `getPatch` over the copied parameter vector; `copy` is declared
outside the loop and carried from one slot to the next. -/
def getPatchLoop (overriden : PluginPatch) : PluginPatch → Int × CFloat → PluginPatch
  | [], _ => []
  | parameter :: rest, copy =>
      let r := anyOfCopy parameter.1 overriden copy
      (if r.1 then r.2 else parameter) :: getPatchLoop overriden rest r.2

/-- The function `RenderEngine::getPatch`; it is not `const` in the source, so the engine state
is returned with the patch. -/
def getPatch {σ : Type} (e : RenderEngine σ) : PluginPatch × RenderEngine σ :=
  if e.overridenParameters.length = 0 then (e.pluginParameters, e)
  else (getPatchLoop e.overridenParameters e.pluginParameters (0, 0), e)

/-- The override that a slot picks up: the first entry of the override vector carrying the
index of the slot, or the slot itself when there is none.  Used to state what `getPatch`
computes. -/
def resolve (overriden : PluginPatch) (parameter : Int × CFloat) : Int × CFloat :=
  match overriden.find? (fun p => decide (p.1 = parameter.1)) with
  | some q => q
  | none => parameter

/-- The upsert of the spec, in its words: update in place if the index is already overridden,
else append.  `overridePluginParameter` is compared with it in `set_find_if_eq_upsert`. -/
def upsert (index : Int) (value : CFloat) : PluginPatch → PluginPatch
  | [] => [(index, value)]
  | p :: ps => if p.1 = index then (p.1, value) :: ps else p :: upsert index value ps

/-- The bounds test shared by `overridePluginParameter` and `removeOverridenParameter`: the
parameter vector is not empty and `index` lies between `0` and the index stored in its last
slot, `pluginParameters[biggestParameterIndex].first`. -/
def indexInBounds (parameters : PluginPatch) (index : Int) : Prop :=
  0 < parameters.length ∧
    index ≤ (parameters.getD ((parameters.length : Int) - 1).toNat (0, 0)).1 ∧ 0 ≤ index

/-- The engine states reached from a freshly loaded module (a new engine on which `loadPlugin`
succeeded) by calls of `overridePluginParameter` and `removeOverridenParameter`. -/
inductive Reachable {σ : Type} (M : SoundModule σ) : RenderEngine σ → Prop
  | loaded (sr bs : Int) (p : σ) :
      Reachable M (loadPlugin M (RenderEngine.new σ sr bs) (some p)).2
  | overrideStep {e : RenderEngine σ} (index : Int) (value : CFloat) :
      Reachable M e → Reachable M (overridePluginParameter e index value).2
  | removeStep {e : RenderEngine σ} (index : Int) :
      Reachable M e → Reachable M (removeOverridenParameter e index).2

/-- The function `RenderEngine::setParameter`.  `none`: no plugin is loaded and the source
dereferences a null pointer.  `Except.error`: `pluginParameters.at (paramIndex)` throws
`std::out_of_range` (the `int` index is converted to `size_t`, so a negative index is out of
range too); the engine carried is the one left behind by the throw. -/
def setParameter {σ : Type} (M : SoundModule σ) (e : RenderEngine σ) (paramIndex : Int)
    (value : CFloat) : Option (Except (RenderEngine σ) (RenderEngine σ)) :=
  match e.plugin with
  | none => none
  | some p =>
      let p1 := M.setParameter p paramIndex value
      let actualValue := M.getParameter p1 paramIndex
      let e1 := { e with plugin := some p1 }
      if 0 ≤ paramIndex ∧ paramIndex < (e.pluginParameters.length : Int) then
        let params := e.pluginParameters.set paramIndex.toNat (paramIndex, actualValue)
        some (Except.ok { e1 with pluginParameters := params })
      else some (Except.error e1)

/-- The loop `for (int i = 0; i < plugin->getNumParameters(); i++)` of `loadPreset` over the
indices still to visit; `Except.error` when `pluginParameters.at (i)` throws
`std::out_of_range`, with the parameter vector as the throw leaves it. -/
def loadPresetLoop {σ : Type} (M : SoundModule σ) (p : σ) :
    List Nat → PluginPatch → Except PluginPatch PluginPatch
  | [], params => Except.ok params
  | i :: rest, params =>
      if i < params.length then
        loadPresetLoop M p rest (params.set i ((i : Int), M.getParameter p (i : Int)))
      else Except.error params

/-- The function `RenderEngine::loadPreset` on an engine with a loaded plugin (`none`
otherwise).  `loaded` is the result of the library call `VSTPluginFormat::loadFromFXBFile` and
`p1` the plugin as that call leaves it.  `Except.error`: `pluginParameters.at (i)` threw. -/
def loadPreset {σ : Type} (M : SoundModule σ) (e : RenderEngine σ) (loaded : Bool) (p1 : σ) :
    Option (Except (RenderEngine σ) (Bool × RenderEngine σ)) :=
  match e.plugin with
  | none => none
  | some _ =>
      let e1 := { e with plugin := some p1 }
      if loaded then
        match loadPresetLoop M p1 (List.range (M.getNumParameters p1)) e.pluginParameters with
        | Except.ok params => some (Except.ok (true, { e1 with pluginParameters := params }))
        | Except.error params => some (Except.error { e1 with pluginParameters := params })
      else some (Except.ok (false, e1))

/-- The slot indices of a parameter vector are exactly `0, 1, ..., N-1` in order. -/
def IndicesInOrder (parameters : PluginPatch) : Prop :=
  ∀ (k : Nat) (p : Int × CFloat), parameters[k]? = some p → p.1 = k

/-! ## MIDI timeline -/

/-- The function `RenderEngine::clearMidi`. -/
def clearMidi {σ : Type} (e : RenderEngine σ) : RenderEngine σ :=
  { e with midiBuffer := [] }

/-- The function `RenderEngine::addMidiNote`.  The arguments `midiNote` and `midiVelocity` are
`uint8` in the source.  The time stamps are computed in `double` arithmetic, each of the two
products and the sum rounded on its own; `MidiBuffer::addEvent (message, int)` takes an `int`,
so the call converts them with `doubleToInt`. -/
def addMidiNote {σ : Type} (e : RenderEngine σ) (midiNote midiVelocity : Nat)
    (noteStart noteLength : CDouble) : Bool × RenderEngine σ :=
  let midiNote := if midiNote > 255 then 255 else midiNote
  let midiNote := if midiNote < 0 then 0 else midiNote
  let midiVelocity := if midiVelocity > 255 then 255 else midiVelocity
  let midiVelocity := if midiVelocity < 0 then 0 else midiVelocity
  if noteLength ≤ 0 then (false, e)
  else
    let onMessage := MidiMessage.noteOn 1 midiNote midiVelocity
    let offMessage := MidiMessage.noteOff 1 midiNote midiVelocity
    let startTime := FloatingPoint.mul noteStart e.sampleRate
    let onTimeStamp := startTime
    let offTimeStamp := FloatingPoint.add startTime (FloatingPoint.mul noteLength e.sampleRate)
    let midiBuffer := e.midiBuffer.addEvent onMessage (doubleToInt onTimeStamp)
    let midiBuffer := midiBuffer.addEvent offMessage (doubleToInt offTimeStamp)
    (true, { e with midiBuffer := midiBuffer })

/-- The calls `addMidiNote (pitch, velocity, noteStart, noteLength)` at the sample rate
`sampleRate` that keep the timeline free of negative positions: the start time is not negative,
and either the call is rejected (`noteLength <= 0`) or the time stamp of the NoteOff, as
`addMidiNote` computes it, is a finite `double` below `2 ^ 31`, so that its conversion to `int`
is defined. -/
def noteInRange (sampleRate noteStart noteLength : CDouble) : Prop :=
  0 ≤ noteStart ∧
    (noteLength ≤ 0 ∨
      ∃ t : ℚ,
        FloatingPoint.add (FloatingPoint.mul noteStart sampleRate)
            (FloatingPoint.mul noteLength sampleRate) = FloatingPoint.finite t ∧
          t < 2147483648)

/-- The engine states reached from an engine with an empty timeline by calls of `addMidiNote`
whose arguments satisfy `callOk` at the sample rate of the engine, and calls of `clearMidi`. -/
inductive TimelineReachable {σ : Type} (callOk : CDouble → CDouble → CDouble → Prop) :
    RenderEngine σ → Prop
  | empty (e : RenderEngine σ) : e.midiBuffer = [] → TimelineReachable callOk e
  | addNote {e : RenderEngine σ} (midiNote midiVelocity : Nat) (noteStart noteLength : CDouble) :
      callOk e.sampleRate noteStart noteLength → TimelineReachable callOk e →
      TimelineReachable callOk (addMidiNote e midiNote midiVelocity noteStart noteLength).2
  | clear {e : RenderEngine σ} :
      TimelineReachable callOk e → TimelineReachable callOk (clearMidi e)

/-! ## Block scheduler and audio accumulator -/

/-- The function `RenderEngine::fillAudioFeatures`. -/
def fillAudioFeatures {σ : Type} (e : RenderEngine σ) (data : AudioSampleBuffer) :
    RenderEngine σ :=
  (List.range data.numSamples).foldl
    (fun e i =>
      let currentFrameLeft := data.read 0 i
      let numberChannels := data.numChannels
      let currentFrameRight := if numberChannels > 1 then data.read 1 i else currentFrameLeft
      { e with
        processedAudioPreviewLeft := e.processedAudioPreviewLeft ++ [currentFrameLeft],
        processedAudioPreviewRight := e.processedAudioPreviewRight ++ [currentFrameRight] })
    e

/-- What `render` did for one block: the arguments of its `renderMidiBuffer.addEvent` calls
(position, message) in call order, the MIDI buffer handed to `plugin->processBlock`, and the
audio the plugin left in the buffer. -/
structure BlockRecord where
  added  : List (Int × MidiMessage)
  handed : MidiBuffer
  output : AudioData

/-- The local variables of `RenderEngine::render` while its loops run, together with the
engine, the plugin behind the `plugin` pointer and the record of the blocks processed so far.
`it` is the part of `midiBuffer` that the iterator has not read yet and `added` collects the
`addEvent` calls of the block being processed. -/
structure RenderLocals (σ : Type) where
  engine           : RenderEngine σ
  plugin           : σ
  audioBuffer      : AudioSampleBuffer
  renderMidiBuffer : MidiBuffer
  it               : MidiBuffer
  m                : MidiMessage
  sampleNumber     : Int
  isMessageBetween : Bool
  bufferRemaining  : Bool
  added            : List (Int × MidiMessage)
  blocks           : List BlockRecord

/-- Modelled from the spec: `MidiBuffer::Iterator::getNextEvent (m, sampleNumber)` of the JUCE
library, called as `bufferRemaining = it.getNextEvent (m, sampleNumber)`.  At the end of the
buffer it returns `false` and leaves `m` and `sampleNumber` as they are. -/
def getNextEvent {σ : Type} (s : RenderLocals σ) : RenderLocals σ :=
  match s.it with
  | [] => { s with bufferRemaining := false }
  | (t, x) :: rest => { s with bufferRemaining := true, m := x, sampleNumber := t, it := rest }

/-- One pass through the body of the `do { ... } while` statement of `render`. -/
def doWhileBody {σ : Type} (start end_ : Int) (s : RenderLocals σ) : RenderLocals σ :=
  if s.isMessageBetween then
    let s1 := { s with
      renderMidiBuffer := s.renderMidiBuffer.addEvent s.m (s.sampleNumber - start),
      added := s.added ++ [(s.sampleNumber - start, s.m)] }
    let s2 := getNextEvent s1
    { s2 with isMessageBetween := decide (s2.sampleNumber ≥ start ∧ s2.sampleNumber < end_) }
  else s

/-- The `do { ... } while (isMessageBetween && bufferRemaining)` statement of `render`, with a
bound on the number of passes.  Every pass that is followed by another one has advanced the
iterator, so `s.it.length + 1` passes are always enough (`doWhile_fuel`). -/
def doWhile {σ : Type} (start end_ : Int) : Nat → RenderLocals σ → RenderLocals σ
  | 0, s => s
  | fuel + 1, s =>
      let s1 := doWhileBody start end_ s
      if s1.isMessageBetween && s1.bufferRemaining then doWhile start end_ fuel s1 else s1

/-- The body of the `for` loop of `render` for block `i`.  `start` and `end` are `double`s
initialised from the `int` products `i * bufferSize` and `(i + 1) * bufferSize`; they hold
whole numbers, with which the `int` `sampleNumber` is compared and from which it is subtracted
exactly. -/
def renderBlock {σ : Type} (M : SoundModule σ) (i : Int) (s : RenderLocals σ) :
    RenderLocals σ :=
  let bufferSize := s.engine.bufferSize
  let start := wrapInt32 (i * bufferSize)
  let end_ := wrapInt32 ((i + 1) * bufferSize)
  let s1 := { s with
    isMessageBetween := decide (s.sampleNumber ≥ start ∧ s.sampleNumber < end_),
    added := [] }
  let s2 := doWhile start end_ (s1.it.length + 1) s1
  let r := M.processBlock s2.plugin s2.audioBuffer.read s2.renderMidiBuffer
  let audioBuffer := { s2.audioBuffer with read := r.2.1 }
  { s2 with
    plugin := r.1,
    audioBuffer := audioBuffer,
    renderMidiBuffer := r.2.2,
    engine := fillAudioFeatures s2.engine audioBuffer,
    blocks := s2.blocks ++ [⟨s2.added, s2.renderMidiBuffer, r.2.1⟩] }

/-- The statement `for (int i = 0; i < numberOfBuffers; ++i)` of `render`: `count` further
passes starting with block `i`. -/
def forLoop {σ : Type} (M : SoundModule σ) : Nat → Int → RenderLocals σ → RenderLocals σ
  | 0, _, s => s
  | count + 1, i, s => forLoop M count (i + 1) (renderBlock M i s)

/-- The value `int (std::ceil (renderLength * sampleRate / bufferSize))`: the product and the
quotient are `double` operations, each rounded, and the result of `std::ceil` is converted to
a 32-bit `int`. -/
def numberOfBuffers (renderLength sampleRate : CDouble) (bufferSize : Int) : Int :=
  doubleToInt
    (FloatingPoint.ceil
      (FloatingPoint.divInt (FloatingPoint.mul renderLength sampleRate) bufferSize))

/-- The local variables of `render` when the `for` loop is entered.  `uninit` is the content
of the freshly constructed `AudioSampleBuffer`, which the source leaves uninitialised. -/
def renderInit {σ : Type} (M : SoundModule σ) (e : RenderEngine σ) (p : σ)
    (uninit : AudioData) : RenderLocals σ :=
  let audioBuffer : AudioSampleBuffer :=
    ⟨M.getTotalNumOutputChannels p, e.bufferSize.toNat, uninit⟩
  let e1 := { e with processedAudioPreviewLeft := [], processedAudioPreviewRight := [] }
  let p1 := M.prepareToPlay p e.sampleRate e.bufferSize
  getNextEvent
    { engine := e1, plugin := p1, audioBuffer := audioBuffer, renderMidiBuffer := [],
      it := e.midiBuffer, m := MidiMessage.default, sampleNumber := -1,
      isMessageBetween := false, bufferRemaining := false, added := [], blocks := [] }

/-- The function `RenderEngine::render`, returning the engine after the call and the record
of the blocks it processed.  Without a loaded plugin the source dereferences a null pointer:
the model returns `none`.  `Except.error`: the `int` product `numberOfBuffers * bufferSize` is
negative, its conversion to `size_t` exceeds `max_size ()` and
`processedAudioPreviewLeft.reserve` throws `std::length_error`; the engine carried is the one
left behind by the throw, with both preview sequences cleared and `prepareToPlay` not yet
called.  A request that `reserve` accepts is taken to be served. -/
def render {σ : Type} (M : SoundModule σ) (e : RenderEngine σ) (renderLength : CDouble)
    (uninit : AudioData) : Option (Except (RenderEngine σ) (RenderEngine σ × List BlockRecord)) :=
  match e.plugin with
  | none => none
  | some p =>
      let numberOfBuffers := numberOfBuffers renderLength e.sampleRate e.bufferSize
      if wrapInt32 (numberOfBuffers * e.bufferSize) < 0 then
        some (Except.error
          { e with processedAudioPreviewLeft := [], processedAudioPreviewRight := [] })
      else
        let s := forLoop M numberOfBuffers.toNat 0 (renderInit M e p uninit)
        some (Except.ok ({ s.engine with plugin := some s.plugin }, s.blocks))

/-- The events of a timeline that fall into block `i` of size `bufferSize`, in the words of
the spec: those with `i * bufferSize ≤ t < (i + 1) * bufferSize`, in timeline order, each
carried with the block-relative position `t - i * bufferSize`. -/
def blockEvents (timeline : MidiBuffer) (bufferSize i : Int) : List (Int × MidiMessage) :=
  (timeline.filter
    (fun ev => decide (i * bufferSize ≤ ev.1 ∧ ev.1 < (i + 1) * bufferSize))).map
    (fun ev => (ev.1 - i * bufferSize, ev.2))

/-- The read cursor of `render` stands in front of the events `pending`: the first of them is
held in `m` and `sampleNumber` and the iterator is in front of the others; when no event is
left the iterator is at the end and `sampleNumber` is a position before `bound`. -/
def CursorAt {σ : Type} (pending : MidiBuffer) (bound : Int) (s : RenderLocals σ) : Prop :=
  match pending with
  | [] => s.it = [] ∧ s.sampleNumber < bound
  | (t, x) :: rest =>
      s.sampleNumber = t ∧ s.m = x ∧ s.it = rest ∧ s.bufferRemaining = true

/-! ## Concrete modules and engine states -/

/-- A module with the given parameter names and two output channels whose `processBlock`
leaves the audio buffer and the MIDI buffer as it received them. -/
def passiveModule (names : List String) : SoundModule Unit :=
  { getTotalNumOutputChannels := fun _ => 2
    getNumParameters := fun _ => names.length
    getParameterName := fun _ i => names.getD i ""
    getParameter := fun _ _ => 0
    setParameter := fun s _ _ => s
    prepareToPlay := fun s _ _ => s
    processBlock := fun s audio midi => (s, audio, midi) }

/-- A new engine (44100 Hz, blocks of 512 samples) after loading a module with the three
parameters `A`, `B`, `C`: its parameter vector is `[(0, 0), (1, 0), (2, 0)]`. -/
def threeParams : RenderEngine Unit :=
  (loadPlugin (passiveModule ["A", "B", "C"]) (RenderEngine.new Unit 44100 512) (some ())).2

/-- A new engine after loading a module whose second parameter carries the placeholder name
`Param`: its parameter vector is `[(0, 0), (2, 0)]`. -/
def gapEngine : RenderEngine Unit :=
  (loadPlugin (passiveModule ["A", "Param", "B"]) (RenderEngine.new Unit 44100 512) (some ())).2

/-- A new engine (44100 Hz, blocks of `bs` samples) after loading a module without parameters
that leaves the audio buffer and the MIDI buffer as it received them. -/
def plainEngine (bs : Int) : RenderEngine Unit :=
  (loadPlugin (passiveModule []) (RenderEngine.new Unit 44100 bs) (some ())).2

/-- A new engine (44100 Hz, blocks of 512 samples) with a loaded module that leaves the MIDI
buffer unmodified, after `addMidiNote (60, 100, 0.0, 1.0)`: NoteOn at sample 0, NoteOff at
sample 44100. -/
def staleEngine : RenderEngine Unit :=
  (addMidiNote (loadPlugin (passiveModule []) (RenderEngine.new Unit 44100 512) (some ())).2
    60 100 (FloatingPoint.finite 0) (FloatingPoint.finite 1)).2

/-- A new engine (44100 Hz, blocks of 441 samples) with a loaded module, after
`addMidiNote (60, 100, 1.0, 1.0)`: the NoteOn at sample 44100 lies on the boundary between
block 99 and block 100. -/
def boundaryEngine : RenderEngine Unit :=
  (addMidiNote (loadPlugin (passiveModule []) (RenderEngine.new Unit 44100 441) (some ())).2
    60 100 (FloatingPoint.finite 1) (FloatingPoint.finite 1)).2

/-- A new engine (44100 Hz, blocks of 512 samples) with a loaded module, after
`addMidiNote (60, 100, -1.0, 1.0)` and `addMidiNote (62, 100, 0.0, 1.0)`. -/
def negativeStartEngine : RenderEngine Unit :=
  (addMidiNote
    (addMidiNote (loadPlugin (passiveModule []) (RenderEngine.new Unit 44100 512) (some ())).2
      60 100 (FloatingPoint.finite (-1)) (FloatingPoint.finite 1)).2
    62 100 (FloatingPoint.finite 0) (FloatingPoint.finite 1)).2

/-! ## Theorems: floating-point and machine-integer arithmetic -/

theorem roundNearestEven_floor_le (x : ℚ) : ⌊x⌋ ≤ roundNearestEven x := by
  unfold roundNearestEven
  split
  · exact le_refl _
  · split
    · omega
    · split <;> omega

theorem roundNearestEven_le_floor_succ (x : ℚ) : roundNearestEven x ≤ ⌊x⌋ + 1 := by
  unfold roundNearestEven
  split
  · omega
  · split
    · omega
    · split <;> omega

theorem roundNearestEven_intCast (k : Int) : roundNearestEven (k : ℚ) = k := by
  unfold roundNearestEven
  simp

theorem roundNearestEven_ge_int (x : ℚ) (k : Int) (h : (k : ℚ) ≤ x) :
    k ≤ roundNearestEven x :=
  le_trans (Int.le_floor.mpr h) (roundNearestEven_floor_le x)

theorem roundNearestEven_le_int (x : ℚ) (k : Int) (h : x ≤ (k : ℚ)) :
    roundNearestEven x ≤ k := by
  by_cases hx : x = (⌊x⌋ : ℚ)
  · rw [hx, roundNearestEven_intCast]
    have : ((⌊x⌋ : Int) : ℚ) ≤ (k : ℚ) := hx ▸ h
    exact_mod_cast this
  · have hlt : (⌊x⌋ : ℚ) < x := lt_of_le_of_ne (Int.floor_le x) (Ne.symm hx)
    have : ((⌊x⌋ : Int) : ℚ) < (k : ℚ) := lt_of_lt_of_le hlt h
    have h2 : ⌊x⌋ < k := by exact_mod_cast this
    have := roundNearestEven_le_floor_succ x
    omega

theorem roundNearestEven_eq_of_abs_lt (x : ℚ) (m : Int) (h : |x - (m : ℚ)| < 1 / 2) :
    roundNearestEven x = m := by
  rw [abs_lt] at h
  obtain ⟨h1, h2⟩ := h
  by_cases hm : (m : ℚ) ≤ x
  · have hf : ⌊x⌋ = m := by
      rw [Int.floor_eq_iff]
      constructor
      · exact hm
      · linarith
    unfold roundNearestEven
    rw [hf, if_pos (by linarith)]
  · push_neg at hm
    have hf : ⌊x⌋ = m - 1 := by
      rw [Int.floor_eq_iff]
      push_cast
      constructor <;> linarith
    unfold roundNearestEven
    rw [hf]
    push_cast
    rw [if_neg (by linarith), if_pos (by linarith)]
    omega

theorem roundNearestEven_tie_even (x : ℚ) (m : Int) (hm : m % 2 = 0)
    (h : x = (m : ℚ) + 1 / 2 ∨ x = (m : ℚ) - 1 / 2) : roundNearestEven x = m := by
  rcases h with h | h
  · have hf : ⌊x⌋ = m := by
      rw [Int.floor_eq_iff]
      constructor <;> linarith
    unfold roundNearestEven
    rw [hf, if_neg (by linarith), if_neg (by linarith), if_pos hm]
  · have hf : ⌊x⌋ = m - 1 := by
      rw [Int.floor_eq_iff]
      push_cast
      constructor <;> linarith
    unfold roundNearestEven
    rw [hf]
    push_cast
    rw [if_neg (by linarith), if_neg (by linarith), if_neg (by omega)]
    omega

theorem ulpExponent_eq (q : ℚ) (e : Int) (he : -1022 ≤ e) (h1 : (2 : ℚ) ^ e ≤ |q|)
    (h2 : |q| < (2 : ℚ) ^ (e + 1)) : ulpExponent q = e - 52 := by
  have hpos : 0 < |q| := lt_of_lt_of_le (by positivity) h1
  have hb : 1 < (2 : Nat) := by norm_num
  have hl1 : e ≤ Int.log 2 |q| := (Int.zpow_le_iff_le_log hb hpos).mp (by exact_mod_cast h1)
  have hl2 : Int.log 2 |q| < e + 1 := (Int.lt_zpow_iff_log_lt hb hpos).mp (by exact_mod_cast h2)
  unfold ulpExponent
  have : Int.log 2 |q| = e := by omega
  rw [this, max_eq_left he]

theorem roundFinite_zero : roundFinite 0 = 0 := by
  unfold roundFinite
  simp [roundNearestEven]

theorem roundFinite_nonneg (q : ℚ) (h : 0 ≤ q) : 0 ≤ roundFinite q := by
  unfold roundFinite
  have hu : (0 : ℚ) < (2 : ℚ) ^ ulpExponent q := by positivity
  have hk : (0 : Int) ≤ roundNearestEven (q / (2 : ℚ) ^ ulpExponent q) :=
    roundNearestEven_ge_int _ 0 (by simpa using div_nonneg h (le_of_lt hu))
  have : (0 : ℚ) ≤ (roundNearestEven (q / (2 : ℚ) ^ ulpExponent q) : ℚ) := by exact_mod_cast hk
  exact mul_nonneg this (le_of_lt hu)

theorem roundNearestEven_mono (x y : ℚ) (h : x ≤ y) :
    roundNearestEven x ≤ roundNearestEven y := by
  have hf : ⌊x⌋ ≤ ⌊y⌋ := Int.floor_mono h
  rcases lt_or_eq_of_le hf with hlt | heq
  · have h1 := roundNearestEven_le_floor_succ x
    have h2 := roundNearestEven_floor_le y
    omega
  · unfold roundNearestEven
    rw [heq]
    have hxy : x - (⌊y⌋ : ℚ) ≤ y - (⌊y⌋ : ℚ) := by linarith
    split_ifs <;> first | omega | (exfalso; linarith)

theorem abs_div_ulp_lt (q : ℚ) : |q / (2 : ℚ) ^ ulpExponent q| < 9007199254740992 := by
  have hu : (0 : ℚ) < (2 : ℚ) ^ ulpExponent q := by positivity
  rw [abs_div, abs_of_pos hu, div_lt_iff₀ hu]
  have h1 : |q| < (2 : ℚ) ^ (Int.log 2 |q| + 1) := by
    exact_mod_cast Int.lt_zpow_succ_log_self (b := 2) (by norm_num) |q|
  have h2 : (2 : ℚ) ^ (Int.log 2 |q| + 1) ≤ (2 : ℚ) ^ (ulpExponent q + 53) := by
    apply zpow_le_zpow_right₀ (by norm_num)
    unfold ulpExponent
    have := le_max_left (Int.log 2 |q|) (-1022)
    omega
  have h3 : (2 : ℚ) ^ (ulpExponent q + 53) = 9007199254740992 * (2 : ℚ) ^ ulpExponent q := by
    rw [zpow_add₀ (by norm_num)]
    norm_num
    ring
  linarith

theorem le_abs_div_ulp (q : ℚ) (hq : q ≠ 0) (hu : ulpExponent q ≠ -1074) :
    4503599627370496 ≤ |q / (2 : ℚ) ^ ulpExponent q| := by
  have hp : (0 : ℚ) < (2 : ℚ) ^ ulpExponent q := by positivity
  have hpos : 0 < |q| := abs_pos.mpr hq
  rw [abs_div, abs_of_pos hp, le_div_iff₀ hp]
  have hlog : ulpExponent q + 52 = Int.log 2 |q| := by
    unfold ulpExponent at hu ⊢
    rcases max_cases (Int.log 2 |q|) (-1022) with ⟨h1, h2⟩ | ⟨h1, h2⟩
    · omega
    · omega
  have h1 : (2 : ℚ) ^ (Int.log 2 |q|) ≤ |q| := by
    exact_mod_cast Int.zpow_log_le_self (b := 2) (by norm_num) hpos
  have h3 : (2 : ℚ) ^ (ulpExponent q + 52) = 4503599627370496 * (2 : ℚ) ^ ulpExponent q := by
    rw [zpow_add₀ (by norm_num)]
    norm_num
    ring
  rw [← hlog, h3] at h1
  exact h1

theorem ulpExponent_ge (q : ℚ) : -1074 ≤ ulpExponent q := by
  unfold ulpExponent
  have := le_max_right (Int.log 2 |q|) (-1022)
  omega

theorem ulpExponent_subnormal (q : ℚ) (hq : q ≠ 0) (h : |q| < (2 : ℚ) ^ (-1022 : Int)) :
    ulpExponent q = -1074 := by
  have hpos : 0 < |q| := abs_pos.mpr hq
  have hl : Int.log 2 |q| < -1022 :=
    (Int.lt_zpow_iff_log_lt (b := 2) (by norm_num) hpos).mp (by exact_mod_cast h)
  unfold ulpExponent
  rw [max_eq_right (le_of_lt hl)]
  rfl

/-- A value on the binary64 grid is left as it is by rounding: `k * 2 ^ u` with at most 53
significant bits, `u` not below the subnormal spacing, and a full significand unless `u` is
that spacing. -/
theorem roundFinite_grid (k u : Int) (hu : -1074 ≤ u) (hk1 : |k| ≤ 9007199254740992)
    (hk2 : u = -1074 ∨ 4503599627370496 ≤ |k|) :
    roundFinite ((k : ℚ) * (2 : ℚ) ^ u) = (k : ℚ) * (2 : ℚ) ^ u := by
  have hp : (0 : ℚ) < (2 : ℚ) ^ u := by positivity
  have habs : |(k : ℚ) * (2 : ℚ) ^ u| = ((|k| : Int) : ℚ) * (2 : ℚ) ^ u := by
    rw [abs_mul, abs_of_pos hp, Int.cast_abs]
  by_cases hk0 : k = 0
  · subst hk0
    simp [roundFinite, roundNearestEven]
  have hkpos : 0 < |k| := abs_pos.mpr hk0
  have hq0 : (k : ℚ) * (2 : ℚ) ^ u ≠ 0 := by
    apply mul_ne_zero
    · exact_mod_cast hk0
    · exact ne_of_gt hp
  by_cases hfull : |k| = 9007199254740992
  · -- the value is a power of two: the spacing is `2 ^ (u + 1)`
    have hule : ulpExponent ((k : ℚ) * (2 : ℚ) ^ u) = (u + 53) - 52 := by
      apply ulpExponent_eq _ _ (by omega)
      · rw [habs, hfull, zpow_add₀ (by norm_num)]
        norm_num
        linarith
      · rw [habs, hfull, zpow_add₀ (by norm_num : (2 : ℚ) ≠ 0), zpow_add₀ (by norm_num)]
        norm_num
        linarith
    have hdiv : (k : ℚ) * (2 : ℚ) ^ u / (2 : ℚ) ^ (u + 53 - 52) = ((k / 2 : Int) : ℚ) := by
      have h2 : (2 : ℚ) ^ (u + 53 - 52) = (2 : ℚ) ^ u * 2 := by
        have : u + 53 - 52 = u + 1 := by ring
        rw [this, zpow_add_one₀ (by norm_num)]
      have hk2' : k = 2 * (k / 2) := by
        rcases abs_eq (by norm_num : (0 : Int) ≤ 9007199254740992) |>.mp hfull with h | h <;>
          rw [h] <;> decide
      rw [h2]
      conv_lhs => rw [hk2']
      push_cast
      field_simp
      ring
    have hmul : ((k / 2 : Int) : ℚ) * (2 : ℚ) ^ (u + 53 - 52) = (k : ℚ) * (2 : ℚ) ^ u := by
      rw [← hdiv]
      field_simp
    unfold roundFinite
    rw [hule, hdiv, roundNearestEven_intCast, hmul]
  · have hlt : |k| < 9007199254740992 := lt_of_le_of_ne hk1 hfull
    have hule : ulpExponent ((k : ℚ) * (2 : ℚ) ^ u) = u := by
      by_cases hbig : 4503599627370496 ≤ |k|
      · have := ulpExponent_eq ((k : ℚ) * (2 : ℚ) ^ u) (u + 52) (by omega)
          (by
            rw [habs, zpow_add₀ (by norm_num)]
            have : ((4503599627370496 : Int) : ℚ) ≤ ((|k| : Int) : ℚ) := by exact_mod_cast hbig
            norm_num at this ⊢
            nlinarith)
          (by
            have h53 : u + 52 + 1 = u + 53 := by ring
            rw [habs, h53, zpow_add₀ (by norm_num)]
            have : ((|k| : Int) : ℚ) < ((9007199254740992 : Int) : ℚ) := by exact_mod_cast hlt
            norm_num at this ⊢
            nlinarith)
        omega
      · have hu1 : u = -1074 := by
          rcases hk2 with h | h
          · exact h
          · exact absurd h hbig
        push_neg at hbig
        rw [hu1] at habs ⊢
        apply ulpExponent_subnormal _ (by rw [← hu1]; exact hq0)
        rw [habs]
        have : ((|k| : Int) : ℚ) < ((4503599627370496 : Int) : ℚ) := by exact_mod_cast hbig
        have h2 : (2 : ℚ) ^ (-1022 : Int) = 4503599627370496 * (2 : ℚ) ^ (-1074 : Int) := by
          have : (-1022 : Int) = 52 + -1074 := by norm_num
          rw [this, zpow_add₀ (by norm_num)]
          norm_num
        rw [h2]
        have hp2 : (0 : ℚ) < (2 : ℚ) ^ (-1074 : Int) := by positivity
        norm_num at this ⊢
        nlinarith
    unfold roundFinite
    rw [hule]
    have hdiv : (k : ℚ) * (2 : ℚ) ^ u / (2 : ℚ) ^ u = (k : ℚ) := by field_simp
    rw [hdiv, roundNearestEven_intCast]

theorem roundFinite_idem (p : ℚ) : roundFinite (roundFinite p) = roundFinite p := by
  by_cases hp0 : p = 0
  · subst hp0
    rw [roundFinite_zero, roundFinite_zero]
  have h : roundFinite p
      = ((roundNearestEven (p / (2 : ℚ) ^ ulpExponent p) : Int) : ℚ)
          * (2 : ℚ) ^ ulpExponent p := rfl
  rw [h]
  apply roundFinite_grid _ _ (ulpExponent_ge p)
  · have hb := abs_div_ulp_lt p
    rw [abs_lt] at hb
    have h1 := roundNearestEven_le_int (p / (2 : ℚ) ^ ulpExponent p) 9007199254740992
      (by push_cast; linarith [hb.2])
    have h2 := roundNearestEven_ge_int (p / (2 : ℚ) ^ ulpExponent p) (-9007199254740992)
      (by push_cast; linarith [hb.1])
    rw [abs_le]
    exact ⟨h2, h1⟩
  · by_cases hu : ulpExponent p = -1074
    · left
      exact hu
    · right
      have hb := le_abs_div_ulp p hp0 hu
      rcases le_abs.mp hb with hc | hc
      · have h1 := roundNearestEven_ge_int (p / (2 : ℚ) ^ ulpExponent p) 4503599627370496
          (by push_cast; exact hc)
        exact le_abs.mpr (Or.inl h1)
      · have h1 := roundNearestEven_le_int (p / (2 : ℚ) ^ ulpExponent p) (-4503599627370496)
          (by push_cast; linarith)
        exact le_abs.mpr (Or.inr (by omega))

theorem roundFinite_mono (q1 q2 : ℚ) (h0 : 0 ≤ q1) (h : q1 ≤ q2) :
    roundFinite q1 ≤ roundFinite q2 := by
  rcases eq_or_lt_of_le h0 with h0e | hpos
  · rw [← h0e, roundFinite_zero]
    exact roundFinite_nonneg q2 (le_trans h0 h)
  have hpos2 : 0 < q2 := lt_of_lt_of_le hpos h
  have hv : ulpExponent q1 ≤ ulpExponent q2 := by
    unfold ulpExponent
    have h1 : Int.log 2 |q1| ≤ Int.log 2 |q2| :=
      Int.log_mono_right (abs_pos.mpr (ne_of_gt hpos))
        (by rw [abs_of_pos hpos, abs_of_pos hpos2]; exact h)
    have h2 := max_le_max h1 (le_refl (-1022 : Int))
    omega
  have hp1 : (0 : ℚ) < (2 : ℚ) ^ ulpExponent q1 := by positivity
  have hp2 : (0 : ℚ) < (2 : ℚ) ^ ulpExponent q2 := by positivity
  rcases eq_or_lt_of_le hv with heq | hlt
  · unfold roundFinite
    rw [heq]
    have hm := roundNearestEven_mono (q1 / (2 : ℚ) ^ ulpExponent q2)
      (q2 / (2 : ℚ) ^ ulpExponent q2) (div_le_div_of_nonneg_right h (le_of_lt hp2))
    have hc : ((roundNearestEven (q1 / (2 : ℚ) ^ ulpExponent q2) : Int) : ℚ)
        ≤ ((roundNearestEven (q2 / (2 : ℚ) ^ ulpExponent q2) : Int) : ℚ) := by
      exact_mod_cast hm
    exact mul_le_mul_of_nonneg_right hc (le_of_lt hp2)
  · have hu2 : ulpExponent q2 ≠ -1074 := by
      have := ulpExponent_ge q1
      omega
    have hlow := le_abs_div_ulp q2 (ne_of_gt hpos2) hu2
    rw [abs_of_pos (div_pos hpos2 hp2)] at hlow
    have hhigh := abs_div_ulp_lt q1
    rw [abs_of_pos (div_pos hpos hp1)] at hhigh
    have h1 := roundNearestEven_le_int (q1 / (2 : ℚ) ^ ulpExponent q1) 9007199254740992
      (by push_cast; linarith)
    have h2 := roundNearestEven_ge_int (q2 / (2 : ℚ) ^ ulpExponent q2) 4503599627370496
      (by push_cast; exact hlow)
    have h1c : ((roundNearestEven (q1 / (2 : ℚ) ^ ulpExponent q1) : Int) : ℚ)
        ≤ 9007199254740992 := by exact_mod_cast h1
    have h2c : (4503599627370496 : ℚ)
        ≤ ((roundNearestEven (q2 / (2 : ℚ) ^ ulpExponent q2) : Int) : ℚ) := by exact_mod_cast h2
    have hpw : (2 : ℚ) * (2 : ℚ) ^ ulpExponent q1 ≤ (2 : ℚ) ^ ulpExponent q2 := by
      have : (2 : ℚ) * (2 : ℚ) ^ ulpExponent q1 = (2 : ℚ) ^ (ulpExponent q1 + 1) := by
        rw [zpow_add_one₀ (by norm_num)]
        ring
      rw [this]
      exact zpow_le_zpow_right₀ (by norm_num) (by omega)
    unfold roundFinite
    calc ((roundNearestEven (q1 / (2 : ℚ) ^ ulpExponent q1) : Int) : ℚ)
          * (2 : ℚ) ^ ulpExponent q1
        ≤ 9007199254740992 * (2 : ℚ) ^ ulpExponent q1 :=
          mul_le_mul_of_nonneg_right h1c (le_of_lt hp1)
      _ = 4503599627370496 * ((2 : ℚ) * (2 : ℚ) ^ ulpExponent q1) := by ring
      _ ≤ 4503599627370496 * (2 : ℚ) ^ ulpExponent q2 :=
          mul_le_mul_of_nonneg_left hpw (by norm_num)
      _ ≤ ((roundNearestEven (q2 / (2 : ℚ) ^ ulpExponent q2) : Int) : ℚ)
          * (2 : ℚ) ^ ulpExponent q2 := mul_le_mul_of_nonneg_right h2c (le_of_lt hp2)

theorem roundToDouble_zero : roundToDouble 0 = FloatingPoint.finite 0 := by
  unfold roundToDouble
  rw [roundFinite_zero, if_neg]
  norm_num

theorem roundToDouble_eq_finite (q a : ℚ) (h : roundToDouble q = FloatingPoint.finite a) :
    a = roundFinite q := by
  unfold roundToDouble at h
  split at h
  · split at h <;> exact absurd h (by simp)
  · exact (FloatingPoint.finite.inj h).symm

/-- A value on the binary64 grid is the exact result of an operation that yields it. -/
theorem roundToDouble_grid (q : ℚ) (k u : Int) (hq : q = (k : ℚ) * (2 : ℚ) ^ u)
    (hu : -1074 ≤ u) (hu2 : u ≤ 970) (hk1 : |k| ≤ 9007199254740992)
    (hk2 : u = -1074 ∨ 4503599627370496 ≤ |k|) : roundToDouble q = FloatingPoint.finite q := by
  have hr : roundFinite q = q := by
    rw [hq]
    exact roundFinite_grid k u hu hk1 hk2
  unfold roundToDouble
  rw [hr, if_neg]
  rw [not_le, hq, abs_mul, abs_of_pos (by positivity : (0 : ℚ) < (2 : ℚ) ^ u)]
  have h1 : |(k : ℚ)| ≤ 9007199254740992 := by
    rw [← Int.cast_abs]
    exact_mod_cast hk1
  have h2 : (2 : ℚ) ^ u ≤ (2 : ℚ) ^ (970 : Int) := zpow_le_zpow_right₀ (by norm_num) hu2
  have h3 : (9007199254740992 : ℚ) * (2 : ℚ) ^ (970 : Int) < (2 : ℚ) ^ (1024 : Nat) := by
    norm_num
  have h4 : (0 : ℚ) < (2 : ℚ) ^ u := by positivity
  calc |(k : ℚ)| * (2 : ℚ) ^ u ≤ 9007199254740992 * (2 : ℚ) ^ u :=
        mul_le_mul_of_nonneg_right h1 (le_of_lt h4)
    _ ≤ 9007199254740992 * (2 : ℚ) ^ (970 : Int) := mul_le_mul_of_nonneg_left h2 (by norm_num)
    _ < (2 : ℚ) ^ (1024 : Nat) := h3

theorem roundToDouble_of_nonneg (q : ℚ) (h : 0 ≤ q) :
    roundToDouble q = FloatingPoint.posInf ∨
      roundToDouble q = FloatingPoint.finite (roundFinite q) := by
  unfold roundToDouble
  split
  · rename_i hbig
    rcases eq_or_lt_of_le h with h0 | hpos
    · exfalso
      rw [← h0, roundFinite_zero] at hbig
      norm_num at hbig
    · left
      rw [if_pos hpos]
  · right
    rfl

theorem roundToDouble_of_nonpos (q : ℚ) (h : q ≤ 0) :
    roundToDouble q = FloatingPoint.negInf ∨
      roundToDouble q = FloatingPoint.finite (roundFinite q) := by
  unfold roundToDouble
  split
  · left
    rw [if_neg (not_lt.mpr h)]
  · right
    rfl

theorem FloatingPoint.zero_eq : (0 : FloatingPoint) = FloatingPoint.finite 0 := rfl

theorem FloatingPoint.one_eq : (1 : FloatingPoint) = FloatingPoint.finite 1 := rfl

theorem FloatingPoint.lt_iff_blt (a b : FloatingPoint) :
    a < b ↔ FloatingPoint.blt a b = true := Iff.rfl

theorem FloatingPoint.le_iff_ble (a b : FloatingPoint) :
    a ≤ b ↔ FloatingPoint.ble a b = true := Iff.rfl

theorem FloatingPoint.finite_lt_finite (a b : ℚ) :
    FloatingPoint.finite a < FloatingPoint.finite b ↔ a < b := by
  rw [FloatingPoint.lt_iff_blt]
  simp [FloatingPoint.blt]

theorem FloatingPoint.finite_le_finite (a b : ℚ) :
    FloatingPoint.finite a ≤ FloatingPoint.finite b ↔ a ≤ b := by
  rw [FloatingPoint.le_iff_ble]
  simp [FloatingPoint.ble]

theorem FloatingPoint.finite_lt_iff (a : ℚ) (x : FloatingPoint) :
    FloatingPoint.finite a < x ↔
      x = FloatingPoint.posInf ∨ ∃ b, x = FloatingPoint.finite b ∧ a < b := by
  rw [FloatingPoint.lt_iff_blt]
  cases x <;> simp [FloatingPoint.blt]

theorem FloatingPoint.finite_le_iff (a : ℚ) (x : FloatingPoint) :
    FloatingPoint.finite a ≤ x ↔
      x = FloatingPoint.posInf ∨ ∃ b, x = FloatingPoint.finite b ∧ a ≤ b := by
  rw [FloatingPoint.le_iff_ble]
  cases x <;> simp [FloatingPoint.ble]

theorem FloatingPoint.lt_finite_iff (x : FloatingPoint) (b : ℚ) :
    x < FloatingPoint.finite b ↔
      x = FloatingPoint.negInf ∨ ∃ a, x = FloatingPoint.finite a ∧ a < b := by
  rw [FloatingPoint.lt_iff_blt]
  cases x <;> simp [FloatingPoint.blt]

theorem FloatingPoint.le_finite_iff (x : FloatingPoint) (b : ℚ) :
    x ≤ FloatingPoint.finite b ↔
      x = FloatingPoint.negInf ∨ ∃ a, x = FloatingPoint.finite a ∧ a ≤ b := by
  rw [FloatingPoint.le_iff_ble]
  cases x <;> simp [FloatingPoint.ble]

/-- The range test `value < 0.0 || value > 1.0` is passed by the values of `[0, 1]` and by a
NaN, and by nothing else. -/
theorem FloatingPoint.not_outside_unit_iff (v : FloatingPoint) :
    ¬ (v < 0 ∨ v > 1) ↔ v = FloatingPoint.nan ∨ (0 ≤ v ∧ v ≤ 1) := by
  rw [FloatingPoint.zero_eq, FloatingPoint.one_eq]
  show ¬ (FloatingPoint.blt _ _ = true ∨ FloatingPoint.blt _ _ = true) ↔
    _ ∨ (FloatingPoint.ble _ _ = true ∧ FloatingPoint.ble _ _ = true)
  cases v <;> simp [FloatingPoint.blt, FloatingPoint.ble]

theorem FloatingPoint.not_outside_unit (v : FloatingPoint) (h0 : 0 ≤ v) (h1 : v ≤ 1) :
    ¬ (v < 0 ∨ v > 1) :=
  (FloatingPoint.not_outside_unit_iff v).mpr (Or.inr ⟨h0, h1⟩)

theorem FloatingPoint.zero_le_finite (q : ℚ) (h : 0 ≤ q) :
    (0 : FloatingPoint) ≤ FloatingPoint.finite q := by
  rw [FloatingPoint.zero_eq, FloatingPoint.finite_le_finite]
  exact h

theorem FloatingPoint.finite_le_one (q : ℚ) (h : q ≤ 1) :
    FloatingPoint.finite q ≤ (1 : FloatingPoint) := by
  rw [FloatingPoint.one_eq, FloatingPoint.finite_le_finite]
  exact h

theorem FloatingPoint.unit_of_finite (q : ℚ) (h0 : 0 ≤ q) (h1 : q ≤ 1) :
    ¬ ((FloatingPoint.finite q : FloatingPoint) < 0 ∨ (FloatingPoint.finite q : FloatingPoint) > 1) :=
  FloatingPoint.not_outside_unit _ (FloatingPoint.zero_le_finite q h0)
    (FloatingPoint.finite_le_one q h1)

theorem wrapInt32_of_range (z : Int) (h1 : -2147483648 ≤ z) (h2 : z ≤ 2147483647) :
    wrapInt32 z = z := by
  unfold wrapInt32
  omega

theorem wrapInt32_range (z : Int) : -2147483648 ≤ wrapInt32 z ∧ wrapInt32 z ≤ 2147483647 := by
  unfold wrapInt32
  omega

theorem doubleToInt_range (x : CDouble) :
    -2147483648 ≤ doubleToInt x ∧ doubleToInt x ≤ 2147483647 := by
  cases x with
  | finite a =>
    simp only [doubleToInt]
    split_ifs <;> omega
  | posInf => exact ⟨by decide, by decide⟩
  | negInf => exact ⟨by decide, by decide⟩
  | nan => exact ⟨by decide, by decide⟩

theorem doubleToInt_of_nonneg (a : ℚ) (h0 : 0 ≤ a) (h1 : a < 2147483648) :
    doubleToInt (FloatingPoint.finite a) = ⌊a⌋ := by
  have hf0 : 0 ≤ ⌊a⌋ := Int.floor_nonneg.mpr h0
  have hf1 : ⌊a⌋ < 2147483648 := by
    rw [Int.floor_lt]
    exact_mod_cast h1
  unfold doubleToInt
  simp only [if_pos h0]
  rw [if_pos ⟨by omega, by omega⟩]

/-- A finite value of `2 ^ 31` or more does not fit an `int`: the conversion delivers
`INT_MIN`. -/
theorem doubleToInt_of_large (a : ℚ) (h : 2147483648 ≤ a) :
    doubleToInt (FloatingPoint.finite a) = -2147483648 := by
  have h0 : 0 ≤ a := by linarith
  have hf : (2147483648 : Int) ≤ ⌊a⌋ := Int.le_floor.mpr (by exact_mod_cast h)
  unfold doubleToInt
  simp only [if_pos h0]
  rw [if_neg (by omega)]

theorem doubleToInt_intCast (k : Int) (h1 : -2147483648 ≤ k) (h2 : k ≤ 2147483647) :
    doubleToInt (FloatingPoint.finite (k : ℚ)) = k := by
  unfold doubleToInt
  simp only [Int.floor_intCast, Int.ceil_intCast, ite_self]
  rw [if_pos ⟨h1, h2⟩]

theorem FloatingPoint.lt_imp_le (a b : FloatingPoint) (h : a < b) : a ≤ b := by
  rw [FloatingPoint.lt_iff_blt] at h
  rw [FloatingPoint.le_iff_ble]
  cases a <;> cases b <;> simp [FloatingPoint.blt, FloatingPoint.ble] at h ⊢
  exact le_of_lt h

theorem FloatingPoint.not_le_of_lt (a b : FloatingPoint) (h : a < b) : ¬ b ≤ a := by
  rw [FloatingPoint.lt_iff_blt] at h
  rw [FloatingPoint.le_iff_ble]
  cases a <;> cases b <;> simp [FloatingPoint.blt, FloatingPoint.ble] at h ⊢
  exact h

theorem FloatingPoint.ceil_eq_finite (x : CDouble) (c : ℚ)
    (h : FloatingPoint.ceil x = FloatingPoint.finite c) :
    ∃ a, x = FloatingPoint.finite a ∧ c = ((⌈a⌉ : Int) : ℚ) := by
  cases x with
  | finite a => exact ⟨a, rfl, (FloatingPoint.finite.inj h).symm⟩
  | posInf => simp [FloatingPoint.ceil] at h
  | negInf => simp [FloatingPoint.ceil] at h
  | nan => simp [FloatingPoint.ceil] at h

theorem FloatingPoint.mul_eq_finite (x y : CDouble) (c : ℚ)
    (h : FloatingPoint.mul x y = FloatingPoint.finite c) :
    ∃ a b, x = FloatingPoint.finite a ∧ y = FloatingPoint.finite b ∧
      roundToDouble (a * b) = FloatingPoint.finite c ∧ c = roundFinite (a * b) := by
  cases x with
  | finite a =>
    cases y with
    | finite b => exact ⟨a, b, rfl, rfl, h, roundToDouble_eq_finite _ _ h⟩
    | posInf =>
      simp only [FloatingPoint.mul] at h
      split_ifs at h
    | negInf =>
      simp only [FloatingPoint.mul] at h
      split_ifs at h
    | nan => simp [FloatingPoint.mul] at h
  | posInf =>
    cases y with
    | finite b =>
      simp only [FloatingPoint.mul] at h
      split_ifs at h
    | posInf => simp [FloatingPoint.mul] at h
    | negInf => simp [FloatingPoint.mul] at h
    | nan => simp [FloatingPoint.mul] at h
  | negInf =>
    cases y with
    | finite b =>
      simp only [FloatingPoint.mul] at h
      split_ifs at h
    | posInf => simp [FloatingPoint.mul] at h
    | negInf => simp [FloatingPoint.mul] at h
    | nan => simp [FloatingPoint.mul] at h
  | nan => cases y <;> simp [FloatingPoint.mul] at h

theorem FloatingPoint.add_eq_finite (x y : CDouble) (c : ℚ)
    (h : FloatingPoint.add x y = FloatingPoint.finite c) :
    ∃ a b, x = FloatingPoint.finite a ∧ y = FloatingPoint.finite b ∧
      roundToDouble (a + b) = FloatingPoint.finite c ∧ c = roundFinite (a + b) := by
  cases x with
  | finite a =>
    cases y with
    | finite b => exact ⟨a, b, rfl, rfl, h, roundToDouble_eq_finite _ _ h⟩
    | posInf => simp [FloatingPoint.add] at h
    | negInf => simp [FloatingPoint.add] at h
    | nan => simp [FloatingPoint.add] at h
  | posInf => cases y <;> simp [FloatingPoint.add] at h
  | negInf => cases y <;> simp [FloatingPoint.add] at h
  | nan => cases y <;> simp [FloatingPoint.add] at h

theorem FloatingPoint.divInt_eq_finite (x : CDouble) (b : Int) (c : ℚ)
    (h : FloatingPoint.divInt x b = FloatingPoint.finite c) :
    ∃ a, x = FloatingPoint.finite a ∧ b ≠ 0 ∧ c = roundFinite (a / (b : ℚ)) := by
  cases x with
  | finite a =>
    simp only [FloatingPoint.divInt] at h
    by_cases hb : b = 0
    · rw [if_pos hb] at h
      split_ifs at h
    · rw [if_neg hb] at h
      exact ⟨a, rfl, hb, roundToDouble_eq_finite _ _ h⟩
  | posInf =>
    simp only [FloatingPoint.divInt] at h
    split_ifs at h
  | negInf =>
    simp only [FloatingPoint.divInt] at h
    split_ifs at h
  | nan => simp [FloatingPoint.divInt] at h

/-- Evaluation of a rounding away from a tie: `q` lies in the binade of exponent `e` and
within half a unit in the last place of `m * 2 ^ (e - 52)`. -/
theorem roundToDouble_near (q : ℚ) (e m : Int) (he : -1022 ≤ e) (h1 : (2 : ℚ) ^ e ≤ |q|)
    (h2 : |q| < (2 : ℚ) ^ (e + 1)) (hm : |q / (2 : ℚ) ^ (e - 52) - (m : ℚ)| < 1 / 2)
    (hov : |(m : ℚ) * (2 : ℚ) ^ (e - 52)| < (2 : ℚ) ^ (1024 : Nat)) :
    roundToDouble q = FloatingPoint.finite ((m : ℚ) * (2 : ℚ) ^ (e - 52)) := by
  have hr : roundFinite q = (m : ℚ) * (2 : ℚ) ^ (e - 52) := by
    unfold roundFinite
    rw [ulpExponent_eq q e he h1 h2, roundNearestEven_eq_of_abs_lt _ m hm]
  unfold roundToDouble
  rw [hr, if_neg (not_le.mpr hov)]

/-- Evaluation of a rounding at a tie: `q` lies in the binade of exponent `e`, exactly between
two neighbours of the grid, of which `m * 2 ^ (e - 52)` is the even one. -/
theorem roundToDouble_tie (q : ℚ) (e m : Int) (he : -1022 ≤ e) (h1 : (2 : ℚ) ^ e ≤ |q|)
    (h2 : |q| < (2 : ℚ) ^ (e + 1)) (heven : m % 2 = 0)
    (hm : q / (2 : ℚ) ^ (e - 52) = (m : ℚ) + 1 / 2 ∨ q / (2 : ℚ) ^ (e - 52) = (m : ℚ) - 1 / 2)
    (hov : |(m : ℚ) * (2 : ℚ) ^ (e - 52)| < (2 : ℚ) ^ (1024 : Nat)) :
    roundToDouble q = FloatingPoint.finite ((m : ℚ) * (2 : ℚ) ^ (e - 52)) := by
  have hr : roundFinite q = (m : ℚ) * (2 : ℚ) ^ (e - 52) := by
    unfold roundFinite
    rw [ulpExponent_eq q e he h1 h2, roundNearestEven_tie_even _ m heven hm]
  unfold roundToDouble
  rw [hr, if_neg (not_le.mpr hov)]

theorem FloatingPoint.mul_finite_of_nonneg (x y : CDouble) (hx : 0 ≤ x) (hy : 0 ≤ y) (c : ℚ)
    (h : FloatingPoint.mul x y = FloatingPoint.finite c) : 0 ≤ c := by
  obtain ⟨a, b, rfl, rfl, -, hc⟩ := FloatingPoint.mul_eq_finite x y c h
  rw [FloatingPoint.zero_eq, FloatingPoint.finite_le_finite] at hx hy
  rw [hc]
  exact roundFinite_nonneg _ (mul_nonneg hx hy)

theorem FloatingPoint.divInt_finite_of_nonneg (x : CDouble) (b : Int) (hb : 0 < b)
    (hx : ∀ a, x = FloatingPoint.finite a → 0 ≤ a) (c : ℚ)
    (h : FloatingPoint.divInt x b = FloatingPoint.finite c) : 0 ≤ c := by
  obtain ⟨a, rfl, -, hc⟩ := FloatingPoint.divInt_eq_finite x b c h
  rw [hc]
  have hbq : (0 : ℚ) < (b : ℚ) := by exact_mod_cast hb
  exact roundFinite_nonneg _ (div_nonneg (hx a rfl) (le_of_lt hbq))

/-- Evaluation of a product whose exact value `c` lies on the binary64 grid. -/
theorem FloatingPoint.mul_finite_grid (a b c : ℚ) (k u : Int) (hc : a * b = c)
    (hq : c = (k : ℚ) * (2 : ℚ) ^ u) (hu : -1074 ≤ u) (hu2 : u ≤ 970)
    (hk1 : |k| ≤ 9007199254740992) (hk2 : u = -1074 ∨ 4503599627370496 ≤ |k|) :
    FloatingPoint.mul (FloatingPoint.finite a) (FloatingPoint.finite b)
      = FloatingPoint.finite c := by
  show roundToDouble (a * b) = _
  rw [hc]
  exact roundToDouble_grid c k u hq hu hu2 hk1 hk2

/-- Evaluation of a sum whose exact value `c` lies on the binary64 grid. -/
theorem FloatingPoint.add_finite_grid (a b c : ℚ) (k u : Int) (hc : a + b = c)
    (hq : c = (k : ℚ) * (2 : ℚ) ^ u) (hu : -1074 ≤ u) (hu2 : u ≤ 970)
    (hk1 : |k| ≤ 9007199254740992) (hk2 : u = -1074 ∨ 4503599627370496 ≤ |k|) :
    FloatingPoint.add (FloatingPoint.finite a) (FloatingPoint.finite b)
      = FloatingPoint.finite c := by
  show roundToDouble (a + b) = _
  rw [hc]
  exact roundToDouble_grid c k u hq hu hu2 hk1 hk2

/-- Evaluation of a quotient whose exact value `c` lies on the binary64 grid. -/
theorem FloatingPoint.divInt_finite_grid (a c : ℚ) (b k u : Int) (hb : b ≠ 0)
    (hc : a / (b : ℚ) = c) (hq : c = (k : ℚ) * (2 : ℚ) ^ u) (hu : -1074 ≤ u) (hu2 : u ≤ 970)
    (hk1 : |k| ≤ 9007199254740992) (hk2 : u = -1074 ∨ 4503599627370496 ≤ |k|) :
    FloatingPoint.divInt (FloatingPoint.finite a) b = FloatingPoint.finite c := by
  simp only [FloatingPoint.divInt, if_neg hb]
  rw [hc]
  exact roundToDouble_grid c k u hq hu hu2 hk1 hk2

theorem FloatingPoint.add_zero_finite (b : ℚ) (k u : Int)
    (hq : b = (k : ℚ) * (2 : ℚ) ^ u) (hu : -1074 ≤ u) (hu2 : u ≤ 970)
    (hk1 : |k| ≤ 9007199254740992) (hk2 : u = -1074 ∨ 4503599627370496 ≤ |k|) :
    FloatingPoint.add (FloatingPoint.finite 0) (FloatingPoint.finite b)
      = FloatingPoint.finite b :=
  FloatingPoint.add_finite_grid 0 b b k u (zero_add b) hq hu hu2 hk1 hk2

theorem doubleToInt_eq (a : ℚ) (k : Int) (h : a = (k : ℚ)) (h1 : -2147483648 ≤ k)
    (h2 : k ≤ 2147483647) : doubleToInt (FloatingPoint.finite a) = k := by
  rw [h]
  exact doubleToInt_intCast k h1 h2

theorem FloatingPoint.mul_zero_finite (b : ℚ) :
    FloatingPoint.mul (FloatingPoint.finite 0) (FloatingPoint.finite b)
      = FloatingPoint.finite 0 := by
  simp only [FloatingPoint.mul, zero_mul]
  exact roundToDouble_zero

/-! ## Theorems: parameter patch store -/

theorem anyOfCopy_found {index : Int} {overriden : PluginPatch} {copy q : Int × CFloat}
    (h : overriden.find? (fun p => decide (p.1 = index)) = some q) :
    anyOfCopy index overriden copy = (true, q) := by
  induction overriden generalizing copy with
  | nil => simp at h
  | cons p ps ih =>
    by_cases hp : p.1 = index
    · simp [List.find?, hp] at h
      subst h
      simp [anyOfCopy, hp]
    · simp [List.find?, hp] at h
      simp [anyOfCopy, hp, ih h]

theorem anyOfCopy_not_found {index : Int} {overriden : PluginPatch} {copy : Int × CFloat}
    (h : overriden.find? (fun p => decide (p.1 = index)) = none) :
    (anyOfCopy index overriden copy).1 = false := by
  induction overriden generalizing copy with
  | nil => simp [anyOfCopy]
  | cons p ps ih =>
    by_cases hp : p.1 = index
    · simp [List.find?, hp] at h
    · simp [List.find?, hp] at h
      simp only [anyOfCopy, hp, if_false]
      exact ih (by simpa using h)

theorem getPatchLoop_eq (overriden parameters : PluginPatch) (copy : Int × CFloat) :
    getPatchLoop overriden parameters copy = parameters.map (resolve overriden) := by
  induction parameters generalizing copy with
  | nil => rfl
  | cons parameter rest ih =>
    simp only [getPatchLoop, List.map_cons, ih]
    congr 1
    unfold resolve
    cases hf : overriden.find? (fun p => decide (p.1 = parameter.1)) with
    | none => simp [anyOfCopy_not_found hf]
    | some q => simp [anyOfCopy_found hf]

theorem resolve_nil (parameter : Int × CFloat) : resolve [] parameter = parameter := rfl

theorem getPatch_fst {σ : Type} (e : RenderEngine σ) :
    (getPatch e).1 = e.pluginParameters.map (resolve e.overridenParameters) := by
  unfold getPatch
  split
  · rename_i h
    have h0 : e.overridenParameters = [] := List.length_eq_zero.mp h
    simp only [h0]
    have : resolve [] = id := funext resolve_nil
    simp [this]
  · simp [getPatchLoop_eq]

theorem getPatch_snd {σ : Type} (e : RenderEngine σ) : (getPatch e).2 = e := by
  unfold getPatch
  split <;> rfl

theorem resolve_fst (overriden : PluginPatch) (parameter : Int × CFloat) :
    (resolve overriden parameter).1 = parameter.1 := by
  unfold resolve
  cases hf : overriden.find? (fun p => decide (p.1 = parameter.1)) with
  | none => rfl
  | some q => simpa using List.find?_some hf

theorem find_if_le (pred : Int × CFloat → Bool) (l : PluginPatch) : find_if pred l ≤ l.length := by
  induction l with
  | nil => simp [find_if]
  | cons p ps ih =>
    by_cases hp : pred p = true
    · simp [find_if, hp]
    · simp [find_if, hp, ih]

theorem find_if_eq_length_iff (pred : Int × CFloat → Bool) (l : PluginPatch) :
    find_if pred l = l.length ↔ ∀ p ∈ l, pred p = false := by
  induction l with
  | nil => simp [find_if]
  | cons p ps ih =>
    by_cases hp : pred p = true
    · simp [find_if, hp]
    · simp [find_if, hp, ih]

theorem set_find_if_eq_upsert (index : Int) (value : CFloat) (l : PluginPatch)
    (h : find_if (fun p => decide (p.1 = index)) l ≠ l.length) :
    l.set (find_if (fun p => decide (p.1 = index)) l)
        ((l.getD (find_if (fun p => decide (p.1 = index)) l) (0, 0)).1, value)
      = upsert index value l := by
  induction l with
  | nil => simp [find_if] at h
  | cons p ps ih =>
    by_cases hp : p.1 = index
    · simp [find_if, hp, upsert]
    · have h1 : find_if (fun p => decide (p.1 = index)) ps ≠ ps.length := by
        intro hc
        apply h
        simp [find_if, hp, hc]
      have h2 := ih h1
      simp [find_if, hp, upsert]
      simpa using h2

theorem append_eq_upsert (index : Int) (value : CFloat) (l : PluginPatch)
    (h : find_if (fun p => decide (p.1 = index)) l = l.length) :
    l ++ [(index, value)] = upsert index value l := by
  induction l with
  | nil => simp [upsert]
  | cons p ps ih =>
    by_cases hp : p.1 = index
    · simp [find_if, hp] at h
    · have h1 : find_if (fun p => decide (p.1 = index)) ps = ps.length := by
        simpa [find_if, hp] using h
      simp [upsert, hp, ih h1]

theorem eraseIdx_find_if_eq_eraseP (index : Int) (l : PluginPatch) :
    l.eraseIdx (find_if (fun p => decide (p.1 = index)) l)
      = l.eraseP (fun p => decide (p.1 = index)) := by
  induction l with
  | nil => simp [find_if]
  | cons p ps ih =>
    by_cases hp : p.1 = index
    · simp [find_if, hp]
    · simp [find_if, hp, ih, List.eraseP_cons]

theorem find?_upsert_same (index : Int) (value : CFloat) (l : PluginPatch) :
    (upsert index value l).find? (fun p => decide (p.1 = index)) = some (index, value) := by
  induction l with
  | nil => simp [upsert]
  | cons p ps ih =>
    by_cases hp : p.1 = index
    · simp [upsert, hp]
    · simp [upsert, hp, ih]

theorem find?_upsert_other (index j : Int) (value : CFloat) (l : PluginPatch) (hj : j ≠ index) :
    (upsert index value l).find? (fun p => decide (p.1 = j))
      = l.find? (fun p => decide (p.1 = j)) := by
  induction l with
  | nil => simp [upsert, Ne.symm hj]
  | cons p ps ih =>
    by_cases hp : p.1 = index
    · have hpj : ¬ p.1 = j := fun h => hj (h.symm.trans hp)
      simp [upsert, hp, List.find?, hpj]
      simp [hp] at hpj
      simp [hpj]
    · by_cases hpj : p.1 = j
      · simp [upsert, hp, List.find?, hpj, hj]
      · simp [upsert, hp, List.find?, hpj, ih]

theorem map_fst_upsert_of_mem (index : Int) (value : CFloat) (l : PluginPatch)
    (h : ∃ o ∈ l, o.1 = index) :
    (upsert index value l).map Prod.fst = l.map Prod.fst := by
  induction l with
  | nil => simp at h
  | cons p ps ih =>
    by_cases hp : p.1 = index
    · simp [upsert, hp]
    · have h1 : ∃ o ∈ ps, o.1 = index := by
        obtain ⟨o, ho, hoi⟩ := h
        rcases List.mem_cons.mp ho with rfl | ho
        · exact absurd hoi hp
        · exact ⟨o, ho, hoi⟩
      simp [upsert, hp, ih h1]

theorem resolve_upsert_same (index : Int) (value : CFloat) (l : PluginPatch) (q : Int × CFloat)
    (hq : q.1 = index) : resolve (upsert index value l) q = (index, value) := by
  unfold resolve
  rw [hq, find?_upsert_same]

theorem resolve_upsert_other (index : Int) (value : CFloat) (l : PluginPatch) (q : Int × CFloat)
    (hq : q.1 ≠ index) : resolve (upsert index value l) q = resolve l q := by
  unfold resolve
  rw [find?_upsert_other index q.1 value l hq]

theorem getD_last (l : PluginPatch) (last : Int × CFloat) (h : l.getLast? = some last) :
    l.getD (((l.length : Int) - 1).toNat) (0, 0) = last := by
  have h1 : ((l.length : Int) - 1).toNat = l.length - 1 := by omega
  rw [h1, List.getD_eq_getElem?_getD, ← List.getLast?_eq_getElem?, h]
  rfl

theorem indexInBounds_iff (parameters : PluginPatch) (index : Int) :
    indexInBounds parameters index ↔
      ∃ last, parameters.getLast? = some last ∧ 0 ≤ index ∧ index ≤ last.1 := by
  constructor
  · rintro ⟨h1, h2, h3⟩
    cases hl : parameters.getLast? with
    | none =>
      rw [List.getLast?_eq_none_iff] at hl
      simp [hl] at h1
    | some last =>
      rw [getD_last parameters last hl] at h2
      exact ⟨last, rfl, h3, h2⟩
  · rintro ⟨last, hl, h3, h2⟩
    refine ⟨?_, ?_, h3⟩
    · cases hp : parameters with
      | nil => simp [hp] at hl
      | cons a l => simp
    · rw [getD_last parameters last hl]
      exact h2

theorem overridePluginParameter_of_valid {σ : Type} (e : RenderEngine σ) (index : Int)
    (value : CFloat) (hb : indexInBounds e.pluginParameters index)
    (c4 : ¬ (value < 0 ∨ value > 1)) :
    overridePluginParameter e index value =
      (true, { e with overridenParameters := upsert index value e.overridenParameters }) := by
  obtain ⟨hn, hhi, hlo⟩ := hb
  unfold overridePluginParameter
  simp only []
  have c1 : ¬ ((e.pluginParameters.length : Int) - 1 < 0) := by omega
  rw [if_neg c1, if_neg (not_lt.mpr hhi), if_neg (not_lt.mpr hlo), if_neg c4]
  by_cases h5 : find_if (fun parameter => decide (parameter.1 = index)) e.overridenParameters
      = e.overridenParameters.length
  · rw [if_neg (by simp [h5])]
    rw [append_eq_upsert index value _ h5]
  · rw [if_pos (by simp [h5])]
    rw [set_find_if_eq_upsert index value _ h5]

theorem overridePluginParameter_of_invalid {σ : Type} (e : RenderEngine σ) (index : Int)
    (value : CFloat)
    (h : ¬ (indexInBounds e.pluginParameters index ∧ ¬ (value < 0 ∨ value > 1))) :
    overridePluginParameter e index value = (false, e) := by
  unfold overridePluginParameter
  simp only []
  by_cases c1 : (e.pluginParameters.length : Int) - 1 < 0
  · rw [if_pos c1]
  rw [if_neg c1]
  by_cases c2 : index >
      (e.pluginParameters.getD ((e.pluginParameters.length : Int) - 1).toNat (0, 0)).1
  · rw [if_pos c2]
  rw [if_neg c2]
  by_cases c3 : index < 0
  · rw [if_pos c3]
  rw [if_neg c3]
  by_cases c4 : value < 0 ∨ value > 1
  · rw [if_pos c4]
  exfalso
  apply h
  push_neg at c2 c3
  exact ⟨⟨by omega, c2, c3⟩, c4⟩


theorem removeOverridenParameter_of_present {σ : Type} (e : RenderEngine σ) (index : Int)
    (hb : indexInBounds e.pluginParameters index)
    (h : ∃ o ∈ e.overridenParameters, o.1 = index) :
    removeOverridenParameter e index =
      (true, { e with overridenParameters :=
                 e.overridenParameters.eraseP (fun p => decide (p.1 = index)) }) := by
  obtain ⟨hn, hhi, hlo⟩ := hb
  unfold removeOverridenParameter
  simp only []
  have c1 : ¬ ((e.pluginParameters.length : Int) - 1 < 0) := by omega
  have h5 : find_if (fun parameter => decide (parameter.1 = index)) e.overridenParameters
      ≠ e.overridenParameters.length := by
    rw [Ne, find_if_eq_length_iff]
    intro hc
    obtain ⟨o, ho, hoi⟩ := h
    simpa [hoi] using hc o ho
  rw [if_neg c1, if_neg (not_lt.mpr hhi), if_neg (not_lt.mpr hlo), if_pos (by simp [h5]),
    eraseIdx_find_if_eq_eraseP]

theorem removeOverridenParameter_of_absent {σ : Type} (e : RenderEngine σ) (index : Int)
    (h : ¬ (indexInBounds e.pluginParameters index ∧ ∃ o ∈ e.overridenParameters, o.1 = index)) :
    removeOverridenParameter e index = (false, e) := by
  unfold removeOverridenParameter
  simp only []
  by_cases c1 : (e.pluginParameters.length : Int) - 1 < 0
  · rw [if_pos c1]
  rw [if_neg c1]
  by_cases c2 : index >
      (e.pluginParameters.getD ((e.pluginParameters.length : Int) - 1).toNat (0, 0)).1
  · rw [if_pos c2]
  rw [if_neg c2]
  by_cases c3 : index < 0
  · rw [if_pos c3]
  rw [if_neg c3]
  by_cases h5 : find_if (fun parameter => decide (parameter.1 = index)) e.overridenParameters
      = e.overridenParameters.length
  · rw [if_neg (by simp [h5])]
  exfalso
  apply h
  push_neg at c2 c3
  refine ⟨⟨by omega, c2, c3⟩, ?_⟩
  by_contra hc
  push_neg at hc
  apply h5
  rw [find_if_eq_length_iff]
  intro o ho
  simpa using hc o ho

theorem upsert_of_mem (index : Int) (value : CFloat) (l : PluginPatch)
    (h : ∃ o ∈ l, o.1 = index) :
    ∃ l1 o l2, l = l1 ++ o :: l2 ∧ o.1 = index ∧ (∀ x ∈ l1, x.1 ≠ index) ∧
      upsert index value l = l1 ++ (index, value) :: l2 := by
  induction l with
  | nil => simp at h
  | cons p ps ih =>
    by_cases hp : p.1 = index
    · exact ⟨[], p, ps, rfl, hp, by simp, by simp [upsert, hp]⟩
    · have h1 : ∃ o ∈ ps, o.1 = index := by
        obtain ⟨o, ho, hoi⟩ := h
        rcases List.mem_cons.mp ho with rfl | ho
        · exact absurd hoi hp
        · exact ⟨o, ho, hoi⟩
      obtain ⟨l1, o, l2, e1, e2, e3, e4⟩ := ih h1
      refine ⟨p :: l1, o, l2, by simp [e1], e2, ?_, by simp [upsert, hp, e4]⟩
      intro x hx
      rcases List.mem_cons.mp hx with rfl | hx
      · exact hp
      · exact e3 x hx

theorem upsert_of_not_mem (index : Int) (value : CFloat) (l : PluginPatch)
    (h : ∀ o ∈ l, o.1 ≠ index) : upsert index value l = l ++ [(index, value)] := by
  induction l with
  | nil => rfl
  | cons p ps ih =>
    have hp : ¬ p.1 = index := h p (List.mem_cons_self _ _)
    simp [upsert, hp, ih (fun o ho => h o (List.mem_cons_of_mem _ ho))]

theorem nodup_keys_upsert (index : Int) (value : CFloat) (l : PluginPatch)
    (h : (l.map Prod.fst).Nodup) : ((upsert index value l).map Prod.fst).Nodup := by
  by_cases hm : ∃ o ∈ l, o.1 = index
  · rw [map_fst_upsert_of_mem index value l hm]
    exact h
  · push_neg at hm
    rw [upsert_of_not_mem index value l hm]
    simp only [List.map_append, List.map_cons, List.map_nil]
    rw [List.nodup_append]
    refine ⟨h, List.nodup_singleton _, ?_⟩
    intro a ha hb
    obtain ⟨o, ho, rfl⟩ := List.mem_map.mp ha
    simp at hb
    exact hm o ho hb

theorem nodup_keys_eraseP (pred : Int × CFloat → Bool) (l : PluginPatch)
    (h : (l.map Prod.fst).Nodup) : ((l.eraseP pred).map Prod.fst).Nodup :=
  h.sublist ((List.eraseP_sublist l).map Prod.fst)

theorem eraseP_eq_filter_of_nodup_keys (index : Int) (l : PluginPatch)
    (h : (l.map Prod.fst).Nodup) :
    l.eraseP (fun p => decide (p.1 = index)) = l.filter (fun p => decide (p.1 ≠ index)) := by
  induction l with
  | nil => rfl
  | cons p ps ih =>
    rw [List.map_cons, List.nodup_cons] at h
    by_cases hp : p.1 = index
    · have hall : ∀ o ∈ ps, decide (o.1 ≠ index) = true := by
        intro o ho
        have : o.1 ≠ p.1 := fun hc => h.1 (hc ▸ List.mem_map_of_mem Prod.fst ho)
        simpa [hp] using this
      have hf : ps.filter (fun p => decide (p.1 ≠ index)) = ps := List.filter_eq_self.mpr hall
      have hd : decide (p.1 ≠ index) = false := by simp [hp]
      rw [List.filter_cons, hd, hf]
      simp [List.eraseP_cons, hp]
    · simp [List.eraseP_cons, hp, ih h.2]

theorem threeParams_pluginParameters :
    threeParams.pluginParameters = [(0, 0), (1, 0), (2, 0)] := by decide

theorem gapEngine_pluginParameters : gapEngine.pluginParameters = [(0, 0), (2, 0)] := by decide

/-- C4: for an override vector with unique indices, `getPatch` returns a sequence as long as
the parameter vector whose `k`-th entry carries the index of the `k`-th parameter slot and the
value of the override entry with that index if there is one, the slot's own value otherwise;
with an empty override vector it returns the parameter vector; the engine state (parameter
vector and override vector) is left as it was. -/
theorem getPatch_effective {σ : Type} (e : RenderEngine σ)
    (hO : (e.overridenParameters.map Prod.fst).Nodup) :
    (getPatch e).2 = e ∧
    (getPatch e).1.length = e.pluginParameters.length ∧
    (∀ (k : Nat) (p : Int × CFloat), e.pluginParameters[k]? = some p →
      ∃ q : Int × CFloat, (getPatch e).1[k]? = some q ∧ q.1 = p.1 ∧
        (∀ o ∈ e.overridenParameters, o.1 = p.1 → q.2 = o.2) ∧
        ((∀ o ∈ e.overridenParameters, o.1 ≠ p.1) → q.2 = p.2)) ∧
    (e.overridenParameters = [] → (getPatch e).1 = e.pluginParameters) := by
  refine ⟨getPatch_snd e, by simp [getPatch_fst], ?_, ?_⟩
  · intro k p hk
    refine ⟨resolve e.overridenParameters p, by simp [getPatch_fst, hk], resolve_fst _ _, ?_, ?_⟩
    · intro o ho hop
      unfold resolve
      cases hf : e.overridenParameters.find? (fun x => decide (x.1 = p.1)) with
      | none =>
        have := List.find?_eq_none.mp hf o ho
        simp [hop] at this
      | some q =>
        have hq1 : q.1 = p.1 := by simpa using List.find?_some hf
        have hqm : q ∈ e.overridenParameters := List.mem_of_find?_eq_some hf
        have : q = o := List.inj_on_of_nodup_map hO hqm ho (hq1.trans hop.symm)
        simp [this]
    · intro hno
      unfold resolve
      cases hf : e.overridenParameters.find? (fun x => decide (x.1 = p.1)) with
      | none => rfl
      | some q =>
        have hq1 : q.1 = p.1 := by simpa using List.find?_some hf
        exact absurd hq1 (hno q (List.mem_of_find?_eq_some hf))
  · intro h0
    rw [getPatch_fst, h0]
    have : resolve [] = id := funext resolve_nil
    simp [this]

/-- Witness for C4: the three-parameter engine with the override `(1, 3/4)`. -/
theorem getPatch_effective_witness :
    (List.map Prod.fst [((1 : Int), (FloatingPoint.finite (3 / 4) : CFloat))]).Nodup ∧
      (getPatch
          { threeParams with overridenParameters := [(1, FloatingPoint.finite (3 / 4))] }).2
        = { threeParams with overridenParameters := [(1, FloatingPoint.finite (3 / 4))] } ∧
      (getPatch
          { threeParams with overridenParameters := [(1, FloatingPoint.finite (3 / 4))] }).1
        = [(0, 0), (1, FloatingPoint.finite (3 / 4)), (2, 0)] :=
  ⟨by simp,
    (getPatch_effective
      { threeParams with overridenParameters := [(1, FloatingPoint.finite (3 / 4))] }
      (by simp)).1,
    by simp [getPatch_fst, threeParams_pluginParameters, resolve]⟩

/-- C9: `setPatch` replaces the parameter vector by the supplied patch when the two have the
same length and leaves it as it was otherwise; the override vector is left as it was in both
cases. -/
theorem setPatch_spec {σ : Type} (e : RenderEngine σ) (patch : PluginPatch) :
    (setPatch e patch).pluginParameters
        = (if patch.length = e.pluginParameters.length then patch else e.pluginParameters) ∧
      (setPatch e patch).overridenParameters = e.overridenParameters := by
  unfold setPatch
  by_cases h : e.pluginParameters.length = patch.length
  · simp [h]
  · have h' : ¬ patch.length = e.pluginParameters.length := fun hc => h hc.symm
    simp [h, h']

theorem contiguous_last (parameters : PluginPatch)
    (hc : ∀ (k : Nat) (p : Int × CFloat), parameters[k]? = some p → p.1 = k)
    (last : Int × CFloat) (hl : parameters.getLast? = some last) :
    last.1 = (parameters.length : Int) - 1 := by
  rw [List.getLast?_eq_getElem?] at hl
  have h := hc _ _ hl
  have hlen : 0 < parameters.length := by
    by_contra h0
    have : parameters = [] := List.length_eq_zero.mp (by omega)
    simp [this] at hl
  rw [h]
  omega

theorem overridePluginParameter_success_iff {σ : Type} (e : RenderEngine σ) (index : Int)
    (value : CFloat) :
    (overridePluginParameter e index value).1 = true ↔
      indexInBounds e.pluginParameters index ∧ ¬ (value < 0 ∨ value > 1) := by
  constructor
  · intro h
    by_contra hc
    rw [overridePluginParameter_of_invalid e index value hc] at h
    simp at h
  · rintro ⟨hb, hv⟩
    rw [overridePluginParameter_of_valid e index value hb hv]

theorem removeOverridenParameter_success_iff {σ : Type} (e : RenderEngine σ) (index : Int) :
    (removeOverridenParameter e index).1 = true ↔
      indexInBounds e.pluginParameters index ∧ ∃ o ∈ e.overridenParameters, o.1 = index := by
  constructor
  · intro h
    by_contra hc
    rw [removeOverridenParameter_of_absent e index hc] at h
    simp at h
  · rintro ⟨hb, hm⟩
    rw [removeOverridenParameter_of_present e index hb hm]

/-- C5 (amended): `overridePluginParameter (index, value)` returns success if and only if the
parameter vector is not empty, `0 ≤ index ≤ L` for the index `L` stored in the last slot of
the parameter vector, and the range test `value < 0.0 || value > 1.0` is false, which it is
exactly for the values of `[0, 1]` and for a NaN; when the slot indices are `0, ..., N-1` in
order the bound `L` is `N-1`; on failure the engine state (override vector and parameter
vector) is exactly as it was. -/
theorem overridePluginParameter_validation {σ : Type} (e : RenderEngine σ) (index : Int)
    (value : CFloat) :
    ((overridePluginParameter e index value).1 = true ↔
        ∃ last, e.pluginParameters.getLast? = some last ∧
          0 ≤ index ∧ index ≤ last.1 ∧
          (value = FloatingPoint.nan ∨ (0 ≤ value ∧ value ≤ 1))) ∧
      ((∀ (k : Nat) (p : Int × CFloat), e.pluginParameters[k]? = some p → p.1 = k) →
        ((overridePluginParameter e index value).1 = true ↔
          0 < e.pluginParameters.length ∧ 0 ≤ index ∧
            index ≤ (e.pluginParameters.length : Int) - 1 ∧
            (value = FloatingPoint.nan ∨ (0 ≤ value ∧ value ≤ 1)))) ∧
      ((overridePluginParameter e index value).1 = false →
        (overridePluginParameter e index value).2 = e) := by
  have key : (overridePluginParameter e index value).1 = true ↔
      ∃ last, e.pluginParameters.getLast? = some last ∧
        0 ≤ index ∧ index ≤ last.1 ∧
        (value = FloatingPoint.nan ∨ (0 ≤ value ∧ value ≤ 1)) := by
    rw [overridePluginParameter_success_iff, indexInBounds_iff,
      FloatingPoint.not_outside_unit_iff]
    constructor
    · rintro ⟨⟨last, h1, h2, h3⟩, h4⟩
      exact ⟨last, h1, h2, h3, h4⟩
    · rintro ⟨last, h1, h2, h3, h4⟩
      exact ⟨⟨last, h1, h2, h3⟩, h4⟩
  refine ⟨key, ?_, ?_⟩
  · intro hc
    rw [key]
    constructor
    · rintro ⟨last, h1, h2, h3, h4⟩
      have hl := contiguous_last e.pluginParameters hc last h1
      refine ⟨?_, h2, by omega, h4⟩
      cases hp : e.pluginParameters with
      | nil => simp [hp] at h1
      | cons a l => simp
    · rintro ⟨h0, h2, h3, h4⟩
      cases hg : e.pluginParameters.getLast? with
      | none =>
        rw [List.getLast?_eq_none_iff] at hg
        simp [hg] at h0
      | some last =>
        have hl := contiguous_last e.pluginParameters hc last hg
        exact ⟨last, rfl, h2, by omega, h4⟩
  · intro hf
    by_cases hv : indexInBounds e.pluginParameters index ∧ ¬ (value < 0 ∨ value > 1)
    · rw [overridePluginParameter_of_valid e index value hv.1 hv.2] at hf
      simp at hf
    · rw [overridePluginParameter_of_invalid e index value hv]

/-- Counterexample to C5 as stated.  On the engine whose module has a placeholder parameter
(parameter vector `[(0, 0), (2, 0)]`, `N = 2`) `overridePluginParameter (2, 0.5)` returns
success although `index = N > N - 1`.  On the engine with three parameters
`overridePluginParameter (0, NaN)` returns success and stores the NaN, although
`0.0 <= NaN` and `NaN <= 1.0` are both false. -/
theorem overridePluginParameter_bound_counterexample :
    ¬ ((overridePluginParameter gapEngine 2 (FloatingPoint.finite (1 / 2))).1 = true ↔
        (0 < gapEngine.pluginParameters.length ∧ (0 : Int) ≤ 2 ∧
          (2 : Int) ≤ (gapEngine.pluginParameters.length : Int) - 1 ∧
          (0 : CFloat) ≤ FloatingPoint.finite (1 / 2) ∧
          (FloatingPoint.finite (1 / 2) : CFloat) ≤ 1)) ∧
      ¬ ((overridePluginParameter threeParams 0 FloatingPoint.nan).1 = true ↔
        (0 < threeParams.pluginParameters.length ∧ (0 : Int) ≤ 0 ∧
          (0 : Int) ≤ (threeParams.pluginParameters.length : Int) - 1 ∧
          (0 : CFloat) ≤ FloatingPoint.nan ∧ (FloatingPoint.nan : CFloat) ≤ 1)) ∧
      (overridePluginParameter threeParams 0 FloatingPoint.nan).2.overridenParameters
        = [(0, FloatingPoint.nan)] := by
  have hs : (overridePluginParameter gapEngine 2 (FloatingPoint.finite (1 / 2))).1 = true := by
    rw [overridePluginParameter_success_iff, FloatingPoint.not_outside_unit_iff]
    refine ⟨?_, Or.inr ⟨?_, ?_⟩⟩
    · simp [indexInBounds, gapEngine_pluginParameters]
    · rw [FloatingPoint.zero_eq, FloatingPoint.finite_le_finite]
      norm_num
    · rw [FloatingPoint.one_eq, FloatingPoint.finite_le_finite]
      norm_num
  have hb : indexInBounds threeParams.pluginParameters 0 := by
    simp [indexInBounds, threeParams_pluginParameters]
  have hn : ¬ ((FloatingPoint.nan : CFloat) < 0 ∨ (FloatingPoint.nan : CFloat) > 1) := by
    decide
  have hv := overridePluginParameter_of_valid threeParams 0 FloatingPoint.nan hb hn
  refine ⟨?_, ?_, ?_⟩
  · intro h
    have := (h.mp hs).2.2.1
    simp [gapEngine_pluginParameters] at this
  · intro h
    have h1 : (overridePluginParameter threeParams 0 FloatingPoint.nan).1 = true := by
      rw [hv]
    have h2 : (0 : CFloat) ≤ FloatingPoint.nan := (h.mp h1).2.2.2.1
    exact absurd h2 (by decide)
  · rw [hv]
    rfl

theorem getPatch_getElem? {σ : Type} (e : RenderEngine σ) (k : Nat) :
    (getPatch e).1[k]? = (e.pluginParameters[k]?).map (resolve e.overridenParameters) := by
  rw [getPatch_fst, List.getElem?_map]

theorem getPatch_upsert_getElem? {σ : Type} (e : RenderEngine σ) (index : Int) (value : CFloat)
    (k : Nat) (q : Int × CFloat) (hq : (getPatch e).1[k]? = some q) :
    (getPatch { e with overridenParameters := upsert index value e.overridenParameters }).1[k]?
      = some (if q.1 = index then (index, value) else q) := by
  rw [getPatch_getElem?] at hq ⊢
  cases hp : e.pluginParameters[k]? with
  | none => simp [hp] at hq
  | some p =>
    simp only [hp, Option.map_some', Option.some.injEq] at hq ⊢
    have hq1 : q.1 = p.1 := by rw [← hq, resolve_fst]
    by_cases hi : q.1 = index
    · rw [if_pos hi, resolve_upsert_same index value _ p (hq1 ▸ hi)]
    · rw [if_neg hi, resolve_upsert_other index value _ p (hq1 ▸ hi), hq]

/-- C6 (amended): when `overridePluginParameter (index, value)` returns success, every slot of
`getPatch` that carries `index` holds `value` afterwards and every other slot is identical to
what `getPatch` returned before the call; when the slot indices are `0, ..., N-1` in order the
slot at position `index` exists and holds `(index, value)` (without that there may be no slot
carrying `index`, and `getPatch` is then unchanged); if `index` was already overridden the
override vector keeps its length and the entry keeps its position, otherwise one entry is
appended. -/
theorem overridePluginParameter_effective {σ : Type} (e : RenderEngine σ) (index : Int)
    (value : CFloat) (h : (overridePluginParameter e index value).1 = true) :
    (∀ (k : Nat) (q : Int × CFloat), (getPatch e).1[k]? = some q →
        (getPatch (overridePluginParameter e index value).2).1[k]?
          = some (if q.1 = index then (index, value) else q)) ∧
      ((∀ (k : Nat) (p : Int × CFloat), e.pluginParameters[k]? = some p → p.1 = k) →
        (getPatch (overridePluginParameter e index value).2).1[index.toNat]?
          = some (index, value)) ∧
      ((∃ o ∈ e.overridenParameters, o.1 = index) →
        ∃ l1 o l2, e.overridenParameters = l1 ++ o :: l2 ∧ o.1 = index ∧
          (∀ x ∈ l1, x.1 ≠ index) ∧
          (overridePluginParameter e index value).2.overridenParameters
            = l1 ++ (index, value) :: l2) ∧
      ((∀ o ∈ e.overridenParameters, o.1 ≠ index) →
        (overridePluginParameter e index value).2.overridenParameters
          = e.overridenParameters ++ [(index, value)]) := by
  obtain ⟨hb, hv⟩ := (overridePluginParameter_success_iff e index value).mp h
  rw [overridePluginParameter_of_valid e index value hb hv]
  refine ⟨fun k q hq => getPatch_upsert_getElem? e index value k q hq, ?_, ?_, ?_⟩
  · intro hc
    obtain ⟨last, hl, hi0, hil⟩ := (indexInBounds_iff _ _).mp hb
    have hlast := contiguous_last e.pluginParameters hc last hl
    have hlt : index.toNat < e.pluginParameters.length := by omega
    have hp : e.pluginParameters[index.toNat]? = some e.pluginParameters[index.toNat] :=
      List.getElem?_eq_getElem hlt
    have hpi : (e.pluginParameters[index.toNat]).1 = index := by
      rw [hc _ _ hp]
      omega
    have hq : (getPatch e).1[index.toNat]?
        = some (resolve e.overridenParameters e.pluginParameters[index.toNat]) := by
      rw [getPatch_getElem?, hp]
      rfl
    rw [getPatch_upsert_getElem? e index value _ _ hq, if_pos]
    rw [resolve_fst, hpi]
  · intro hm
    exact upsert_of_mem index value _ hm
  · intro hm
    exact upsert_of_not_mem index value _ hm

/-- Witness for C6, the scenario of the spec: a module with three parameters and no overrides;
`overridePluginParameter (1, 0.75)` succeeds, `getPatch` then holds `0.75` in slot 1 and slots
0 and 2 are unchanged, and one entry is appended to the override vector. -/
theorem overridePluginParameter_effective_witness :
    (overridePluginParameter threeParams 1 (FloatingPoint.finite (3 / 4))).1 = true ∧
      (getPatch threeParams).1 = [(0, 0), (1, 0), (2, 0)] ∧
      (getPatch (overridePluginParameter threeParams 1 (FloatingPoint.finite (3 / 4))).2).1[0]?
        = some (0, 0) ∧
      (getPatch (overridePluginParameter threeParams 1 (FloatingPoint.finite (3 / 4))).2).1[1]?
        = some (1, FloatingPoint.finite (3 / 4)) ∧
      (getPatch (overridePluginParameter threeParams 1 (FloatingPoint.finite (3 / 4))).2).1[2]?
        = some (2, 0) ∧
      (overridePluginParameter threeParams 1 (FloatingPoint.finite (3 / 4))).2.overridenParameters
        = [(1, FloatingPoint.finite (3 / 4))] := by
  have hs : (overridePluginParameter threeParams 1 (FloatingPoint.finite (3 / 4))).1 = true := by
    rw [overridePluginParameter_success_iff, FloatingPoint.not_outside_unit_iff,
      FloatingPoint.zero_eq, FloatingPoint.one_eq, FloatingPoint.finite_le_finite,
      FloatingPoint.finite_le_finite]
    refine ⟨?_, Or.inr ⟨by norm_num, by norm_num⟩⟩
    simp [indexInBounds, threeParams_pluginParameters]
  have hg : (getPatch threeParams).1 = [(0, 0), (1, 0), (2, 0)] := by
    rw [getPatch_fst, threeParams_pluginParameters]
    rfl
  have hO : threeParams.overridenParameters = [] := rfl
  have hw := overridePluginParameter_effective threeParams 1 (FloatingPoint.finite (3 / 4)) hs
  refine ⟨hs, hg, ?_, ?_, ?_, ?_⟩
  · simpa using hw.1 0 (0, 0) (by rw [hg]; rfl)
  · simpa using hw.1 1 (1, 0) (by rw [hg]; rfl)
  · simpa using hw.1 2 (2, 0) (by rw [hg]; rfl)
  · simpa [hO] using hw.2.2.2 (by simp [hO])

/-- Counterexample to C6 as stated: the engine whose module has the parameters `A`, `Param`,
`B` has the parameter vector `[(0, 0), (2, 0)]` (`N = 2`, a module is loaded).
`overridePluginParameter (1, 0.5)` returns success, yet `getPatch` afterwards is what it was
before the call and holds the value `0.5` in no slot. -/
theorem overridePluginParameter_gap_counterexample :
    gapEngine.plugin = some () ∧ gapEngine.pluginParameters.length = 2 ∧
      (overridePluginParameter gapEngine 1 (FloatingPoint.finite (1 / 2))).1 = true ∧
      (getPatch gapEngine).1 = [(0, 0), (2, 0)] ∧
      (getPatch (overridePluginParameter gapEngine 1 (FloatingPoint.finite (1 / 2))).2).1
        = [(0, 0), (2, 0)] ∧
      ∀ q ∈ (getPatch (overridePluginParameter gapEngine 1 (FloatingPoint.finite (1 / 2))).2).1,
        q.2 ≠ FloatingPoint.finite (1 / 2) := by
  have hb : indexInBounds gapEngine.pluginParameters 1 := by
    simp [indexInBounds, gapEngine_pluginParameters]
  have hv : ¬ ((FloatingPoint.finite (1 / 2) : CFloat) < 0 ∨
      (FloatingPoint.finite (1 / 2) : CFloat) > 1) := by
    rw [FloatingPoint.not_outside_unit_iff, FloatingPoint.zero_eq, FloatingPoint.one_eq,
      FloatingPoint.finite_le_finite, FloatingPoint.finite_le_finite]
    exact Or.inr ⟨by norm_num, by norm_num⟩
  have hO : gapEngine.overridenParameters = [] := rfl
  have hg : (getPatch gapEngine).1 = [(0, 0), (2, 0)] := by
    rw [getPatch_fst, gapEngine_pluginParameters]
    rfl
  have hafter :
      (getPatch (overridePluginParameter gapEngine 1 (FloatingPoint.finite (1 / 2))).2).1
        = [(0, 0), (2, 0)] := by
    rw [overridePluginParameter_of_valid gapEngine 1 _ hb hv, getPatch_fst]
    simp [hO, upsert, gapEngine_pluginParameters, resolve]
  refine ⟨rfl, by rw [gapEngine_pluginParameters]; rfl, ?_, hg, hafter, ?_⟩
  · rw [overridePluginParameter_of_valid gapEngine 1 _ hb hv]
  · rw [hafter]
    intro q hq
    simp only [List.mem_cons, List.mem_singleton, List.not_mem_nil, or_false] at hq
    rcases hq with rfl | rfl
    · show (0 : CFloat) ≠ FloatingPoint.finite (1 / 2)
      rw [FloatingPoint.zero_eq]
      intro hc
      have := FloatingPoint.finite.inj hc
      norm_num at this
    · show (0 : CFloat) ≠ FloatingPoint.finite (1 / 2)
      rw [FloatingPoint.zero_eq]
      intro hc
      have := FloatingPoint.finite.inj hc
      norm_num at this

/-- C8 (amended): `removeOverridenParameter (index)` applies the bounds test of
`overridePluginParameter` (failure when the parameter vector is empty, `index < 0` or
`index > L` for the index `L` stored in the last slot, which is `N-1` when the slot indices are
`0, ..., N-1` in order); within bounds it returns success if and only if the override vector
has an entry with that index.  On success the first such entry is removed and all other entries
keep their values and their order, so that an override vector with unique indices has no entry
with that index afterwards; the parameter vector is unchanged.  On failure the engine state is
exactly as it was. -/
theorem removeOverridenParameter_spec {σ : Type} (e : RenderEngine σ) (index : Int) :
    ((removeOverridenParameter e index).1 = true ↔
        (∃ last, e.pluginParameters.getLast? = some last ∧ 0 ≤ index ∧ index ≤ last.1) ∧
          ∃ o ∈ e.overridenParameters, o.1 = index) ∧
      ((∀ (k : Nat) (p : Int × CFloat), e.pluginParameters[k]? = some p → p.1 = k) →
        ((removeOverridenParameter e index).1 = true ↔
          (0 < e.pluginParameters.length ∧ 0 ≤ index ∧
            index ≤ (e.pluginParameters.length : Int) - 1) ∧
            ∃ o ∈ e.overridenParameters, o.1 = index)) ∧
      ((removeOverridenParameter e index).1 = true →
        (removeOverridenParameter e index).2.pluginParameters = e.pluginParameters ∧
        (∃ l1 o l2, e.overridenParameters = l1 ++ o :: l2 ∧ o.1 = index ∧
          (∀ x ∈ l1, x.1 ≠ index) ∧
          (removeOverridenParameter e index).2.overridenParameters = l1 ++ l2) ∧
        ((e.overridenParameters.map Prod.fst).Nodup →
          (removeOverridenParameter e index).2.overridenParameters
              = e.overridenParameters.filter (fun o => decide (o.1 ≠ index)) ∧
            ∀ o ∈ (removeOverridenParameter e index).2.overridenParameters, o.1 ≠ index)) ∧
      ((removeOverridenParameter e index).1 = false →
        (removeOverridenParameter e index).2 = e) := by
  have key : (removeOverridenParameter e index).1 = true ↔
      (∃ last, e.pluginParameters.getLast? = some last ∧ 0 ≤ index ∧ index ≤ last.1) ∧
        ∃ o ∈ e.overridenParameters, o.1 = index := by
    rw [removeOverridenParameter_success_iff, indexInBounds_iff]
  refine ⟨key, ?_, ?_, ?_⟩
  · intro hc
    rw [key]
    constructor
    · rintro ⟨⟨last, h1, h2, h3⟩, hm⟩
      have hl := contiguous_last e.pluginParameters hc last h1
      refine ⟨⟨?_, h2, by omega⟩, hm⟩
      cases hp : e.pluginParameters with
      | nil => simp [hp] at h1
      | cons a l => simp
    · rintro ⟨⟨h0, h2, h3⟩, hm⟩
      cases hg : e.pluginParameters.getLast? with
      | none =>
        rw [List.getLast?_eq_none_iff] at hg
        simp [hg] at h0
      | some last =>
        have hl := contiguous_last e.pluginParameters hc last hg
        exact ⟨⟨last, rfl, h2, by omega⟩, hm⟩
  · intro hs
    obtain ⟨hb, hm⟩ := (removeOverridenParameter_success_iff e index).mp hs
    rw [removeOverridenParameter_of_present e index hb hm]
    refine ⟨rfl, ?_, ?_⟩
    · obtain ⟨o, ho, hoi⟩ := hm
      obtain ⟨a, l1, l2, h1, h2, h3, h4⟩ :=
        List.exists_of_eraseP (p := fun p : Int × CFloat => decide (p.1 = index)) ho (by simpa using hoi)
      refine ⟨l1, a, l2, h3, by simpa using h2, ?_, h4⟩
      intro x hx
      simpa using h1 x hx
    · intro hn
      refine ⟨eraseP_eq_filter_of_nodup_keys index _ hn, ?_⟩
      intro o ho
      simp only []  at ho
      rw [eraseP_eq_filter_of_nodup_keys index _ hn] at ho
      simpa using (List.mem_filter.mp ho).2
  · intro hf
    by_cases hv : indexInBounds e.pluginParameters index ∧
        ∃ o ∈ e.overridenParameters, o.1 = index
    · rw [removeOverridenParameter_of_present e index hv.1 hv.2] at hf
      simp at hf
    · rw [removeOverridenParameter_of_absent e index hv]

/-- Counterexample to C8 as stated: on the engine whose module has a placeholder parameter
(parameter vector `[(0, 0), (2, 0)]`, `N = 2`) with the override `(2, 0.5)`,
`removeOverridenParameter (2)` returns success although `index = 2 > N - 1`. -/
theorem removeOverridenParameter_bound_counterexample :
    (2 : Int) > ((overridePluginParameter gapEngine 2 (FloatingPoint.finite (1 / 2))).2.pluginParameters.length : Int) - 1
      ∧ (removeOverridenParameter (overridePluginParameter gapEngine 2 (FloatingPoint.finite (1 / 2))).2 2).1 = true := by
  have hb : indexInBounds gapEngine.pluginParameters 2 := by
    simp [indexInBounds, gapEngine_pluginParameters]
  rw [overridePluginParameter_of_valid gapEngine 2 (FloatingPoint.finite (1 / 2)) hb (FloatingPoint.unit_of_finite _ (by norm_num) (by norm_num))]
  refine ⟨by simp [gapEngine_pluginParameters], ?_⟩
  rw [removeOverridenParameter_success_iff]
  refine ⟨hb, (2, FloatingPoint.finite (1 / 2)), ?_, rfl⟩
  have hO : gapEngine.overridenParameters = [] := rfl
  simp [hO, upsert]

theorem find?_filter_ne_same (index : Int) (l : PluginPatch) :
    (l.filter (fun p => decide (p.1 ≠ index))).find? (fun p => decide (p.1 = index)) = none := by
  rw [List.find?_eq_none]
  intro x hx
  simpa using (List.mem_filter.mp hx).2

theorem find?_filter_ne_other (index j : Int) (l : PluginPatch) (hj : j ≠ index) :
    (l.filter (fun p => decide (p.1 ≠ index))).find? (fun p => decide (p.1 = j))
      = l.find? (fun p => decide (p.1 = j)) := by
  induction l with
  | nil => rfl
  | cons p ps ih =>
    by_cases hp : p.1 = index
    · have hpj : ¬ p.1 = j := fun h => hj (h.symm.trans hp)
      have hd : decide (p.1 ≠ index) = false := by simp [hp]
      rw [List.filter_cons, hd]
      simp only [Bool.false_eq_true, if_false]
      rw [ih, List.find?_cons_of_neg _ (by simpa using hpj)]
    · have hd : decide (p.1 ≠ index) = true := by simp [hp]
      rw [List.filter_cons, hd]
      simp only [if_true]
      by_cases hpj : p.1 = j
      · rw [List.find?_cons_of_pos _ (by simpa using hpj),
          List.find?_cons_of_pos _ (by simpa using hpj)]
      · rw [List.find?_cons_of_neg _ (by simpa using hpj),
          List.find?_cons_of_neg _ (by simpa using hpj), ih]

theorem fill_foldl_bounds (name : Nat → String) (n : Nat) :
    ((List.range n).foldl
        (fun (params : PluginPatch) i =>
          if name i ≠ "Param" then params ++ [((i : Int), (0 : CFloat))] else params) []).length ≤ n ∧
      ∀ last,
        ((List.range n).foldl
          (fun (params : PluginPatch) i =>
            if name i ≠ "Param" then params ++ [((i : Int), (0 : CFloat))] else params) []).getLast?
          = some last →
        last.1 < n ∧
        (((List.range n).foldl
          (fun (params : PluginPatch) i =>
            if name i ≠ "Param" then params ++ [((i : Int), (0 : CFloat))] else params) []).length
            : Int) - 1 ≤ last.1 := by
  induction n with
  | zero => simp
  | succ n ih =>
    rw [List.range_succ, List.foldl_append]
    simp only [List.foldl_cons, List.foldl_nil]
    obtain ⟨ih1, ih2⟩ := ih
    generalize (List.range n).foldl
      (fun (params : PluginPatch) i =>
        if name i ≠ "Param" then params ++ [((i : Int), (0 : CFloat))] else params) [] = r
      at ih1 ih2 ⊢
    by_cases hn : name n ≠ "Param"
    · rw [if_pos hn]
      refine ⟨by simp; omega, ?_⟩
      intro last hl
      simp at hl
      subst hl
      simp
      omega
    · rw [if_neg hn]
      refine ⟨by omega, ?_⟩
      intro last hl
      obtain ⟨h1, h2⟩ := ih2 last hl
      exact ⟨by push_cast; omega, h2⟩

theorem fillAvailablePluginParameters_last {σ : Type} (M : SoundModule σ) (p : σ)
    (last : Int × CFloat) (hl : (fillAvailablePluginParameters M p).getLast? = some last) :
    ((fillAvailablePluginParameters M p).length : Int) - 1 ≤ last.1 :=
  ((fill_foldl_bounds (M.getParameterName p) (M.getNumParameters p)).2 last hl).2

theorem overridePluginParameter_pluginParameters {σ : Type} (e : RenderEngine σ) (index : Int)
    (value : CFloat) :
    (overridePluginParameter e index value).2.pluginParameters = e.pluginParameters := by
  by_cases hv : indexInBounds e.pluginParameters index ∧ ¬ (value < 0 ∨ value > 1)
  · rw [overridePluginParameter_of_valid e index value hv.1 hv.2]
  · rw [overridePluginParameter_of_invalid e index value hv]

theorem removeOverridenParameter_pluginParameters {σ : Type} (e : RenderEngine σ)
    (index : Int) :
    (removeOverridenParameter e index).2.pluginParameters = e.pluginParameters := by
  by_cases hv : indexInBounds e.pluginParameters index ∧
      ∃ o ∈ e.overridenParameters, o.1 = index
  · rw [removeOverridenParameter_of_present e index hv.1 hv.2]
  · rw [removeOverridenParameter_of_absent e index hv]

theorem overridePluginParameter_nodup {σ : Type} (e : RenderEngine σ) (index : Int)
    (value : CFloat) (h : (e.overridenParameters.map Prod.fst).Nodup) :
    ((overridePluginParameter e index value).2.overridenParameters.map Prod.fst).Nodup := by
  by_cases hv : indexInBounds e.pluginParameters index ∧ ¬ (value < 0 ∨ value > 1)
  · rw [overridePluginParameter_of_valid e index value hv.1 hv.2]
    exact nodup_keys_upsert index value _ h
  · rw [overridePluginParameter_of_invalid e index value hv]
    exact h

theorem removeOverridenParameter_nodup {σ : Type} (e : RenderEngine σ) (index : Int)
    (h : (e.overridenParameters.map Prod.fst).Nodup) :
    ((removeOverridenParameter e index).2.overridenParameters.map Prod.fst).Nodup := by
  by_cases hv : indexInBounds e.pluginParameters index ∧
      ∃ o ∈ e.overridenParameters, o.1 = index
  · rw [removeOverridenParameter_of_present e index hv.1 hv.2]
    exact nodup_keys_eraseP _ _ h
  · rw [removeOverridenParameter_of_absent e index hv]
    exact h

theorem Reachable.nodup {σ : Type} {M : SoundModule σ} {e : RenderEngine σ}
    (h : Reachable M e) : (e.overridenParameters.map Prod.fst).Nodup := by
  induction h with
  | loaded sr bs p => simp [loadPlugin, RenderEngine.new]
  | overrideStep index value _ ih => exact overridePluginParameter_nodup _ index value ih
  | removeStep index _ ih => exact removeOverridenParameter_nodup _ index ih

theorem Reachable.last {σ : Type} {M : SoundModule σ} {e : RenderEngine σ}
    (h : Reachable M e) (last : Int × CFloat) (hl : e.pluginParameters.getLast? = some last) :
    (e.pluginParameters.length : Int) - 1 ≤ last.1 := by
  induction h with
  | loaded sr bs p => exact fillAvailablePluginParameters_last M _ last hl
  | overrideStep index value _ ih =>
    rw [overridePluginParameter_pluginParameters] at hl ⊢
    exact ih hl
  | removeStep index _ ih =>
    rw [removeOverridenParameter_pluginParameters] at hl ⊢
    exact ih hl

/-- C7: in every state reached from a freshly loaded module by override and remove calls, for
every index in `[0, N-1]` and every value in `[0, 1]`, `overridePluginParameter (index, value)`
followed by `removeOverridenParameter (index)` both return success; afterwards every slot of
`getPatch` that carries `index` equals the slot of the parameter vector (also when `index` was
overridden before the two calls), every other slot of `getPatch` is what it was before the two
calls, and the parameter vector is unchanged. -/
theorem override_remove_roundtrip {σ : Type} (M : SoundModule σ) (e : RenderEngine σ)
    (hr : Reachable M e) (index : Int) (value : CFloat) (hi0 : 0 ≤ index)
    (hiN : index ≤ (e.pluginParameters.length : Int) - 1) (hv0 : 0 ≤ value) (hv1 : value ≤ 1) :
    (overridePluginParameter e index value).1 = true ∧
      (removeOverridenParameter (overridePluginParameter e index value).2 index).1 = true ∧
      (removeOverridenParameter (overridePluginParameter e index value).2 index).2.pluginParameters
        = e.pluginParameters ∧
      (∀ (k : Nat) (p q : Int × CFloat), e.pluginParameters[k]? = some p →
        (getPatch e).1[k]? = some q →
        (getPatch (removeOverridenParameter (overridePluginParameter e index value).2 index).2).1[k]?
          = some (if p.1 = index then p else q)) := by
  have hb : indexInBounds e.pluginParameters index := by
    rw [indexInBounds_iff]
    cases hg : e.pluginParameters.getLast? with
    | none =>
      rw [List.getLast?_eq_none_iff] at hg
      simp [hg] at hiN
      omega
    | some last =>
      have := hr.last last hg
      exact ⟨last, rfl, hi0, by omega⟩
  have hmem : ∃ o ∈ upsert index value e.overridenParameters, o.1 = index :=
    ⟨(index, value), List.mem_of_find?_eq_some (find?_upsert_same index value _), rfl⟩
  have hnd := nodup_keys_upsert index value _ hr.nodup
  rw [overridePluginParameter_of_valid e index value hb
    (FloatingPoint.not_outside_unit value hv0 hv1)]
  simp only []
  rw [removeOverridenParameter_of_present
    { e with overridenParameters := upsert index value e.overridenParameters } index hb hmem]
  refine ⟨trivial, rfl, rfl, ?_⟩
  intro k p q hp hq
  rw [getPatch_getElem?] at hq ⊢
  simp only [hp, Option.map_some', Option.some.injEq] at hq ⊢
  rw [eraseP_eq_filter_of_nodup_keys index _ hnd]
  unfold resolve at hq ⊢
  by_cases hpi : p.1 = index
  · rw [if_pos hpi, hpi, find?_filter_ne_same]
  · rw [if_neg hpi, find?_filter_ne_other index p.1 _ hpi, find?_upsert_other index p.1 _ _ hpi]
    exact hq

/-- Witness for C7: the three-parameter module after `overridePluginParameter (1, 0.25)`; the
calls `overridePluginParameter (1, 0.75)` and `removeOverridenParameter (1)` succeed and
`getPatch` is back at the parameter vector's own slot `(1, 0)`. -/
theorem override_remove_roundtrip_witness :
    Reachable (passiveModule ["A", "B", "C"])
        (overridePluginParameter threeParams 1 (FloatingPoint.finite (1 / 4))).2 ∧
      (overridePluginParameter
        (overridePluginParameter threeParams 1 (FloatingPoint.finite (1 / 4))).2 1
        (FloatingPoint.finite (3 / 4))).1 = true ∧
      (removeOverridenParameter
        (overridePluginParameter
          (overridePluginParameter threeParams 1 (FloatingPoint.finite (1 / 4))).2 1
          (FloatingPoint.finite (3 / 4))).2
        1).1 = true ∧
      (getPatch (overridePluginParameter threeParams 1 (FloatingPoint.finite (1 / 4))).2).1[1]?
        = some (1, FloatingPoint.finite (1 / 4)) ∧
      (getPatch (removeOverridenParameter
        (overridePluginParameter
          (overridePluginParameter threeParams 1 (FloatingPoint.finite (1 / 4))).2 1
          (FloatingPoint.finite (3 / 4))).2
        1).2).1[1]? = some (1, 0) := by
  have hr : Reachable (passiveModule ["A", "B", "C"])
      (overridePluginParameter threeParams 1 (FloatingPoint.finite (1 / 4))).2 :=
    Reachable.overrideStep 1 (FloatingPoint.finite (1 / 4)) (Reachable.loaded 44100 512 ())
  have hP : (overridePluginParameter threeParams 1
      (FloatingPoint.finite (1 / 4))).2.pluginParameters = [(0, 0), (1, 0), (2, 0)] := by
    rw [overridePluginParameter_pluginParameters, threeParams_pluginParameters]
  have hO : (overridePluginParameter threeParams 1
      (FloatingPoint.finite (1 / 4))).2.overridenParameters
      = [(1, FloatingPoint.finite (1 / 4))] := by
    rw [overridePluginParameter_of_valid threeParams 1 (FloatingPoint.finite (1 / 4))
      (by simp [indexInBounds, threeParams_pluginParameters])
      (FloatingPoint.unit_of_finite _ (by norm_num) (by norm_num))]
    rfl
  have hq : (getPatch (overridePluginParameter threeParams 1
      (FloatingPoint.finite (1 / 4))).2).1[1]? = some (1, FloatingPoint.finite (1 / 4)) := by
    rw [getPatch_getElem?, hP, hO]
    simp [resolve]
  have hw := override_remove_roundtrip (passiveModule ["A", "B", "C"])
    (overridePluginParameter threeParams 1 (FloatingPoint.finite (1 / 4))).2 hr 1
    (FloatingPoint.finite (3 / 4)) (by norm_num)
    (by rw [hP]; norm_num) (FloatingPoint.zero_le_finite _ (by norm_num))
    (FloatingPoint.finite_le_one _ (by norm_num))
  refine ⟨hr, hw.1, hw.2.1, hq, ?_⟩
  simpa using hw.2.2.2 1 (1, 0) (1, FloatingPoint.finite (1 / 4)) (by rw [hP]; rfl) hq

/-! ## Theorems: block scheduler and audio accumulator -/

theorem fillAudioFeatures_foldl_left {σ : Type} (data : AudioSampleBuffer) (l : List Nat)
    (e : RenderEngine σ) :
    (l.foldl
      (fun (e : RenderEngine σ) i =>
        { e with
          processedAudioPreviewLeft := e.processedAudioPreviewLeft ++ [data.read 0 i],
          processedAudioPreviewRight := e.processedAudioPreviewRight ++
            [if data.numChannels > 1 then data.read 1 i else data.read 0 i] })
      e).processedAudioPreviewLeft = e.processedAudioPreviewLeft ++ l.map (data.read 0) := by
  induction l generalizing e with
  | nil => simp
  | cons a l ih => simp [List.foldl_cons, ih]

theorem fillAudioFeatures_foldl_right {σ : Type} (data : AudioSampleBuffer) (l : List Nat)
    (e : RenderEngine σ) :
    (l.foldl
      (fun (e : RenderEngine σ) i =>
        { e with
          processedAudioPreviewLeft := e.processedAudioPreviewLeft ++ [data.read 0 i],
          processedAudioPreviewRight := e.processedAudioPreviewRight ++
            [if data.numChannels > 1 then data.read 1 i else data.read 0 i] })
      e).processedAudioPreviewRight
      = e.processedAudioPreviewRight ++
          l.map (fun i => if data.numChannels > 1 then data.read 1 i else data.read 0 i) := by
  induction l generalizing e with
  | nil => simp
  | cons a l ih => simp [List.foldl_cons, ih]

theorem fillAudioFeatures_foldl_bufferSize {σ : Type} (data : AudioSampleBuffer) (l : List Nat)
    (e : RenderEngine σ) :
    (l.foldl
      (fun (e : RenderEngine σ) i =>
        { e with
          processedAudioPreviewLeft := e.processedAudioPreviewLeft ++ [data.read 0 i],
          processedAudioPreviewRight := e.processedAudioPreviewRight ++
            [if data.numChannels > 1 then data.read 1 i else data.read 0 i] })
      e).bufferSize = e.bufferSize := by
  induction l generalizing e with
  | nil => simp
  | cons a l ih => simp [List.foldl_cons, ih]

theorem fillAudioFeatures_left {σ : Type} (e : RenderEngine σ) (data : AudioSampleBuffer) :
    (fillAudioFeatures e data).processedAudioPreviewLeft
      = e.processedAudioPreviewLeft ++ (List.range data.numSamples).map (data.read 0) :=
  fillAudioFeatures_foldl_left data _ e

theorem fillAudioFeatures_right {σ : Type} (e : RenderEngine σ) (data : AudioSampleBuffer) :
    (fillAudioFeatures e data).processedAudioPreviewRight
      = e.processedAudioPreviewRight ++ (List.range data.numSamples).map
          (fun i => if data.numChannels > 1 then data.read 1 i else data.read 0 i) :=
  fillAudioFeatures_foldl_right data _ e

theorem fillAudioFeatures_bufferSize {σ : Type} (e : RenderEngine σ)
    (data : AudioSampleBuffer) : (fillAudioFeatures e data).bufferSize = e.bufferSize :=
  fillAudioFeatures_foldl_bufferSize data _ e

theorem getNextEvent_frame {σ : Type} (s : RenderLocals σ) :
    (getNextEvent s).engine = s.engine ∧ (getNextEvent s).plugin = s.plugin ∧
      (getNextEvent s).audioBuffer = s.audioBuffer ∧ (getNextEvent s).blocks = s.blocks ∧
      (getNextEvent s).renderMidiBuffer = s.renderMidiBuffer ∧
      (getNextEvent s).added = s.added := by
  unfold getNextEvent
  split <;> simp

theorem doWhileBody_frame {σ : Type} (start end_ : Int) (s : RenderLocals σ) :
    (doWhileBody start end_ s).engine = s.engine ∧
      (doWhileBody start end_ s).plugin = s.plugin ∧
      (doWhileBody start end_ s).audioBuffer = s.audioBuffer ∧
      (doWhileBody start end_ s).blocks = s.blocks := by
  unfold doWhileBody
  split
  · have h := getNextEvent_frame
      { s with
        renderMidiBuffer := s.renderMidiBuffer.addEvent s.m (s.sampleNumber - start),
        added := s.added ++ [(s.sampleNumber - start, s.m)] }
    exact ⟨h.1, h.2.1, h.2.2.1, h.2.2.2.1⟩
  · simp

theorem doWhile_frame {σ : Type} (start end_ : Int) (fuel : Nat) (s : RenderLocals σ) :
    (doWhile start end_ fuel s).engine = s.engine ∧
      (doWhile start end_ fuel s).plugin = s.plugin ∧
      (doWhile start end_ fuel s).audioBuffer = s.audioBuffer ∧
      (doWhile start end_ fuel s).blocks = s.blocks := by
  induction fuel generalizing s with
  | zero => simp [doWhile]
  | succ fuel ih =>
    have hb := doWhileBody_frame start end_ s
    unfold doWhile
    simp only []
    split
    · have h := ih (doWhileBody start end_ s)
      exact ⟨h.1.trans hb.1, h.2.1.trans hb.2.1, h.2.2.1.trans hb.2.2.1,
        h.2.2.2.trans hb.2.2.2⟩
    · exact hb

theorem renderBlock_counts {σ : Type} (M : SoundModule σ) (i : Int) (s : RenderLocals σ) :
    (renderBlock M i s).blocks.length = s.blocks.length + 1 ∧
      (renderBlock M i s).audioBuffer.numSamples = s.audioBuffer.numSamples ∧
      (renderBlock M i s).engine.processedAudioPreviewLeft.length
        = s.engine.processedAudioPreviewLeft.length + s.audioBuffer.numSamples ∧
      (renderBlock M i s).engine.processedAudioPreviewRight.length
        = s.engine.processedAudioPreviewRight.length + s.audioBuffer.numSamples := by
  have hf := doWhile_frame (wrapInt32 (i * s.engine.bufferSize))
    (wrapInt32 ((i + 1) * s.engine.bufferSize))
    (s.it.length + 1)
    { s with
      isMessageBetween := decide (s.sampleNumber ≥ wrapInt32 (i * s.engine.bufferSize) ∧
        s.sampleNumber < wrapInt32 ((i + 1) * s.engine.bufferSize)),
      added := [] }
  obtain ⟨h1, -, h3, h4⟩ := hf
  simp only [] at h1 h3 h4
  unfold renderBlock
  simp only [fillAudioFeatures_left, fillAudioFeatures_right, List.length_append,
    List.length_map, List.length_range, List.length_cons, List.length_nil, h1, h3, h4]
  simp

theorem forLoop_counts {σ : Type} (M : SoundModule σ) (count : Nat) (i : Int)
    (s : RenderLocals σ) :
    (forLoop M count i s).blocks.length = s.blocks.length + count ∧
      (forLoop M count i s).engine.processedAudioPreviewLeft.length
        = s.engine.processedAudioPreviewLeft.length + count * s.audioBuffer.numSamples ∧
      (forLoop M count i s).engine.processedAudioPreviewRight.length
        = s.engine.processedAudioPreviewRight.length + count * s.audioBuffer.numSamples := by
  induction count generalizing i s with
  | zero => simp [forLoop]
  | succ count ih =>
    obtain ⟨h1, h2, h3, h4⟩ := renderBlock_counts M i s
    obtain ⟨g1, g2, g3⟩ := ih (i + 1) (renderBlock M i s)
    unfold forLoop
    rw [g1, g2, g3, h1, h2, h3, h4]
    refine ⟨by omega, ?_, ?_⟩ <;> ring

theorem renderInit_fields {σ : Type} (M : SoundModule σ) (e : RenderEngine σ) (p : σ)
    (uninit : AudioData) :
    (renderInit M e p uninit).blocks = [] ∧
      (renderInit M e p uninit).audioBuffer.numSamples = e.bufferSize.toNat ∧
      (renderInit M e p uninit).engine.processedAudioPreviewLeft = [] ∧
      (renderInit M e p uninit).engine.processedAudioPreviewRight = [] ∧
      (renderInit M e p uninit).engine.bufferSize = e.bufferSize ∧
      (renderInit M e p uninit).engine.midiBuffer = e.midiBuffer ∧
      (renderInit M e p uninit).renderMidiBuffer = [] := by
  unfold renderInit
  simp only []
  unfold getNextEvent
  split <;> simp

theorem numberOfBuffers_of_ceil (renderLength sampleRate : CDouble) (bufferSize c : Int)
    (hc : FloatingPoint.ceil
        (FloatingPoint.divInt (FloatingPoint.mul renderLength sampleRate) bufferSize)
      = FloatingPoint.finite (c : ℚ))
    (h1 : -2147483648 ≤ c) (h2 : c ≤ 2147483647) :
    numberOfBuffers renderLength sampleRate bufferSize = c := by
  unfold numberOfBuffers
  rw [hc]
  exact doubleToInt_intCast c h1 h2

theorem ceil_divInt_mul_nonneg (renderLength sampleRate : CDouble) (bufferSize c : Int)
    (hD : 0 ≤ renderLength) (hR : 0 ≤ sampleRate) (hB : 0 < bufferSize)
    (hc : FloatingPoint.ceil
        (FloatingPoint.divInt (FloatingPoint.mul renderLength sampleRate) bufferSize)
      = FloatingPoint.finite (c : ℚ)) : 0 ≤ c := by
  obtain ⟨a, ha, hca⟩ := FloatingPoint.ceil_eq_finite _ _ hc
  have ha0 : 0 ≤ a :=
    FloatingPoint.divInt_finite_of_nonneg _ bufferSize hB
      (fun x hx => FloatingPoint.mul_finite_of_nonneg renderLength sampleRate hD hR x hx) a ha
  have hce : c = ⌈a⌉ := by exact_mod_cast hca
  rw [hce]
  exact Int.ceil_nonneg ha0

theorem render_of_plugin {σ : Type} (M : SoundModule σ) (e : RenderEngine σ) (p : σ)
    (renderLength : CDouble) (uninit : AudioData) (hp : e.plugin = some p)
    (hok : ¬ wrapInt32
      (numberOfBuffers renderLength e.sampleRate e.bufferSize * e.bufferSize) < 0) :
    render M e renderLength uninit =
      some (Except.ok
        ({ (forLoop M (numberOfBuffers renderLength e.sampleRate e.bufferSize).toNat 0
              (renderInit M e p uninit)).engine with
            plugin := some (forLoop M (numberOfBuffers renderLength e.sampleRate
              e.bufferSize).toNat 0 (renderInit M e p uninit)).plugin },
          (forLoop M (numberOfBuffers renderLength e.sampleRate e.bufferSize).toNat 0
            (renderInit M e p uninit)).blocks)) := by
  simp only [render, hp, if_neg hok]

theorem render_of_throw {σ : Type} (M : SoundModule σ) (e : RenderEngine σ) (p : σ)
    (renderLength : CDouble) (uninit : AudioData) (hp : e.plugin = some p)
    (hthrow : wrapInt32
      (numberOfBuffers renderLength e.sampleRate e.bufferSize * e.bufferSize) < 0) :
    render M e renderLength uninit =
      some (Except.error
        { e with processedAudioPreviewLeft := [], processedAudioPreviewRight := [] }) := by
  simp only [render, hp, if_pos hthrow]

/-- The blocks and the preview lengths of a `render` whose block count is not negative and
whose sample count `numberOfBuffers * bufferSize` fits an `int`. -/
theorem render_counts {σ : Type} (M : SoundModule σ) (e : RenderEngine σ) (p : σ)
    (renderLength : CDouble) (uninit : AudioData) (hp : e.plugin = some p)
    (hB : 0 < e.bufferSize)
    (hn : 0 ≤ numberOfBuffers renderLength e.sampleRate e.bufferSize)
    (hfit : numberOfBuffers renderLength e.sampleRate e.bufferSize * e.bufferSize
      ≤ 2147483647) :
    ∃ e1 blocks, render M e renderLength uninit = some (Except.ok (e1, blocks)) ∧
      (blocks.length : Int) = numberOfBuffers renderLength e.sampleRate e.bufferSize ∧
      (e1.processedAudioPreviewLeft.length : Int)
        = numberOfBuffers renderLength e.sampleRate e.bufferSize * e.bufferSize ∧
      (e1.processedAudioPreviewRight.length : Int)
        = numberOfBuffers renderLength e.sampleRate e.bufferSize * e.bufferSize := by
  have hprod : 0 ≤ numberOfBuffers renderLength e.sampleRate e.bufferSize * e.bufferSize :=
    mul_nonneg hn (le_of_lt hB)
  have hok : ¬ wrapInt32
      (numberOfBuffers renderLength e.sampleRate e.bufferSize * e.bufferSize) < 0 := by
    rw [wrapInt32_of_range _ (by omega) hfit]
    omega
  obtain ⟨i1, i2, i3, i4, -, -, -⟩ := renderInit_fields M e p uninit
  obtain ⟨c1, c2, c3⟩ := forLoop_counts M
    (numberOfBuffers renderLength e.sampleRate e.bufferSize).toNat 0 (renderInit M e p uninit)
  refine ⟨_, _, render_of_plugin M e p renderLength uninit hp hok, ?_, ?_, ?_⟩
  · rw [c1, i1]
    simp only [List.length_nil, zero_add]
    rw [Int.toNat_of_nonneg hn]
  · simp only []
    rw [c2, i2, i3]
    simp only [List.length_nil, zero_add]
    push_cast
    rw [Int.toNat_of_nonneg hn, Int.toNat_of_nonneg (le_of_lt hB)]
  · simp only []
    rw [c3, i2, i4]
    simp only [List.length_nil, zero_add]
    push_cast
    rw [Int.toNat_of_nonneg hn, Int.toNat_of_nonneg (le_of_lt hB)]

/-- C3 (amended): for a duration `D > 0`, a block size `B > 0` and a sample rate `R > 0`, let
`c` be the value of `std::ceil (D * R / B)` as the code computes it, in `double` arithmetic
with the product and the quotient each rounded to the nearest `double`.  When `c * B` fits an
`int` (`c * B ≤ 2147483647`), `render` on an engine with a loaded plugin returns after exactly
`c` calls of `processBlock`, and the left and the right preview sequence then hold exactly
`c * B` samples each, whatever they held before the call. -/
theorem render_block_count {σ : Type} (M : SoundModule σ) (e : RenderEngine σ) (p : σ)
    (renderLength : CDouble) (uninit : AudioData) (hp : e.plugin = some p)
    (hD : 0 < renderLength) (hB : 0 < e.bufferSize) (hR : 0 < e.sampleRate) (c : Int)
    (hc : FloatingPoint.ceil
        (FloatingPoint.divInt (FloatingPoint.mul renderLength e.sampleRate) e.bufferSize)
      = FloatingPoint.finite (c : ℚ))
    (hfit : c * e.bufferSize ≤ 2147483647) :
    ∃ e1 blocks, render M e renderLength uninit = some (Except.ok (e1, blocks)) ∧
      (blocks.length : Int) = c ∧
      (e1.processedAudioPreviewLeft.length : Int) = c * e.bufferSize ∧
      (e1.processedAudioPreviewRight.length : Int) = c * e.bufferSize := by
  have hc0 : 0 ≤ c :=
    ceil_divInt_mul_nonneg renderLength e.sampleRate e.bufferSize c
      (FloatingPoint.lt_imp_le _ _ hD) (FloatingPoint.lt_imp_le _ _ hR) hB hc
  have hcmax : c ≤ 2147483647 := by nlinarith
  have hn : numberOfBuffers renderLength e.sampleRate e.bufferSize = c :=
    numberOfBuffers_of_ceil _ _ _ c hc (by omega) hcmax
  have h := render_counts M e p renderLength uninit hp hB (by rw [hn]; exact hc0)
    (by rw [hn]; exact hfit)
  rw [hn] at h
  exact h

theorem plainEngine_sampleRate (bs : Int) :
    (plainEngine bs).sampleRate = FloatingPoint.finite 44100 := by
  show FloatingPoint.finite (((44100 : Int) : ℚ)) = FloatingPoint.finite 44100
  norm_num

theorem threeParams_sampleRate : threeParams.sampleRate = FloatingPoint.finite 44100 := by
  show FloatingPoint.finite (((44100 : Int) : ℚ)) = FloatingPoint.finite 44100
  norm_num

theorem ceil_finite (a : ℚ) (c : Int) (h : ⌈a⌉ = c) :
    FloatingPoint.ceil (FloatingPoint.finite a) = FloatingPoint.finite (c : ℚ) := by
  simp only [FloatingPoint.ceil, h]

/-- One second at 44100 Hz in blocks of 512 samples: `1 * 44100` and `44100 / 512` are exact
in `double` arithmetic and the ceiling is 87. -/
theorem ceil_one_second :
    FloatingPoint.ceil
        (FloatingPoint.divInt
          (FloatingPoint.mul (FloatingPoint.finite 1) (FloatingPoint.finite 44100)) 512)
      = FloatingPoint.finite ((87 : Int) : ℚ) := by
  rw [FloatingPoint.mul_finite_grid 1 44100 44100 6061057848115200 (-37) (by norm_num)
    (by norm_num) (by norm_num) (by norm_num) (by norm_num) (Or.inr (by norm_num))]
  rw [FloatingPoint.divInt_finite_grid 44100 (11025 / 128) 512 6061057848115200 (-46)
    (by norm_num) (by norm_num) (by norm_num) (by norm_num) (by norm_num) (by norm_num)
    (Or.inr (by norm_num))]
  apply ceil_finite
  rw [Int.ceil_eq_iff]
  norm_num

/-- Witness for C3: one second at 44100 Hz in blocks of 512 samples, on an engine whose left
preview sequence held three samples: 87 blocks, 87 * 512 samples in each sequence. -/
theorem render_block_count_witness :
    ({ threeParams with processedAudioPreviewLeft := [1, 2, 3] } : RenderEngine Unit).plugin
        = some () ∧
      (0 : CDouble) < FloatingPoint.finite 1 ∧
      (0 : Int) <
        ({ threeParams with processedAudioPreviewLeft := [1, 2, 3] } :
          RenderEngine Unit).bufferSize ∧
      (0 : CDouble) <
        ({ threeParams with processedAudioPreviewLeft := [1, 2, 3] } :
          RenderEngine Unit).sampleRate ∧
      ∃ e1 blocks,
        render (passiveModule ["A", "B", "C"])
          { threeParams with processedAudioPreviewLeft := [1, 2, 3] } (FloatingPoint.finite 1)
          (fun _ _ => 0)
          = some (Except.ok (e1, blocks)) ∧
        (blocks.length : Int) = 87 ∧
        (e1.processedAudioPreviewLeft.length : Int) = 87 * 512 ∧
        (e1.processedAudioPreviewRight.length : Int) = 87 * 512 := by
  have hR : ({ threeParams with processedAudioPreviewLeft := [1, 2, 3] } :
      RenderEngine Unit).sampleRate = FloatingPoint.finite 44100 := threeParams_sampleRate
  have hB : ({ threeParams with processedAudioPreviewLeft := [1, 2, 3] } :
      RenderEngine Unit).bufferSize = 512 := rfl
  have hD : (0 : CDouble) < FloatingPoint.finite 1 := by
    rw [FloatingPoint.zero_eq, FloatingPoint.finite_lt_finite]
    norm_num
  have hR0 : (0 : CDouble) <
      ({ threeParams with processedAudioPreviewLeft := [1, 2, 3] } :
        RenderEngine Unit).sampleRate := by
    rw [hR, FloatingPoint.zero_eq, FloatingPoint.finite_lt_finite]
    norm_num
  have hw := render_block_count (passiveModule ["A", "B", "C"])
      { threeParams with processedAudioPreviewLeft := [1, 2, 3] } () (FloatingPoint.finite 1)
      (fun _ _ => 0) rfl hD (by rw [hB]; decide) hR0 87
      (by rw [hR, hB]; exact ceil_one_second) (by rw [hB]; decide)
  rw [hB] at hw
  exact ⟨rfl, hD, by rw [hB]; decide, hR0, hw⟩

/-- The `double` nearest to `0.1` times `44100.0` rounds to `4410.0`; divided by `441` that is
`10.0`, although the exact quotient lies above `10`. -/
theorem ceil_tenth_second :
    FloatingPoint.ceil
        (FloatingPoint.divInt
          (FloatingPoint.mul (FloatingPoint.finite (3602879701896397 / 36028797018963968))
            (FloatingPoint.finite 44100)) 441)
      = FloatingPoint.finite ((10 : Int) : ℚ) := by
  have h1 : FloatingPoint.mul (FloatingPoint.finite (3602879701896397 / 36028797018963968))
      (FloatingPoint.finite 44100) = FloatingPoint.finite 4410 := by
    show roundToDouble (3602879701896397 / 36028797018963968 * 44100) = _
    have hpos : (0 : ℚ) < 3602879701896397 / 36028797018963968 * 44100 := by norm_num
    rw [roundToDouble_near _ 12 4848846278492160 (by norm_num)
      (by rw [abs_of_pos hpos]; norm_num) (by rw [abs_of_pos hpos]; norm_num)
      (by rw [abs_lt]; constructor <;> norm_num)
      (by rw [abs_of_pos (by norm_num)]; norm_num)]
    congr 1
    norm_num
  rw [h1]
  rw [FloatingPoint.divInt_finite_grid 4410 10 441 5629499534213120 (-49) (by norm_num)
    (by norm_num) (by norm_num) (by norm_num) (by norm_num) (by norm_num)
    (Or.inr (by norm_num))]
  apply ceil_finite
  rw [Int.ceil_eq_iff]
  norm_num

/-- Fifty thousand seconds at 44100 Hz in blocks of 512 samples: 4306641 blocks. -/
theorem ceil_fifty_thousand_seconds :
    FloatingPoint.ceil
        (FloatingPoint.divInt
          (FloatingPoint.mul (FloatingPoint.finite 50000) (FloatingPoint.finite 44100)) 512)
      = FloatingPoint.finite ((4306641 : Int) : ℚ) := by
  rw [FloatingPoint.mul_finite_grid 50000 44100 2205000000 4624220160000000 (-21)
    (by norm_num) (by norm_num) (by norm_num) (by norm_num) (by norm_num)
    (Or.inr (by norm_num))]
  rw [FloatingPoint.divInt_finite_grid 2205000000 (34453125 / 8) 512 4624220160000000 (-30)
    (by norm_num) (by norm_num) (by norm_num) (by norm_num) (by norm_num) (by norm_num)
    (Or.inr (by norm_num))]
  apply ceil_finite
  rw [Int.ceil_eq_iff]
  norm_num

/-- Counterexample to C3 as stated.  At 44100 Hz with blocks of 441 samples `render (0.1)`,
the argument being the `double` nearest to `0.1`, makes 10 calls of `processBlock` and leaves
4410 samples in each preview sequence, while `ceil (D * R / B)` is 11 for the value of that
`double`.  At 44100 Hz with blocks of 512 samples `render (50000.0)` makes no call at all: the
`int` product `4306641 * 512` wraps to a negative number and `reserve` throws. -/
theorem render_block_count_counterexample :
    (0 : ℚ) < 3602879701896397 / 36028797018963968 ∧
      ⌈(3602879701896397 / 36028797018963968 : ℚ) * 44100 / 441⌉ = 11 ∧
      (∃ e1 blocks,
        render (passiveModule []) (plainEngine 441)
          (FloatingPoint.finite (3602879701896397 / 36028797018963968)) (fun _ _ => 0)
          = some (Except.ok (e1, blocks)) ∧
        (blocks.length : Int) = 10 ∧
        (e1.processedAudioPreviewLeft.length : Int) = 4410 ∧
        (e1.processedAudioPreviewRight.length : Int) = 4410) ∧
      ⌈(50000 : ℚ) * 44100 / 512⌉ = 4306641 ∧
      ∃ e1,
        render (passiveModule []) (plainEngine 512) (FloatingPoint.finite 50000)
          (fun _ _ => 0) = some (Except.error e1) := by
  have hn1 : numberOfBuffers (FloatingPoint.finite (3602879701896397 / 36028797018963968))
      (plainEngine 441).sampleRate (plainEngine 441).bufferSize = 10 := by
    rw [plainEngine_sampleRate]
    exact numberOfBuffers_of_ceil _ _ _ 10 ceil_tenth_second (by decide) (by decide)
  have hn2 : numberOfBuffers (FloatingPoint.finite 50000)
      (plainEngine 512).sampleRate (plainEngine 512).bufferSize = 4306641 := by
    rw [plainEngine_sampleRate]
    exact numberOfBuffers_of_ceil _ _ _ 4306641 ceil_fifty_thousand_seconds (by decide)
      (by decide)
  have hB1 : (plainEngine 441).bufferSize = 441 := rfl
  have hB2 : (plainEngine 512).bufferSize = 512 := rfl
  refine ⟨by norm_num, ?_, ?_, ?_, ?_⟩
  · rw [Int.ceil_eq_iff]
    norm_num
  · have h := render_counts (passiveModule []) (plainEngine 441) ()
      (FloatingPoint.finite (3602879701896397 / 36028797018963968)) (fun _ _ => 0) rfl
      (by rw [hB1]; decide) (by rw [hn1]; decide) (by rw [hn1, hB1]; decide)
    rw [hn1, hB1] at h
    exact h
  · rw [Int.ceil_eq_iff]
    norm_num
  · refine ⟨_, render_of_throw (passiveModule []) (plainEngine 512) () _ _ rfl ?_⟩
    rw [hn2, hB2]
    decide

theorem doWhileBody_advances {σ : Type} (start end_ : Int) (s : RenderLocals σ)
    (h : ((doWhileBody start end_ s).isMessageBetween
      && (doWhileBody start end_ s).bufferRemaining) = true) :
    (doWhileBody start end_ s).it.length < s.it.length := by
  unfold doWhileBody at h ⊢
  by_cases hb : s.isMessageBetween = true
  · simp only [hb, if_true] at h ⊢
    unfold getNextEvent at h ⊢
    cases hit : s.it with
    | nil => simp [hit] at h
    | cons ev rest => simp [hit]
  · simp [hb] at h

/-- The bound on the passes of the `do { ... } while` statement is never reached: with any
bound above the number of events the iterator has not read yet the result is the same. -/
theorem doWhile_fuel {σ : Type} (start end_ : Int) (fuel1 : Nat) :
    ∀ (fuel2 : Nat) (s : RenderLocals σ), s.it.length < fuel1 → s.it.length < fuel2 →
      doWhile start end_ fuel1 s = doWhile start end_ fuel2 s := by
  induction fuel1 with
  | zero =>
    intro fuel2 s h1 _
    exact absurd h1 (Nat.not_lt_zero _)
  | succ fuel1 ih =>
    intro fuel2 s h1 h2
    cases fuel2 with
    | zero => exact absurd h2 (Nat.not_lt_zero _)
    | succ fuel2 =>
      unfold doWhile
      simp only []
      split
      · rename_i hc
        have hadv := doWhileBody_advances start end_ s hc
        exact ih fuel2 _ (by omega) (by omega)
      · rfl

theorem doWhile_spec {σ : Type} (start end_ : Int) (hse : start ≤ end_) (fuel : Nat) :
    ∀ (L : MidiBuffer) (s : RenderLocals σ),
      L.Pairwise (fun a b => a.1 ≤ b.1) → (∀ x ∈ L, start ≤ x.1) → CursorAt L start s →
      s.isMessageBetween = decide (s.sampleNumber ≥ start ∧ s.sampleNumber < end_) →
      s.it.length < fuel →
      CursorAt (L.dropWhile (fun x => decide (x.1 < end_))) end_ (doWhile start end_ fuel s) ∧
        (doWhile start end_ fuel s).added
          = s.added ++ (L.takeWhile (fun x => decide (x.1 < end_))).map
              (fun x => (x.1 - start, x.2)) ∧
        (doWhile start end_ fuel s).renderMidiBuffer
          = ((L.takeWhile (fun x => decide (x.1 < end_))).map
              (fun x => (x.1 - start, x.2))).foldl
              (fun b x => MidiBuffer.addEvent b x.2 x.1) s.renderMidiBuffer := by
  induction fuel with
  | zero =>
    intro L s _ _ _ _ hf
    exact absurd hf (Nat.not_lt_zero _)
  | succ fuel ih =>
    intro L s hsort hge hcur himb hfuel
    cases L with
    | nil =>
      obtain ⟨hit, hsn⟩ := hcur
      have hfalse : s.isMessageBetween = false := by
        rw [himb]
        simp
        intro h
        omega
      have hbody : doWhileBody start end_ s = s := by
        simp [doWhileBody, hfalse]
      have hres : doWhile start end_ (fuel + 1) s = s := by
        simp [doWhile, hbody, hfalse]
      rw [hres]
      refine ⟨⟨hit, by omega⟩, by simp, by simp⟩
    | cons ev rest =>
      obtain ⟨t, x⟩ := ev
      obtain ⟨hsn, hm, hit, hbr⟩ := hcur
      have hst : start ≤ t := hge (t, x) (List.mem_cons_self _ _)
      by_cases hte : t < end_
      · have htrue : s.isMessageBetween = true := by
          rw [himb, hsn]
          simp
          exact ⟨hst, hte⟩
        have hd : decide (t < end_) = true := by simp [hte]
        have hadd : (doWhileBody start end_ s).added = s.added ++ [(t - start, x)] := by
          simp [doWhileBody, htrue, (getNextEvent_frame _).2.2.2.2.2, hsn, hm]
        have hrmb : (doWhileBody start end_ s).renderMidiBuffer
            = MidiBuffer.addEvent s.renderMidiBuffer x (t - start) := by
          simp [doWhileBody, htrue, (getNextEvent_frame _).2.2.2.2.1, hsn, hm]
        have hdrop : ∀ r : MidiBuffer,
            List.dropWhile (fun x => decide (x.1 < end_)) ((t, x) :: r)
              = List.dropWhile (fun x => decide (x.1 < end_)) r := by
          intro r
          simp [List.dropWhile_cons, hte]
        have htake : ∀ r : MidiBuffer,
            List.takeWhile (fun x => decide (x.1 < end_)) ((t, x) :: r)
              = (t, x) :: List.takeWhile (fun x => decide (x.1 < end_)) r := by
          intro r
          simp [List.takeWhile_cons, hte]
        rw [hdrop, htake]
        simp only [List.map_cons, List.foldl_cons]
        cases rest with
        | nil =>
          have hbr' : (doWhileBody start end_ s).bufferRemaining = false := by
            simp [doWhileBody, htrue, getNextEvent, hit]
          have hit' : (doWhileBody start end_ s).it = [] := by
            simp [doWhileBody, htrue, getNextEvent, hit]
          have hsn' : (doWhileBody start end_ s).sampleNumber = t := by
            simp [doWhileBody, htrue, getNextEvent, hit, hsn]
          have hres : doWhile start end_ (fuel + 1) s = doWhileBody start end_ s := by
            simp [doWhile, hbr']
          rw [hres]
          simp only [List.dropWhile_nil, List.takeWhile_nil, List.map_nil, List.foldl_nil]
          exact ⟨⟨hit', by omega⟩, hadd, hrmb⟩
        | cons ev2 r2 =>
          obtain ⟨t2, x2⟩ := ev2
          have hbr' : (doWhileBody start end_ s).bufferRemaining = true := by
            simp [doWhileBody, htrue, getNextEvent, hit]
          have hit' : (doWhileBody start end_ s).it = r2 := by
            simp [doWhileBody, htrue, getNextEvent, hit]
          have hsn' : (doWhileBody start end_ s).sampleNumber = t2 := by
            simp [doWhileBody, htrue, getNextEvent, hit]
          have hm' : (doWhileBody start end_ s).m = x2 := by
            simp [doWhileBody, htrue, getNextEvent, hit]
          have himb' : (doWhileBody start end_ s).isMessageBetween
              = decide ((doWhileBody start end_ s).sampleNumber ≥ start ∧
                  (doWhileBody start end_ s).sampleNumber < end_) := by
            simp [doWhileBody, htrue, getNextEvent, hit]
          have hst2 : start ≤ t2 :=
            hge (t2, x2) (List.mem_cons_of_mem _ (List.mem_cons_self _ _))
          have hsort' : ((t2, x2) :: r2).Pairwise (fun a b => a.1 ≤ b.1) :=
            (List.pairwise_cons.mp hsort).2
          have hge' : ∀ y ∈ (t2, x2) :: r2, start ≤ y.1 :=
            fun y hy => hge y (List.mem_cons_of_mem _ hy)
          by_cases hte2 : t2 < end_
          · have hcond : (doWhileBody start end_ s).isMessageBetween = true := by
              rw [himb', hsn']
              simp
              exact ⟨hst2, hte2⟩
            have hres : doWhile start end_ (fuel + 1) s
                = doWhile start end_ fuel (doWhileBody start end_ s) := by
              simp [doWhile, hbr', hcond]
            have hlen : (doWhileBody start end_ s).it.length < fuel := by
              rw [hit']
              rw [hit] at hfuel
              simp at hfuel
              omega
            obtain ⟨g1, g2, g3⟩ := ih ((t2, x2) :: r2) (doWhileBody start end_ s) hsort' hge'
              ⟨hsn', hm', hit', hbr'⟩ himb' hlen
            rw [hres, g2, g3, hadd, hrmb]
            exact ⟨g1, by simp, rfl⟩
          · have hcond : (doWhileBody start end_ s).isMessageBetween = false := by
              rw [himb', hsn']
              simp
              intro _
              omega
            have hres : doWhile start end_ (fuel + 1) s = doWhileBody start end_ s := by
              simp [doWhile, hcond]
            have hd2 : decide (t2 < end_) = false := by simp [hte2]
            rw [hres]
            rw [List.dropWhile_cons, List.takeWhile_cons]
            simp only [hd2, List.map_nil, List.foldl_nil]
            exact ⟨⟨hsn', hm', hit', hbr'⟩, hadd, hrmb⟩
      · have hfalse : s.isMessageBetween = false := by
          rw [himb, hsn]
          simp
          intro _
          omega
        have hbody : doWhileBody start end_ s = s := by
          simp [doWhileBody, hfalse]
        have hres : doWhile start end_ (fuel + 1) s = s := by
          simp [doWhile, hbody, hfalse]
        rw [hres]
        have hd : decide (t < end_) = false := by simp [hte]
        simp only [List.dropWhile_cons, List.takeWhile_cons, hd]
        exact ⟨⟨hsn, hm, hit, hbr⟩, by simp, by simp⟩

theorem CursorAt.congr {σ : Type} {L : MidiBuffer} {bound : Int} {s s1 : RenderLocals σ}
    (h : CursorAt L bound s) (h1 : s1.it = s.it) (h2 : s1.sampleNumber = s.sampleNumber)
    (h3 : s1.m = s.m) (h4 : s1.bufferRemaining = s.bufferRemaining) : CursorAt L bound s1 := by
  cases L with
  | nil => exact ⟨h1.trans h.1, h2 ▸ h.2⟩
  | cons ev rest =>
    obtain ⟨t, x⟩ := ev
    exact ⟨h2.trans h.1, h3.trans h.2.1, h1.trans h.2.2.1, h4.trans h.2.2.2⟩

theorem dropWhile_lt_ge (L : MidiBuffer) (a : Int) (hs : L.Pairwise (fun x y => x.1 ≤ y.1)) :
    ∀ x ∈ L.dropWhile (fun x => decide (x.1 < a)), a ≤ x.1 := by
  induction L with
  | nil => simp
  | cons ev rest ih =>
    obtain ⟨h1, h2⟩ := List.pairwise_cons.mp hs
    by_cases hlt : ev.1 < a
    · simpa [List.dropWhile_cons, hlt] using ih h2
    · intro x hx
      simp [List.dropWhile_cons, hlt] at hx
      rcases hx with rfl | hx
      · omega
      · have := h1 x hx
        omega

theorem dropWhile_dropWhile_lt (L : MidiBuffer) (a b : Int) (hab : a ≤ b) :
    (L.dropWhile (fun x => decide (x.1 < a))).dropWhile (fun x => decide (x.1 < b))
      = L.dropWhile (fun x => decide (x.1 < b)) := by
  induction L with
  | nil => simp
  | cons ev rest ih =>
    by_cases hlt : ev.1 < a
    · have hb : ev.1 < b := by omega
      simp [List.dropWhile_cons, hlt, hb, ih]
    · simp [List.dropWhile_cons, hlt]

theorem takeWhile_lt_eq_filter (L : MidiBuffer) (a b : Int)
    (hs : L.Pairwise (fun x y => x.1 ≤ y.1)) (hge : ∀ x ∈ L, a ≤ x.1) :
    L.takeWhile (fun x => decide (x.1 < b))
      = L.filter (fun ev => decide (a ≤ ev.1 ∧ ev.1 < b)) := by
  induction L with
  | nil => simp
  | cons ev rest ih =>
    obtain ⟨h1, h2⟩ := List.pairwise_cons.mp hs
    have ha : a ≤ ev.1 := hge ev (List.mem_cons_self _ _)
    by_cases hlt : ev.1 < b
    · simp [List.takeWhile_cons, List.filter_cons, hlt, ha,
        ih h2 (fun x hx => hge x (List.mem_cons_of_mem _ hx))]
    · have hnone : rest.filter (fun ev => decide (a ≤ ev.1 ∧ ev.1 < b)) = [] := by
        rw [List.filter_eq_nil_iff]
        intro x hx
        have := h1 x hx
        simp
        intro _
        omega
      have hd1 : decide (ev.1 < b) = false := by simp [hlt]
      have hd2 : decide (a ≤ ev.1 ∧ ev.1 < b) = false := by simp [hlt]
      rw [List.takeWhile_cons, List.filter_cons, hd1, hd2, hnone]
      simp

theorem takeWhile_dropWhile_eq_filter (L : MidiBuffer) (a b : Int)
    (hs : L.Pairwise (fun x y => x.1 ≤ y.1)) :
    (L.dropWhile (fun x => decide (x.1 < a))).takeWhile (fun x => decide (x.1 < b))
      = L.filter (fun ev => decide (a ≤ ev.1 ∧ ev.1 < b)) := by
  induction L with
  | nil => simp
  | cons ev rest ih =>
    obtain ⟨h1, h2⟩ := List.pairwise_cons.mp hs
    by_cases hlt : ev.1 < a
    · have hna : ¬ a ≤ ev.1 := by omega
      simp [List.dropWhile_cons, List.filter_cons, hlt, hna, ih h2]
    · have hd : (ev :: rest).dropWhile (fun x => decide (x.1 < a)) = ev :: rest := by
        simp [List.dropWhile_cons, hlt]
      rw [hd]
      apply takeWhile_lt_eq_filter _ a b hs
      intro x hx
      rcases List.mem_cons.mp hx with rfl | hx
      · omega
      · have := h1 x hx
        omega

theorem renderBlock_spec {σ : Type} (M : SoundModule σ) (timeline : MidiBuffer) (i : Int)
    (s : RenderLocals σ) (hB : 0 ≤ s.engine.bufferSize)
    (hw0 : wrapInt32 (i * s.engine.bufferSize) = i * s.engine.bufferSize)
    (hw1 : wrapInt32 ((i + 1) * s.engine.bufferSize) = (i + 1) * s.engine.bufferSize)
    (hs : timeline.Pairwise (fun x y => x.1 ≤ y.1))
    (hc : CursorAt (timeline.dropWhile (fun x => decide (x.1 < i * s.engine.bufferSize)))
      (i * s.engine.bufferSize) s) :
    CursorAt
        (timeline.dropWhile (fun x => decide (x.1 < (i + 1) * s.engine.bufferSize)))
        ((i + 1) * s.engine.bufferSize) (renderBlock M i s) ∧
      (renderBlock M i s).engine.bufferSize = s.engine.bufferSize ∧
      ∃ b q a, (renderBlock M i s).blocks = s.blocks ++ [b] ∧
        b.added = blockEvents timeline s.engine.bufferSize i ∧
        b.handed = (blockEvents timeline s.engine.bufferSize i).foldl
          (fun buf x => MidiBuffer.addEvent buf x.2 x.1) s.renderMidiBuffer ∧
        (renderBlock M i s).renderMidiBuffer = (M.processBlock q a b.handed).2.2 := by
  have hse : wrapInt32 (i * s.engine.bufferSize) ≤ wrapInt32 ((i + 1) * s.engine.bufferSize) := by
    rw [hw0, hw1]
    nlinarith
  rw [← hw0] at hc
  obtain ⟨d, hd⟩ : ∃ d, d = doWhile (wrapInt32 (i * s.engine.bufferSize))
      (wrapInt32 ((i + 1) * s.engine.bufferSize)) (s.it.length + 1)
      { s with
        isMessageBetween := decide (s.sampleNumber ≥ wrapInt32 (i * s.engine.bufferSize) ∧
          s.sampleNumber < wrapInt32 ((i + 1) * s.engine.bufferSize)),
        added := [] } := ⟨_, rfl⟩
  have hspec := doWhile_spec (wrapInt32 (i * s.engine.bufferSize))
    (wrapInt32 ((i + 1) * s.engine.bufferSize)) hse (s.it.length + 1)
    (timeline.dropWhile (fun x => decide (x.1 < wrapInt32 (i * s.engine.bufferSize))))
    { s with
      isMessageBetween := decide (s.sampleNumber ≥ wrapInt32 (i * s.engine.bufferSize) ∧
        s.sampleNumber < wrapInt32 ((i + 1) * s.engine.bufferSize)),
      added := [] }
    (hs.sublist (List.dropWhile_sublist _))
    (dropWhile_lt_ge timeline _ hs)
    (hc.congr rfl rfl rfl rfl) rfl (Nat.lt_succ_self _)
  have hframe := doWhile_frame (wrapInt32 (i * s.engine.bufferSize))
    (wrapInt32 ((i + 1) * s.engine.bufferSize)) (s.it.length + 1)
    { s with
      isMessageBetween := decide (s.sampleNumber ≥ wrapInt32 (i * s.engine.bufferSize) ∧
        s.sampleNumber < wrapInt32 ((i + 1) * s.engine.bufferSize)),
      added := [] }
  rw [← hd] at hspec hframe
  obtain ⟨g1, g2, g3⟩ := hspec
  obtain ⟨f1, f2, f3, f4⟩ := hframe
  rw [dropWhile_dropWhile_lt timeline _ _ hse] at g1
  rw [takeWhile_dropWhile_eq_filter timeline _ _ hs] at g2 g3
  simp only [List.nil_append] at g2 f1 f4 g3
  rw [hw0, hw1] at g2 g3
  rw [hw1] at g1
  have hit : (renderBlock M i s).it = d.it := by rw [hd]; rfl
  have hsn : (renderBlock M i s).sampleNumber = d.sampleNumber := by rw [hd]; rfl
  have hm : (renderBlock M i s).m = d.m := by rw [hd]; rfl
  have hbr : (renderBlock M i s).bufferRemaining = d.bufferRemaining := by rw [hd]; rfl
  have he : (renderBlock M i s).engine
      = fillAudioFeatures d.engine
          { d.audioBuffer with
            read := (M.processBlock d.plugin d.audioBuffer.read d.renderMidiBuffer).2.1 } := by
    rw [hd]
    rfl
  have hb : (renderBlock M i s).blocks
      = d.blocks ++ [⟨d.added, d.renderMidiBuffer,
          (M.processBlock d.plugin d.audioBuffer.read d.renderMidiBuffer).2.1⟩] := by
    rw [hd]
    rfl
  have hr : (renderBlock M i s).renderMidiBuffer
      = (M.processBlock d.plugin d.audioBuffer.read d.renderMidiBuffer).2.2 := by
    rw [hd]
    rfl
  refine ⟨g1.congr hit hsn hm hbr, ?_, ?_⟩
  · rw [he, fillAudioFeatures_bufferSize, f1]
  · rw [f4] at hb
    exact ⟨_, _, _, hb, g2, g3, hr⟩

theorem wrapInt32_block (i count bufferSize : Int) (hB : 0 ≤ bufferSize) (hi : 0 ≤ i)
    (hc : 1 ≤ count) (hfit : (i + count) * bufferSize ≤ 2147483647) :
    wrapInt32 (i * bufferSize) = i * bufferSize ∧
      wrapInt32 ((i + 1) * bufferSize) = (i + 1) * bufferSize := by
  have h0 : 0 ≤ i * bufferSize := mul_nonneg hi hB
  have h1 : i * bufferSize ≤ (i + 1) * bufferSize := by nlinarith
  have h2 : (i + 1) * bufferSize ≤ (i + count) * bufferSize :=
    mul_le_mul_of_nonneg_right (by omega) hB
  exact ⟨wrapInt32_of_range _ (by omega) (by omega), wrapInt32_of_range _ (by omega) (by omega)⟩

theorem forLoop_spec {σ : Type} (M : SoundModule σ) (timeline : MidiBuffer)
    (hs : timeline.Pairwise (fun x y => x.1 ≤ y.1)) (count : Nat) :
    ∀ (i : Int) (s : RenderLocals σ), 0 ≤ s.engine.bufferSize → 0 ≤ i →
      (i + (count : Int)) * s.engine.bufferSize ≤ 2147483647 →
      CursorAt (timeline.dropWhile (fun x => decide (x.1 < i * s.engine.bufferSize)))
        (i * s.engine.bufferSize) s →
      (forLoop M count i s).blocks.map (fun b => b.added)
          = s.blocks.map (fun b => b.added) ++
            (List.range count).map
              (fun (j : Nat) => blockEvents timeline s.engine.bufferSize (i + (j : Int))) ∧
        ((∀ q a mb, (M.processBlock q a mb).2.2 = []) → s.renderMidiBuffer = [] →
          (forLoop M count i s).blocks.map (fun b => b.handed)
            = s.blocks.map (fun b => b.handed) ++
              (List.range count).map
                (fun (j : Nat) => (blockEvents timeline s.engine.bufferSize (i + (j : Int))).foldl
                  (fun buf x => MidiBuffer.addEvent buf x.2 x.1) [])) := by
  induction count with
  | zero =>
    intro i s _ _ _ _
    simp [forLoop]
  | succ count ih =>
    intro i s hB hi hfit hc
    obtain ⟨hw0, hw1⟩ := wrapInt32_block i ((count + 1 : Nat) : Int) s.engine.bufferSize hB hi
      (by push_cast; omega) hfit
    obtain ⟨r1, r2, b, q, a, r3, r4, r5, r6⟩ :=
      renderBlock_spec M timeline i s hB hw0 hw1 hs hc
    have hB1 : 0 ≤ (renderBlock M i s).engine.bufferSize := by rw [r2]; exact hB
    have hfit1 : (i + 1 + (count : Int)) * (renderBlock M i s).engine.bufferSize
        ≤ 2147483647 := by
      rw [r2]
      have : i + 1 + (count : Int) = i + ((count + 1 : Nat) : Int) := by
        push_cast
        ring
      rw [this]
      exact hfit
    have hc1 : CursorAt
        (timeline.dropWhile
          (fun x => decide (x.1 < (i + 1) * (renderBlock M i s).engine.bufferSize)))
        ((i + 1) * (renderBlock M i s).engine.bufferSize) (renderBlock M i s) := by
      rw [r2]
      exact r1
    obtain ⟨g1, g2⟩ := ih (i + 1) (renderBlock M i s) hB1 (by omega) hfit1 hc1
    have hshift : ∀ j : Nat, i + 1 + (j : Int) = i + ((j + 1 : Nat) : Int) := by
      intro j
      push_cast
      ring
    unfold forLoop
    rw [List.range_succ_eq_map]
    refine ⟨?_, ?_⟩
    · rw [g1, r3, r2]
      simp [r4, hshift, Function.comp_def]
    · intro hclear hempty
      have hnext : (renderBlock M i s).renderMidiBuffer = [] := by rw [r6]; exact hclear _ _ _
      rw [g2 hclear hnext, r3, r2]
      simp [r5, hempty, hshift, Function.comp_def]

theorem forLoop_handed_passive {σ : Type} (M : SoundModule σ) (timeline : MidiBuffer)
    (hs : timeline.Pairwise (fun x y => x.1 ≤ y.1))
    (hpass : ∀ q a mb, (M.processBlock q a mb).2.2 = mb) (count : Nat) :
    ∀ (i : Int) (s : RenderLocals σ), 0 ≤ s.engine.bufferSize → 0 ≤ i →
      (i + (count : Int)) * s.engine.bufferSize ≤ 2147483647 →
      CursorAt (timeline.dropWhile (fun x => decide (x.1 < i * s.engine.bufferSize)))
        (i * s.engine.bufferSize) s →
      (forLoop M count i s).blocks.map (fun b => b.handed)
        = s.blocks.map (fun b => b.handed) ++
          (List.range count).map
            (fun (j : Nat) =>
              ((List.range (j + 1)).flatMap
                (fun (k : Nat) => blockEvents timeline s.engine.bufferSize (i + (k : Int)))).foldl
                (fun buf x => MidiBuffer.addEvent buf x.2 x.1) s.renderMidiBuffer) := by
  induction count with
  | zero =>
    intro i s _ _ _ _
    simp [forLoop]
  | succ count ih =>
    intro i s hB hi hfit hc
    obtain ⟨hw0, hw1⟩ := wrapInt32_block i ((count + 1 : Nat) : Int) s.engine.bufferSize hB hi
      (by push_cast; omega) hfit
    obtain ⟨r1, r2, b, q, a, r3, r4, r5, r6⟩ :=
      renderBlock_spec M timeline i s hB hw0 hw1 hs hc
    have hB1 : 0 ≤ (renderBlock M i s).engine.bufferSize := by rw [r2]; exact hB
    have hfit1 : (i + 1 + (count : Int)) * (renderBlock M i s).engine.bufferSize
        ≤ 2147483647 := by
      rw [r2]
      have : i + 1 + (count : Int) = i + ((count + 1 : Nat) : Int) := by
        push_cast
        ring
      rw [this]
      exact hfit
    have hc1 : CursorAt
        (timeline.dropWhile
          (fun x => decide (x.1 < (i + 1) * (renderBlock M i s).engine.bufferSize)))
        ((i + 1) * (renderBlock M i s).engine.bufferSize) (renderBlock M i s) := by
      rw [r2]
      exact r1
    have g := ih (i + 1) (renderBlock M i s) hB1 (by omega) hfit1 hc1
    have hshift : ∀ j : Nat, i + 1 + (j : Int) = i + ((j + 1 : Nat) : Int) := by
      intro j
      push_cast
      ring
    have hnext : (renderBlock M i s).renderMidiBuffer = b.handed := by rw [r6]; exact hpass _ _ _
    unfold forLoop
    rw [g, r3, r2, hnext, r5]
    rw [List.range_succ_eq_map count]
    simp only [List.map_append, List.map_cons, List.map_nil, List.append_assoc,
      List.singleton_append, List.map_map]
    congr 1
    congr 1
    · have h01 : List.range (0 + 1) = [0] := rfl
      rw [r5, h01]
      simp
    · apply List.map_congr_left
      intro j _
      simp only [Function.comp_apply]
      rw [List.range_succ_eq_map (j + 1), List.flatMap_cons, List.foldl_append]
      simp [List.flatMap_map, hshift, Function.comp_def]

theorem addEvent_of_le (buf : MidiBuffer) (m : MidiMessage) (pos : Int)
    (h : ∀ x ∈ buf, x.1 ≤ pos) : MidiBuffer.addEvent buf m pos = buf ++ [(pos, m)] := by
  induction buf with
  | nil => rfl
  | cons ev rest ih =>
    obtain ⟨t, x⟩ := ev
    have ht : t ≤ pos := h (t, x) (List.mem_cons_self _ _)
    simp [MidiBuffer.addEvent, ht, ih (fun y hy => h y (List.mem_cons_of_mem _ hy))]

theorem foldl_addEvent_sorted (L : MidiBuffer) (hs : L.Pairwise (fun x y => x.1 ≤ y.1)) :
    ∀ buf : MidiBuffer, (∀ x ∈ buf, ∀ y ∈ L, x.1 ≤ y.1) →
      L.foldl (fun buf x => MidiBuffer.addEvent buf x.2 x.1) buf = buf ++ L := by
  induction L with
  | nil => simp
  | cons ev rest ih =>
    intro buf hle
    obtain ⟨h1, h2⟩ := List.pairwise_cons.mp hs
    rw [List.foldl_cons, addEvent_of_le buf ev.2 ev.1 (fun x hx => hle x hx ev
      (List.mem_cons_self _ _)), ih h2]
    · simp
    · intro x hx y hy
      rcases List.mem_append.mp hx with hx | hx
      · exact hle x hx y (List.mem_cons_of_mem _ hy)
      · simp at hx
        subst hx
        exact h1 y hy

theorem blockEvents_sorted (timeline : MidiBuffer) (bufferSize i : Int)
    (hs : timeline.Pairwise (fun x y => x.1 ≤ y.1)) :
    (blockEvents timeline bufferSize i).Pairwise (fun x y => x.1 ≤ y.1) := by
  unfold blockEvents
  rw [List.pairwise_map]
  apply (hs.sublist (List.filter_sublist _)).imp
  intro a b hab
  simp only
  omega

theorem foldl_addEvent_blockEvents (timeline : MidiBuffer) (bufferSize i : Int)
    (hs : timeline.Pairwise (fun x y => x.1 ≤ y.1)) :
    (blockEvents timeline bufferSize i).foldl (fun buf x => MidiBuffer.addEvent buf x.2 x.1) []
      = blockEvents timeline bufferSize i := by
  rw [foldl_addEvent_sorted _ (blockEvents_sorted timeline bufferSize i hs) [] (by simp)]
  simp

theorem renderInit_cursor {σ : Type} (M : SoundModule σ) (e : RenderEngine σ) (p : σ)
    (uninit : AudioData) (hnn : ∀ x ∈ e.midiBuffer, 0 ≤ x.1) :
    CursorAt
      (e.midiBuffer.dropWhile
        (fun x => decide (x.1 < 0 * (renderInit M e p uninit).engine.bufferSize)))
      (0 * (renderInit M e p uninit).engine.bufferSize) (renderInit M e p uninit) := by
  rw [zero_mul]
  cases hm : e.midiBuffer with
  | nil =>
    simp only [List.dropWhile_nil]
    unfold renderInit getNextEvent
    simp [hm, CursorAt]
  | cons ev rest =>
    obtain ⟨t, x⟩ := ev
    have ht : ¬ t < 0 := not_lt.mpr (hnn (t, x) (by rw [hm]; exact List.mem_cons_self _ _))
    have hd : List.dropWhile (fun x => decide (x.1 < 0)) ((t, x) :: rest) = (t, x) :: rest := by
      simp [List.dropWhile_cons, ht]
    rw [hd]
    unfold renderInit getNextEvent
    simp [hm, CursorAt]

/-- The block scheduler of `render` on a timeline in ascending order with non-negative
positions, for a block count that is not negative and a sample count
`numberOfBuffers * bufferSize` that fits an `int`: for every block `j` the `addEvent` calls
made while processing the block are exactly the events of the block, rebased; a module that
empties the MIDI buffer in `processBlock` is handed exactly these events; a module that leaves
the MIDI buffer as it is is handed the rebased events of all the blocks `0, ..., j`
together. -/
theorem render_blocks_spec {σ : Type} (M : SoundModule σ) (e : RenderEngine σ) (p : σ)
    (renderLength : CDouble) (uninit : AudioData) (hp : e.plugin = some p)
    (hB : 0 < e.bufferSize)
    (hn : 0 ≤ numberOfBuffers renderLength e.sampleRate e.bufferSize)
    (hfit : numberOfBuffers renderLength e.sampleRate e.bufferSize * e.bufferSize
      ≤ 2147483647)
    (hs : e.midiBuffer.Pairwise (fun x y => x.1 ≤ y.1)) (hnn : ∀ x ∈ e.midiBuffer, 0 ≤ x.1) :
    ∃ e1 blocks, render M e renderLength uninit = some (Except.ok (e1, blocks)) ∧
      blocks.map (fun b => b.added)
        = (List.range (numberOfBuffers renderLength e.sampleRate e.bufferSize).toNat).map
            (fun (j : Nat) => blockEvents e.midiBuffer e.bufferSize j) ∧
      ((∀ q a mb, (M.processBlock q a mb).2.2 = []) →
        blocks.map (fun b => b.handed)
          = (List.range (numberOfBuffers renderLength e.sampleRate e.bufferSize).toNat).map
              (fun (j : Nat) => blockEvents e.midiBuffer e.bufferSize j)) ∧
      ((∀ q a mb, (M.processBlock q a mb).2.2 = mb) →
        blocks.map (fun b => b.handed)
          = (List.range (numberOfBuffers renderLength e.sampleRate e.bufferSize).toNat).map
              (fun (j : Nat) =>
                ((List.range (j + 1)).flatMap
                  (fun (k : Nat) => blockEvents e.midiBuffer e.bufferSize k)).foldl
                  (fun buf x => MidiBuffer.addEvent buf x.2 x.1) [])) := by
  have hok : ¬ wrapInt32
      (numberOfBuffers renderLength e.sampleRate e.bufferSize * e.bufferSize) < 0 := by
    have hprod := mul_nonneg hn (le_of_lt hB)
    rw [wrapInt32_of_range _ (by omega) hfit]
    omega
  obtain ⟨i1, -, -, -, i5, -, i7⟩ := renderInit_fields M e p uninit
  have hc := renderInit_cursor M e p uninit hnn
  have hB0 : 0 ≤ (renderInit M e p uninit).engine.bufferSize := by rw [i5]; exact le_of_lt hB
  have hfit0 : (0 + (((numberOfBuffers renderLength e.sampleRate e.bufferSize).toNat : Nat)
      : Int)) * (renderInit M e p uninit).engine.bufferSize ≤ 2147483647 := by
    rw [i5, Int.toNat_of_nonneg hn, zero_add]
    exact hfit
  obtain ⟨g1, g2⟩ := forLoop_spec M e.midiBuffer hs
    (numberOfBuffers renderLength e.sampleRate e.bufferSize).toNat 0 (renderInit M e p uninit)
    hB0 (le_refl 0) hfit0 hc
  refine ⟨_, _, render_of_plugin M e p renderLength uninit hp hok, ?_, ?_, ?_⟩
  · rw [g1, i1, i5]
    simp
  · intro hclear
    rw [g2 hclear i7, i1, i5]
    simp [foldl_addEvent_blockEvents _ _ _ hs]
  · intro hpass
    rw [forLoop_handed_passive M e.midiBuffer hs hpass _ 0 (renderInit M e p uninit) hB0
      (le_refl 0) hfit0 hc, i1, i5, i7]
    simp

theorem addMidiNote_accepted {σ : Type} (e : RenderEngine σ) (midiNote midiVelocity : Nat)
    (noteStart noteLength : CDouble) (hn : midiNote ≤ 255) (hv : midiVelocity ≤ 255)
    (hd : ¬ noteLength ≤ 0) :
    (addMidiNote e midiNote midiVelocity noteStart noteLength).1 = true ∧
      (addMidiNote e midiNote midiVelocity noteStart noteLength).2.midiBuffer
        = MidiBuffer.addEvent
            (MidiBuffer.addEvent e.midiBuffer (MidiMessage.noteOn 1 midiNote midiVelocity)
              (doubleToInt (FloatingPoint.mul noteStart e.sampleRate)))
            (MidiMessage.noteOff 1 midiNote midiVelocity)
            (doubleToInt
              (FloatingPoint.add (FloatingPoint.mul noteStart e.sampleRate)
                (FloatingPoint.mul noteLength e.sampleRate))) ∧
      (addMidiNote e midiNote midiVelocity noteStart noteLength).2.sampleRate = e.sampleRate ∧
      (addMidiNote e midiNote midiVelocity noteStart noteLength).2.bufferSize = e.bufferSize ∧
      (addMidiNote e midiNote midiVelocity noteStart noteLength).2.plugin = e.plugin := by
  have hn1 : ¬ midiNote > 255 := by omega
  have hv1 : ¬ midiVelocity > 255 := by omega
  unfold addMidiNote
  simp only [hn1, hv1, hd, if_false, Nat.not_lt_zero]
  exact ⟨trivial, trivial, trivial, trivial, trivial⟩

theorem one_not_le_zero : ¬ ((FloatingPoint.finite 1 : CDouble) ≤ 0) := by
  rw [FloatingPoint.zero_eq, FloatingPoint.finite_le_finite]
  norm_num

theorem mul_one_44100 :
    FloatingPoint.mul (FloatingPoint.finite 1) (FloatingPoint.finite 44100)
      = FloatingPoint.finite 44100 :=
  FloatingPoint.mul_finite_grid 1 44100 44100 6061057848115200 (-37) (by norm_num)
    (by norm_num) (by norm_num) (by norm_num) (by norm_num) (Or.inr (by norm_num))

theorem staleEngine_fields :
    staleEngine.sampleRate = FloatingPoint.finite 44100 ∧ staleEngine.bufferSize = 512 ∧
      staleEngine.plugin = some () := by
  obtain ⟨-, -, h3, h4, h5⟩ := addMidiNote_accepted
    (plainEngine 512) 60 100 (FloatingPoint.finite 0) (FloatingPoint.finite 1) (by decide)
    (by decide) one_not_le_zero
  exact ⟨h3.trans (plainEngine_sampleRate 512), h4, h5⟩

theorem staleEngine_midiBuffer :
    staleEngine.midiBuffer
      = [(0, MidiMessage.noteOn 1 60 100), (44100, MidiMessage.noteOff 1 60 100)] := by
  obtain ⟨-, h2, -, -, -⟩ := addMidiNote_accepted
    (plainEngine 512) 60 100 (FloatingPoint.finite 0) (FloatingPoint.finite 1) (by decide)
    (by decide) one_not_le_zero
  have hM : (plainEngine 512).midiBuffer = [] := rfl
  rw [plainEngine_sampleRate, hM, FloatingPoint.mul_zero_finite, mul_one_44100,
    FloatingPoint.add_zero_finite 44100 6061057848115200 (-37) (by norm_num) (by norm_num)
      (by norm_num) (by norm_num) (Or.inr (by norm_num)),
    doubleToInt_eq 0 0 (by norm_num) (by decide) (by decide),
    doubleToInt_eq 44100 44100 (by norm_num) (by decide) (by decide)] at h2
  exact h2

theorem boundaryEngine_fields :
    boundaryEngine.sampleRate = FloatingPoint.finite 44100 ∧ boundaryEngine.bufferSize = 441 ∧
      boundaryEngine.plugin = some () := by
  obtain ⟨-, -, h3, h4, h5⟩ := addMidiNote_accepted
    (plainEngine 441) 60 100 (FloatingPoint.finite 1) (FloatingPoint.finite 1) (by decide)
    (by decide) one_not_le_zero
  exact ⟨h3.trans (plainEngine_sampleRate 441), h4, h5⟩

theorem getElem?_of_map_eq {α β : Type} (f : α → β) (l : List α) (l1 : List β)
    (h : l.map f = l1) (i : Nat) (y : β) (hy : l1[i]? = some y) :
    ∃ x, l[i]? = some x ∧ f x = y := by
  rw [← h, List.getElem?_map] at hy
  cases hx : l[i]? with
  | none => simp [hx] at hy
  | some x =>
    rw [hx] at hy
    exact ⟨x, rfl, by simpa using hy⟩

/-- A render of `1/64` s at 44100 Hz in blocks of 512 samples: `44100 / 64` and the quotient
by 512 are exact in `double` arithmetic and the ceiling is 2. -/
theorem ceil_sixtyfourth_second :
    FloatingPoint.ceil
        (FloatingPoint.divInt
          (FloatingPoint.mul (FloatingPoint.finite (1 / 64)) (FloatingPoint.finite 44100)) 512)
      = FloatingPoint.finite ((2 : Int) : ℚ) := by
  rw [FloatingPoint.mul_finite_grid (1 / 64) 44100 (11025 / 16) 6061057848115200 (-43)
    (by norm_num) (by norm_num) (by norm_num) (by norm_num) (by norm_num)
    (Or.inr (by norm_num))]
  rw [FloatingPoint.divInt_finite_grid (11025 / 16) (11025 / 8192) 512 6061057848115200 (-52)
    (by norm_num) (by norm_num) (by norm_num) (by norm_num) (by norm_num) (by norm_num)
    (Or.inr (by norm_num))]
  apply ceil_finite
  rw [Int.ceil_eq_iff]
  norm_num

/-- C1 at the failing input: a module that leaves the MIDI buffer unmodified, the timeline of
one note (NoteOn at sample 0, NoteOff at sample 44100), blocks of 512 samples and a render of
1/64 s (two blocks).  No timeline event lies in block 1, yet the MIDI buffer handed to
`processBlock` for block 1 holds the NoteOn of block 0. -/
theorem render_stale_events :
    ∃ e1 blocks b1,
      render (passiveModule []) staleEngine (FloatingPoint.finite (1 / 64)) (fun _ _ => 0)
        = some (Except.ok (e1, blocks)) ∧
      blocks.length = 2 ∧ blocks[1]? = some b1 ∧
      b1.handed = [(0, MidiMessage.noteOn 1 60 100)] ∧
      blockEvents staleEngine.midiBuffer staleEngine.bufferSize 1 = [] := by
  obtain ⟨hR, hB, hP⟩ := staleEngine_fields
  have hn : numberOfBuffers (FloatingPoint.finite (1 / 64)) staleEngine.sampleRate
      staleEngine.bufferSize = 2 := by
    rw [hR, hB]
    exact numberOfBuffers_of_ceil _ _ _ 2 ceil_sixtyfourth_second (by decide) (by decide)
  have hsorted : staleEngine.midiBuffer.Pairwise (fun x y => x.1 ≤ y.1) := by
    rw [staleEngine_midiBuffer]
    simp
  have hnn : ∀ x ∈ staleEngine.midiBuffer, 0 ≤ x.1 := by
    rw [staleEngine_midiBuffer]
    simp
  have hb0 : blockEvents staleEngine.midiBuffer staleEngine.bufferSize 0
      = [(0, MidiMessage.noteOn 1 60 100)] := by
    rw [staleEngine_midiBuffer, hB]
    decide
  have hb1 : blockEvents staleEngine.midiBuffer staleEngine.bufferSize 1
      = [] := by
    rw [staleEngine_midiBuffer, hB]
    decide
  obtain ⟨e1, blocks, h1, h2, -, h4⟩ := render_blocks_spec (passiveModule []) staleEngine ()
    (FloatingPoint.finite (1 / 64)) (fun _ _ => 0) hP (by rw [hB]; decide)
    (by rw [hn]; decide) (by rw [hn, hB]; decide) hsorted hnn
  have hlen : blocks.length = 2 := by
    have := congrArg List.length h2
    rw [hn] at this
    simpa using this
  have h5 := h4 (fun _ _ _ => rfl)
  rw [hn] at h5
  obtain ⟨b1, hb, hh⟩ := getElem?_of_map_eq _ blocks _ h5 1 [(0, MidiMessage.noteOn 1 60 100)]
    (by
      have h2r : List.range (1 + 1) = [0, 1] := rfl
      have h2t : (2 : Int).toNat = 2 := rfl
      rw [h2t]
      simp [h2r, hb0, hb1, MidiBuffer.addEvent, List.range_succ])
  exact ⟨e1, blocks, b1, h1, hlen, hb, hh, hb1⟩

theorem addEvent_eq_takeWhile_dropWhile (buf : MidiBuffer) (m : MidiMessage) (pos : Int) :
    MidiBuffer.addEvent buf m pos
      = buf.takeWhile (fun x => decide (x.1 ≤ pos)) ++
          (pos, m) :: buf.dropWhile (fun x => decide (x.1 ≤ pos)) := by
  induction buf with
  | nil => rfl
  | cons ev rest ih =>
    obtain ⟨t, x⟩ := ev
    by_cases ht : t ≤ pos
    · simp [MidiBuffer.addEvent, ht, ih, List.takeWhile_cons, List.dropWhile_cons]
    · simp [MidiBuffer.addEvent, ht, List.takeWhile_cons, List.dropWhile_cons]

theorem addEvent_append_of_le (a b : MidiBuffer) (m : MidiMessage) (pos : Int)
    (h : ∀ x ∈ a, x.1 ≤ pos) :
    MidiBuffer.addEvent (a ++ b) m pos = a ++ MidiBuffer.addEvent b m pos := by
  induction a with
  | nil => rfl
  | cons ev rest ih =>
    obtain ⟨t, x⟩ := ev
    have ht : t ≤ pos := h (t, x) (List.mem_cons_self _ _)
    simp [MidiBuffer.addEvent, ht, ih (fun y hy => h y (List.mem_cons_of_mem _ hy))]

theorem addEvent_twice (buf : MidiBuffer) (m1 m2 : MidiMessage) (p1 p2 : Int) (h : p1 ≤ p2) :
    ∃ l1 l2 l3, buf = l1 ++ l2 ++ l3 ∧
      MidiBuffer.addEvent (MidiBuffer.addEvent buf m1 p1) m2 p2
        = l1 ++ (p1, m1) :: l2 ++ (p2, m2) :: l3 := by
  refine ⟨buf.takeWhile (fun x => decide (x.1 ≤ p1)),
    (buf.dropWhile (fun x => decide (x.1 ≤ p1))).takeWhile (fun x => decide (x.1 ≤ p2)),
    (buf.dropWhile (fun x => decide (x.1 ≤ p1))).dropWhile (fun x => decide (x.1 ≤ p2)),
    ?_, ?_⟩
  · rw [List.append_assoc, List.takeWhile_append_dropWhile, List.takeWhile_append_dropWhile]
  · rw [addEvent_eq_takeWhile_dropWhile buf m1 p1]
    rw [addEvent_append_of_le _ _ m2 p2]
    · have hcons : MidiBuffer.addEvent
          ((p1, m1) :: buf.dropWhile (fun x => decide (x.1 ≤ p1))) m2 p2
          = (p1, m1) :: MidiBuffer.addEvent (buf.dropWhile (fun x => decide (x.1 ≤ p1))) m2 p2 := by
        simp [MidiBuffer.addEvent, h]
      rw [hcons, addEvent_eq_takeWhile_dropWhile _ m2 p2]
      simp
    · intro x hx
      have := List.mem_takeWhile_imp hx
      simp only [decide_eq_true_eq] at this
      omega

/-- The two time stamps that `addMidiNote` computes for a start time `≥ 0`, a duration that is
not rejected and a sample rate `≥ 0`, when the time stamp of the NoteOff is finite: the time
stamp of the NoteOn is finite too, it is not negative and it does not exceed that of the
NoteOff. -/
theorem addMidiNote_timeStamps (noteStart noteLength sampleRate : CDouble)
    (hs : 0 ≤ noteStart) (hd : ¬ noteLength ≤ 0) (hR : 0 ≤ sampleRate) (t : ℚ)
    (ht : FloatingPoint.add (FloatingPoint.mul noteStart sampleRate)
        (FloatingPoint.mul noteLength sampleRate) = FloatingPoint.finite t) :
    ∃ a, FloatingPoint.mul noteStart sampleRate = FloatingPoint.finite a ∧ 0 ≤ a ∧ a ≤ t := by
  obtain ⟨a, b, ha, hb, -, htab⟩ := FloatingPoint.add_eq_finite _ _ t ht
  obtain ⟨s, r, hS, hRr, -, has⟩ := FloatingPoint.mul_eq_finite noteStart sampleRate a ha
  obtain ⟨d, r1, hD, hR1, -, hbd⟩ := FloatingPoint.mul_eq_finite noteLength sampleRate b hb
  have hrr : r1 = r := by
    rw [hRr] at hR1
    exact (FloatingPoint.finite.inj hR1).symm
  rw [hS, FloatingPoint.zero_eq, FloatingPoint.finite_le_finite] at hs
  rw [hRr, FloatingPoint.zero_eq, FloatingPoint.finite_le_finite] at hR
  rw [hD, FloatingPoint.zero_eq, FloatingPoint.finite_le_finite] at hd
  have hd0 : 0 ≤ d := le_of_lt (not_le.mp hd)
  have ha0 : 0 ≤ a := by
    rw [has]
    exact roundFinite_nonneg _ (mul_nonneg hs hR)
  have hb0 : 0 ≤ b := by
    rw [hbd, hrr]
    exact roundFinite_nonneg _ (mul_nonneg hd0 hR)
  have hidem : roundFinite a = a := by
    rw [has]
    exact roundFinite_idem _
  refine ⟨a, ha, ha0, ?_⟩
  rw [htab, ← hidem]
  rw [hidem]
  calc a = roundFinite a := hidem.symm
    _ ≤ roundFinite (a + b) := roundFinite_mono a (a + b) ha0 (by linarith)

/-- C10 (amended): for pitch and velocity in `0..255`, a start time `s ≥ 0`, a duration `d > 0`
and a sample rate `R ≥ 0`, let `a` be the product `s * R` and `t` the sum `s * R + d * R` as
the code computes them, in `double` arithmetic with every product and the sum rounded to the
nearest `double`.  When `t` is finite and below `2 ^ 31`, `addMidiNote` returns success and
inserts exactly two events into the timeline, every earlier event being kept in place and
order: a NoteOn at sample `a` truncated to an integer and, behind it, a NoteOff at sample `t`
truncated to an integer, both on channel 1 with the supplied pitch and velocity. -/
theorem addMidiNote_inserts {σ : Type} (e : RenderEngine σ) (midiNote midiVelocity : Nat)
    (noteStart noteLength : CDouble) (hn : midiNote ≤ 255) (hv : midiVelocity ≤ 255)
    (hs : 0 ≤ noteStart) (hd : 0 < noteLength) (hR : 0 ≤ e.sampleRate) (a t : ℚ)
    (ha : FloatingPoint.mul noteStart e.sampleRate = FloatingPoint.finite a)
    (ht : FloatingPoint.add (FloatingPoint.mul noteStart e.sampleRate)
        (FloatingPoint.mul noteLength e.sampleRate) = FloatingPoint.finite t)
    (hfit : t < 2147483648) :
    (addMidiNote e midiNote midiVelocity noteStart noteLength).1 = true ∧
      0 ≤ ⌊a⌋ ∧ ⌊a⌋ ≤ ⌊t⌋ ∧
      (∃ l1 l2 l3, e.midiBuffer = l1 ++ l2 ++ l3 ∧
        (addMidiNote e midiNote midiVelocity noteStart noteLength).2.midiBuffer
          = l1 ++ (⌊a⌋, MidiMessage.noteOn 1 midiNote midiVelocity) ::
              l2 ++ (⌊t⌋, MidiMessage.noteOff 1 midiNote midiVelocity) :: l3) ∧
      (addMidiNote e midiNote midiVelocity noteStart noteLength).2.midiBuffer.length
        = e.midiBuffer.length + 2 := by
  have hd1 : ¬ noteLength ≤ 0 := FloatingPoint.not_le_of_lt _ _ hd
  obtain ⟨a1, ha1, ha0, hat⟩ :=
    addMidiNote_timeStamps noteStart noteLength e.sampleRate hs hd1 hR t ht
  have haa : a1 = a := by
    rw [ha] at ha1
    exact (FloatingPoint.finite.inj ha1).symm
  subst haa
  have hle : ⌊a1⌋ ≤ ⌊t⌋ := Int.floor_mono hat
  obtain ⟨hres1, hres2, -, -, -⟩ :=
    addMidiNote_accepted e midiNote midiVelocity noteStart noteLength hn hv hd1
  rw [ht, ha, doubleToInt_of_nonneg a1 ha0 (lt_of_le_of_lt hat hfit),
    doubleToInt_of_nonneg t (le_trans ha0 hat) hfit] at hres2
  obtain ⟨l1, l2, l3, e1, e2⟩ := addEvent_twice e.midiBuffer
    (MidiMessage.noteOn 1 midiNote midiVelocity) (MidiMessage.noteOff 1 midiNote midiVelocity)
    _ _ hle
  rw [hres2]
  refine ⟨hres1, Int.floor_nonneg.mpr ha0, hle, ⟨l1, l2, l3, e1, e2⟩, ?_⟩
  rw [e2, e1]
  simp
  omega

theorem new_sampleRate_44100 (bs : Int) :
    (RenderEngine.new Unit 44100 bs).sampleRate = FloatingPoint.finite 44100 := by
  show FloatingPoint.finite (((44100 : Int) : ℚ)) = FloatingPoint.finite 44100
  norm_num

theorem new_sampleRate_44101 (bs : Int) :
    (RenderEngine.new Unit 44101 bs).sampleRate = FloatingPoint.finite 44101 := by
  show FloatingPoint.finite (((44101 : Int) : ℚ)) = FloatingPoint.finite 44101
  norm_num

theorem quarter_not_le_zero : ¬ ((FloatingPoint.finite (1 / 4) : CDouble) ≤ 0) := by
  rw [FloatingPoint.zero_eq, FloatingPoint.finite_le_finite]
  norm_num

/-- Witness for C10, the scenario of the spec: `addMidiNote (60, 100, 0.5, 0.25)` at 44100 Hz
on an empty timeline gives a NoteOn at sample 22050 followed by a NoteOff at sample 33075. -/
theorem addMidiNote_inserts_witness :
    (60 : Nat) ≤ 255 ∧ (100 : Nat) ≤ 255 ∧ (0 : CDouble) ≤ FloatingPoint.finite (1 / 2) ∧
      (0 : CDouble) < FloatingPoint.finite (1 / 4) ∧
      (0 : CDouble) ≤ (RenderEngine.new Unit 44100 512).sampleRate ∧
      FloatingPoint.mul (FloatingPoint.finite (1 / 2))
          (RenderEngine.new Unit 44100 512).sampleRate = FloatingPoint.finite 22050 ∧
      FloatingPoint.add
          (FloatingPoint.mul (FloatingPoint.finite (1 / 2))
            (RenderEngine.new Unit 44100 512).sampleRate)
          (FloatingPoint.mul (FloatingPoint.finite (1 / 4))
            (RenderEngine.new Unit 44100 512).sampleRate) = FloatingPoint.finite 33075 ∧
      (33075 : ℚ) < 2147483648 ∧
      (addMidiNote (RenderEngine.new Unit 44100 512) 60 100 (FloatingPoint.finite (1 / 2))
        (FloatingPoint.finite (1 / 4))).1 = true ∧
      (addMidiNote (RenderEngine.new Unit 44100 512) 60 100 (FloatingPoint.finite (1 / 2))
        (FloatingPoint.finite (1 / 4))).2.midiBuffer
        = [(22050, MidiMessage.noteOn 1 60 100), (33075, MidiMessage.noteOff 1 60 100)] := by
  have hR := new_sampleRate_44100 512
  have hs : (0 : CDouble) ≤ FloatingPoint.finite (1 / 2) :=
    FloatingPoint.zero_le_finite _ (by norm_num)
  have hd : (0 : CDouble) < FloatingPoint.finite (1 / 4) := by
    rw [FloatingPoint.zero_eq, FloatingPoint.finite_lt_finite]
    norm_num
  have hR0 : (0 : CDouble) ≤ (RenderEngine.new Unit 44100 512).sampleRate := by
    rw [hR]
    exact FloatingPoint.zero_le_finite _ (by norm_num)
  have ha : FloatingPoint.mul (FloatingPoint.finite (1 / 2))
      (RenderEngine.new Unit 44100 512).sampleRate = FloatingPoint.finite 22050 := by
    rw [hR]
    exact FloatingPoint.mul_finite_grid (1 / 2) 44100 22050 6061057848115200 (-38)
      (by norm_num) (by norm_num) (by norm_num) (by norm_num) (by norm_num)
      (Or.inr (by norm_num))
  have hb : FloatingPoint.mul (FloatingPoint.finite (1 / 4))
      (RenderEngine.new Unit 44100 512).sampleRate = FloatingPoint.finite 11025 := by
    rw [hR]
    exact FloatingPoint.mul_finite_grid (1 / 4) 44100 11025 6061057848115200 (-39)
      (by norm_num) (by norm_num) (by norm_num) (by norm_num) (by norm_num)
      (Or.inr (by norm_num))
  have ht : FloatingPoint.add
      (FloatingPoint.mul (FloatingPoint.finite (1 / 2))
        (RenderEngine.new Unit 44100 512).sampleRate)
      (FloatingPoint.mul (FloatingPoint.finite (1 / 4))
        (RenderEngine.new Unit 44100 512).sampleRate) = FloatingPoint.finite 33075 := by
    rw [ha, hb]
    exact FloatingPoint.add_finite_grid 22050 11025 33075 4545793386086400 (-37)
      (by norm_num) (by norm_num) (by norm_num) (by norm_num) (by norm_num)
      (Or.inr (by norm_num))
  have hM : (RenderEngine.new Unit 44100 512).midiBuffer = [] := rfl
  have hf1 : ⌊(22050 : ℚ)⌋ = 22050 := by
    rw [Int.floor_eq_iff]
    norm_num
  have hf2 : ⌊(33075 : ℚ)⌋ = 33075 := by
    rw [Int.floor_eq_iff]
    norm_num
  obtain ⟨h1, -, -, ⟨l1, l2, l3, h2, h3⟩, -⟩ :=
    addMidiNote_inserts (RenderEngine.new Unit 44100 512) 60 100 (FloatingPoint.finite (1 / 2))
      (FloatingPoint.finite (1 / 4)) (by decide) (by decide) hs hd hR0 22050 33075 ha ht
      (by norm_num)
  rw [hM] at h2
  have hl : l1 = [] ∧ l2 = [] ∧ l3 = [] := by
    have := h2.symm
    simp only [List.append_eq_nil] at this
    exact ⟨this.1.1, this.1.2, this.2⟩
  rw [hl.1, hl.2.1, hl.2.2, hf1, hf2] at h3
  exact ⟨by decide, by decide, hs, hd, hR0, ha, ht, by norm_num, h1, h3⟩

/-- The `double` nearest to `0.7` times `44100.0`: the product rounds to the `double` just
below `30870`. -/
theorem mul_seven_tenths :
    FloatingPoint.mul (FloatingPoint.finite (3152519739159347 / 4503599627370496))
        (FloatingPoint.finite 44100)
      = FloatingPoint.finite (8485480987361279 / 274877906944) := by
  show roundToDouble (3152519739159347 / 4503599627370496 * 44100) = _
  have hpos : (0 : ℚ) < 3152519739159347 / 4503599627370496 * 44100 := by norm_num
  rw [roundToDouble_near _ 14 8485480987361279 (by norm_num)
    (by rw [abs_of_pos hpos]; norm_num) (by rw [abs_of_pos hpos]; norm_num)
    (by rw [abs_lt]; constructor <;> norm_num)
    (by rw [abs_of_pos (by norm_num)]; norm_num)]
  congr 1
  norm_num

/-- The `double` nearest to `0.3` times `44100.0`: the product rounds to `13230.0`. -/
theorem mul_three_tenths :
    FloatingPoint.mul (FloatingPoint.finite (5404319552844595 / 18014398509481984))
        (FloatingPoint.finite 44100)
      = FloatingPoint.finite 13230 := by
  show roundToDouble (5404319552844595 / 18014398509481984 * 44100) = _
  have hpos : (0 : ℚ) < 5404319552844595 / 18014398509481984 * 44100 := by norm_num
  rw [roundToDouble_near _ 13 7273269417738240 (by norm_num)
    (by rw [abs_of_pos hpos]; norm_num) (by rw [abs_of_pos hpos]; norm_num)
    (by rw [abs_lt]; constructor <;> norm_num)
    (by rw [abs_of_pos (by norm_num)]; norm_num)]
  congr 1
  norm_num

/-- The sum of the two products above lies exactly between two `double`s and rounds to the even
one, `44100.0`. -/
theorem add_seven_three_tenths :
    FloatingPoint.add (FloatingPoint.finite (8485480987361279 / 274877906944))
        (FloatingPoint.finite 13230)
      = FloatingPoint.finite 44100 := by
  show roundToDouble (8485480987361279 / 274877906944 + 13230) = _
  have hpos : (0 : ℚ) < 8485480987361279 / 274877906944 + 13230 := by norm_num
  rw [roundToDouble_tie _ 15 6061057848115200 (by norm_num)
    (by rw [abs_of_pos hpos]; norm_num) (by rw [abs_of_pos hpos]; norm_num) (by decide)
    (Or.inr (by norm_num))
    (by rw [abs_of_pos (by norm_num)]; norm_num)]
  congr 1
  norm_num

/-- Counterexample to C10 as stated.  At 44101 Hz, `addMidiNote (60, 100, 0.5, 0.25)` puts the
NoteOn at sample 22050 and the NoteOff at sample 33075, which are not `s * R = 22050.5` and
`s * R + d * R = 33075.75`.  At 44100 Hz, `addMidiNote (60, 100, 0.7, 0.3)`, the arguments
being the `double`s nearest to `0.7` and `0.3`, puts the NoteOn at sample 30869 and the NoteOff
at sample 44100, while `s * R + d * R` is below 44100 for the values of these `double`s. -/
theorem addMidiNote_truncation_counterexample :
    (addMidiNote (RenderEngine.new Unit 44101 512) 60 100 (FloatingPoint.finite (1 / 2))
        (FloatingPoint.finite (1 / 4))).2.midiBuffer
        = [(22050, MidiMessage.noteOn 1 60 100), (33075, MidiMessage.noteOff 1 60 100)] ∧
      ((22050 : Int) : ℚ) ≠ 1 / 2 * 44101 ∧
      ((33075 : Int) : ℚ) ≠ 1 / 2 * 44101 + 1 / 4 * 44101 ∧
      (addMidiNote (RenderEngine.new Unit 44100 512) 60 100
        (FloatingPoint.finite (3152519739159347 / 4503599627370496))
        (FloatingPoint.finite (5404319552844595 / 18014398509481984))).2.midiBuffer
        = [(30869, MidiMessage.noteOn 1 60 100), (44100, MidiMessage.noteOff 1 60 100)] ∧
      ⌊(3152519739159347 / 4503599627370496 : ℚ) * 44100
        + 5404319552844595 / 18014398509481984 * 44100⌋ = 44099 := by
  have hM1 : (RenderEngine.new Unit 44101 512).midiBuffer = [] := rfl
  have hM2 : (RenderEngine.new Unit 44100 512).midiBuffer = [] := rfl
  have hd2 : ¬ ((FloatingPoint.finite (5404319552844595 / 18014398509481984) : CDouble)
      ≤ 0) := by
    rw [FloatingPoint.zero_eq, FloatingPoint.finite_le_finite]
    norm_num
  obtain ⟨-, h1, -, -, -⟩ := addMidiNote_accepted (RenderEngine.new Unit 44101 512) 60 100
    (FloatingPoint.finite (1 / 2)) (FloatingPoint.finite (1 / 4)) (by decide) (by decide)
    quarter_not_le_zero
  obtain ⟨-, h2, -, -, -⟩ := addMidiNote_accepted (RenderEngine.new Unit 44100 512) 60 100
    (FloatingPoint.finite (3152519739159347 / 4503599627370496))
    (FloatingPoint.finite (5404319552844595 / 18014398509481984)) (by decide) (by decide) hd2
  rw [new_sampleRate_44101, hM1,
    FloatingPoint.mul_finite_grid (1 / 2) 44101 (44101 / 2) 6061195287068672 (-38)
      (by norm_num) (by norm_num) (by norm_num) (by norm_num) (by norm_num)
      (Or.inr (by norm_num)),
    FloatingPoint.mul_finite_grid (1 / 4) 44101 (44101 / 4) 6061195287068672 (-39)
      (by norm_num) (by norm_num) (by norm_num) (by norm_num) (by norm_num)
      (Or.inr (by norm_num)),
    FloatingPoint.add_finite_grid (44101 / 2) (44101 / 4) (132303 / 4) 4545896465301504 (-37)
      (by norm_num) (by norm_num) (by norm_num) (by norm_num) (by norm_num)
      (Or.inr (by norm_num)),
    doubleToInt_of_nonneg (44101 / 2) (by norm_num) (by norm_num),
    doubleToInt_of_nonneg (132303 / 4) (by norm_num) (by norm_num)] at h1
  have hf1 : ⌊(44101 / 2 : ℚ)⌋ = 22050 := by
    rw [Int.floor_eq_iff]
    norm_num
  have hf2 : ⌊(132303 / 4 : ℚ)⌋ = 33075 := by
    rw [Int.floor_eq_iff]
    norm_num
  rw [hf1, hf2] at h1
  rw [new_sampleRate_44100, hM2, mul_seven_tenths, mul_three_tenths, add_seven_three_tenths,
    doubleToInt_of_nonneg (8485480987361279 / 274877906944) (by norm_num) (by norm_num),
    doubleToInt_eq 44100 44100 (by norm_num) (by decide) (by decide)] at h2
  have hf3 : ⌊(8485480987361279 / 274877906944 : ℚ)⌋ = 30869 := by
    rw [Int.floor_eq_iff]
    norm_num
  rw [hf3] at h2
  refine ⟨h1, by norm_num, by norm_num, h2, ?_⟩
  rw [Int.floor_eq_iff]
  norm_num

/-- Why C10 is stated for a sample rate `R ≥ 0`: with the sample rate `-1`,
`addMidiNote (60, 100, 0.0, 1.0)` puts the NoteOff (sample `-1`) before the NoteOn
(sample `0`). -/
theorem addMidiNote_negative_rate :
    (addMidiNote (RenderEngine.new Unit (-1) 512) 60 100 (FloatingPoint.finite 0)
        (FloatingPoint.finite 1)).2.midiBuffer
      = [(-1, MidiMessage.noteOff 1 60 100), (0, MidiMessage.noteOn 1 60 100)] := by
  have hR : (RenderEngine.new Unit (-1) 512).sampleRate = FloatingPoint.finite (-1) := by
    show FloatingPoint.finite (((-1 : Int) : ℚ)) = FloatingPoint.finite (-1)
    norm_num
  have hM : (RenderEngine.new Unit (-1) 512).midiBuffer = [] := rfl
  obtain ⟨-, h1, -, -, -⟩ := addMidiNote_accepted (RenderEngine.new Unit (-1) 512) 60 100
    (FloatingPoint.finite 0) (FloatingPoint.finite 1) (by decide) (by decide) one_not_le_zero
  rw [hR, hM, FloatingPoint.mul_zero_finite,
    FloatingPoint.mul_finite_grid 1 (-1) (-1) (-4503599627370496) (-52)
      (by norm_num) (by norm_num) (by norm_num) (by norm_num) (by norm_num)
      (Or.inr (by norm_num)),
    FloatingPoint.add_zero_finite (-1) (-4503599627370496) (-52) (by norm_num) (by norm_num)
      (by norm_num) (by norm_num) (Or.inr (by norm_num)),
    doubleToInt_eq 0 0 (by norm_num) (by decide) (by decide),
    doubleToInt_eq (-1) (-1) (by norm_num) (by decide) (by decide)] at h1
  rw [h1]
  decide

/-- C11: `addMidiNote` returns failure if and only if the duration is `≤ 0`, for every pitch,
velocity and start time; whenever it returns failure the engine, and with it the timeline, is
exactly as before the call. -/
theorem addMidiNote_failure {σ : Type} (e : RenderEngine σ) (midiNote midiVelocity : Nat)
    (noteStart noteLength : CDouble) :
    ((addMidiNote e midiNote midiVelocity noteStart noteLength).1 = false ↔ noteLength ≤ 0) ∧
      ((addMidiNote e midiNote midiVelocity noteStart noteLength).1 = false →
        (addMidiNote e midiNote midiVelocity noteStart noteLength).2 = e) := by
  by_cases hd : noteLength ≤ 0
  · have h : addMidiNote e midiNote midiVelocity noteStart noteLength = (false, e) := by
      unfold addMidiNote
      simp only [hd, if_true]
    rw [h]
    exact ⟨⟨fun _ => hd, fun _ => rfl⟩, fun _ => rfl⟩
  · have h : (addMidiNote e midiNote midiVelocity noteStart noteLength).1 = true := by
      unfold addMidiNote
      simp only [hd, if_false]
    rw [h]
    exact ⟨⟨fun hc => Bool.noConfusion hc, fun hc => (hd hc).elim⟩,
      fun hc => Bool.noConfusion hc⟩

theorem renderBlock_audio {σ : Type} (M : SoundModule σ) (i : Int) (s : RenderLocals σ) :
    ∃ b : BlockRecord, (renderBlock M i s).blocks = s.blocks ++ [b] ∧
      (renderBlock M i s).engine.processedAudioPreviewLeft
        = s.engine.processedAudioPreviewLeft ++
            (List.range s.audioBuffer.numSamples).map (b.output 0) ∧
      (renderBlock M i s).engine.processedAudioPreviewRight
        = s.engine.processedAudioPreviewRight ++
            (List.range s.audioBuffer.numSamples).map
              (fun k => if s.audioBuffer.numChannels > 1 then b.output 1 k else b.output 0 k) ∧
      (renderBlock M i s).audioBuffer.numSamples = s.audioBuffer.numSamples ∧
      (renderBlock M i s).audioBuffer.numChannels = s.audioBuffer.numChannels := by
  obtain ⟨d, hd⟩ : ∃ d, d = doWhile (wrapInt32 (i * s.engine.bufferSize))
      (wrapInt32 ((i + 1) * s.engine.bufferSize)) (s.it.length + 1)
      { s with
        isMessageBetween := decide (s.sampleNumber ≥ wrapInt32 (i * s.engine.bufferSize) ∧
          s.sampleNumber < wrapInt32 ((i + 1) * s.engine.bufferSize)),
        added := [] } := ⟨_, rfl⟩
  have hframe := doWhile_frame (wrapInt32 (i * s.engine.bufferSize))
    (wrapInt32 ((i + 1) * s.engine.bufferSize)) (s.it.length + 1)
    { s with
      isMessageBetween := decide (s.sampleNumber ≥ wrapInt32 (i * s.engine.bufferSize) ∧
        s.sampleNumber < wrapInt32 ((i + 1) * s.engine.bufferSize)),
      added := [] }
  rw [← hd] at hframe
  obtain ⟨h1, -, h3, h4⟩ := hframe
  simp only [] at h1 h3 h4
  have hb : (renderBlock M i s).blocks
      = d.blocks ++ [⟨d.added, d.renderMidiBuffer,
          (M.processBlock d.plugin d.audioBuffer.read d.renderMidiBuffer).2.1⟩] := by
    rw [hd]
    rfl
  have he : (renderBlock M i s).engine
      = fillAudioFeatures d.engine
          { d.audioBuffer with
            read := (M.processBlock d.plugin d.audioBuffer.read d.renderMidiBuffer).2.1 } := by
    rw [hd]
    rfl
  have hn : (renderBlock M i s).audioBuffer.numSamples = d.audioBuffer.numSamples := by
    rw [hd]
    rfl
  have hc : (renderBlock M i s).audioBuffer.numChannels = d.audioBuffer.numChannels := by
    rw [hd]
    rfl
  rw [h4, h3] at hb
  rw [h1] at he
  rw [h3] at he hn hc
  refine ⟨_, hb, ?_, ?_, hn, hc⟩
  · rw [he, fillAudioFeatures_left]
  · rw [he, fillAudioFeatures_right]

theorem forLoop_audio {σ : Type} (M : SoundModule σ) (count : Nat) :
    ∀ (i : Int) (s : RenderLocals σ) (preL preR : List ℚ),
      s.engine.processedAudioPreviewLeft
        = preL ++ s.blocks.flatMap
            (fun b => (List.range s.audioBuffer.numSamples).map (b.output 0)) →
      s.engine.processedAudioPreviewRight
        = preR ++ s.blocks.flatMap
            (fun b => (List.range s.audioBuffer.numSamples).map
              (fun k => if s.audioBuffer.numChannels > 1 then b.output 1 k else b.output 0 k)) →
      (forLoop M count i s).engine.processedAudioPreviewLeft
          = preL ++ (forLoop M count i s).blocks.flatMap
              (fun b => (List.range s.audioBuffer.numSamples).map (b.output 0)) ∧
        (forLoop M count i s).engine.processedAudioPreviewRight
          = preR ++ (forLoop M count i s).blocks.flatMap
              (fun b => (List.range s.audioBuffer.numSamples).map
                (fun k =>
                  if s.audioBuffer.numChannels > 1 then b.output 1 k else b.output 0 k)) := by
  induction count with
  | zero =>
    intro i s preL preR hL hR
    exact ⟨hL, hR⟩
  | succ count ih =>
    intro i s preL preR hL hR
    obtain ⟨b, r1, r2, r3, r4, r5⟩ := renderBlock_audio M i s
    have g := ih (i + 1) (renderBlock M i s) preL preR
      (by rw [r2, r1, r4, hL]; simp)
      (by rw [r3, r1, r4, r5, hR]; simp)
    rw [r4, r5] at g
    exact g

/-- C13: after every `render` (on an engine with a loaded plugin) the left preview sequence is
the concatenation, in block order and in sample order within each block, of channel 0 of every
block's output buffer; the right preview sequence is the same concatenation over channel 1 when
the module has two or more output channels and equals the left sequence when it has exactly
one; the two sequences have the same length.  A `render` that `reserve` ends with
`std::length_error` has processed no block and leaves both sequences empty. -/
theorem render_previews {σ : Type} (M : SoundModule σ) (e : RenderEngine σ) (p : σ)
    (renderLength : CDouble) (uninit : AudioData) (hp : e.plugin = some p) :
    ∃ e1 blocks,
      (render M e renderLength uninit = some (Except.ok (e1, blocks)) ∨
        (render M e renderLength uninit = some (Except.error e1) ∧ blocks = [])) ∧
      e1.processedAudioPreviewLeft
        = blocks.flatMap (fun b => (List.range e.bufferSize.toNat).map (b.output 0)) ∧
      (2 ≤ M.getTotalNumOutputChannels p →
        e1.processedAudioPreviewRight
          = blocks.flatMap (fun b => (List.range e.bufferSize.toNat).map (b.output 1))) ∧
      (M.getTotalNumOutputChannels p = 1 →
        e1.processedAudioPreviewRight = e1.processedAudioPreviewLeft) ∧
      e1.processedAudioPreviewLeft.length = e1.processedAudioPreviewRight.length := by
  by_cases hthrow : wrapInt32
      (numberOfBuffers renderLength e.sampleRate e.bufferSize * e.bufferSize) < 0
  · exact ⟨_, [], Or.inr ⟨render_of_throw M e p renderLength uninit hp hthrow, rfl⟩,
      rfl, fun _ => rfl, fun _ => rfl, rfl⟩
  obtain ⟨i1, i2, i3, i4, -, -, -⟩ := renderInit_fields M e p uninit
  have i8 : (renderInit M e p uninit).audioBuffer.numChannels
      = M.getTotalNumOutputChannels p := by
    unfold renderInit getNextEvent
    simp only []
    split <;> rfl
  obtain ⟨gL, gR⟩ := forLoop_audio M
    (numberOfBuffers renderLength e.sampleRate e.bufferSize).toNat 0 (renderInit M e p uninit)
    [] [] (by rw [i1, i3]; rfl) (by rw [i1, i4]; rfl)
  obtain ⟨-, cL, cR⟩ := forLoop_counts M
    (numberOfBuffers renderLength e.sampleRate e.bufferSize).toNat 0 (renderInit M e p uninit)
  rw [i2, i8] at gR
  rw [i2] at gL
  simp only [List.nil_append] at gL gR
  refine ⟨_, _, Or.inl (render_of_plugin M e p renderLength uninit hp hthrow), gL, ?_, ?_, ?_⟩
  · intro h2
    have hgt : M.getTotalNumOutputChannels p > 1 := by omega
    simp only []
    rw [gR]
    simp only [hgt, if_true]
  · intro h1
    have hgt : ¬ M.getTotalNumOutputChannels p > 1 := by omega
    simp only []
    rw [gR, gL]
    simp only [hgt, if_false]
  · simp only []
    rw [cL, cR, i3, i4]

/-- Witness for C13: `render (1/64)` on the three-parameter engine, whose module has two
output channels. -/
theorem render_previews_witness :
    threeParams.plugin = some () ∧
      ∃ e1 blocks,
        render (passiveModule ["A", "B", "C"]) threeParams (FloatingPoint.finite (1 / 64))
          (fun _ _ => 0) = some (Except.ok (e1, blocks)) ∧
        e1.processedAudioPreviewLeft
          = blocks.flatMap
              (fun b => (List.range threeParams.bufferSize.toNat).map (b.output 0)) ∧
        e1.processedAudioPreviewRight
          = blocks.flatMap
              (fun b => (List.range threeParams.bufferSize.toNat).map (b.output 1)) ∧
        e1.processedAudioPreviewLeft.length = e1.processedAudioPreviewRight.length := by
  have hB : threeParams.bufferSize = 512 := rfl
  have hn : numberOfBuffers (FloatingPoint.finite (1 / 64)) threeParams.sampleRate
      threeParams.bufferSize = 2 := by
    rw [threeParams_sampleRate, hB]
    exact numberOfBuffers_of_ceil _ _ _ 2 ceil_sixtyfourth_second (by decide) (by decide)
  have hok : ¬ wrapInt32
      (numberOfBuffers (FloatingPoint.finite (1 / 64)) threeParams.sampleRate
        threeParams.bufferSize * threeParams.bufferSize) < 0 := by
    rw [hn, hB]
    decide
  have hr := render_of_plugin (passiveModule ["A", "B", "C"]) threeParams ()
    (FloatingPoint.finite (1 / 64)) (fun _ _ => 0) rfl hok
  obtain ⟨e1, blocks, h1, h2, h3, -, h5⟩ :=
    render_previews (passiveModule ["A", "B", "C"]) threeParams ()
      (FloatingPoint.finite (1 / 64)) (fun _ _ => 0) rfl
  rcases h1 with h1 | ⟨h1, -⟩
  · exact ⟨rfl, e1, blocks, h1, h2, h3 (by decide), h5⟩
  · rw [hr] at h1
    simp at h1

theorem fill_foldl_eq (name : Nat → String) (l : List Nat) (acc : PluginPatch) :
    l.foldl
        (fun (params : PluginPatch) i =>
          if name i ≠ "Param" then params ++ [((i : Int), (0 : CFloat))] else params) acc
      = acc ++ (l.filter (fun i => decide (name i ≠ "Param"))).map
          (fun (i : Nat) => ((i : Int), (0 : CFloat))) := by
  induction l generalizing acc with
  | nil => simp
  | cons a l ih =>
    rw [List.foldl_cons, ih]
    by_cases ha : name a ≠ "Param"
    · rw [if_pos ha, List.filter_cons, if_pos (by simpa using ha)]
      simp
    · rw [if_neg ha, List.filter_cons, if_neg (by simpa using ha)]

theorem fillAvailablePluginParameters_eq {σ : Type} (M : SoundModule σ) (p : σ) :
    fillAvailablePluginParameters M p
      = ((List.range (M.getNumParameters p)).filter
          (fun i => decide (M.getParameterName p i ≠ "Param"))).map
          (fun (i : Nat) => ((i : Int), (0 : CFloat))) := by
  unfold fillAvailablePluginParameters
  rw [fill_foldl_eq]
  simp

theorem indicesInOrder_set (parameters : PluginPatch) (k : Nat) (value : CFloat)
    (h : IndicesInOrder parameters) :
    IndicesInOrder (parameters.set k ((k : Int), value)) := by
  intro j q hq
  rw [List.getElem?_set] at hq
  by_cases hkj : k = j
  · subst hkj
    rw [if_pos rfl] at hq
    by_cases hlt : k < parameters.length
    · rw [if_pos hlt] at hq
      cases hq
      rfl
    · rw [if_neg hlt] at hq
      cases hq
  · rw [if_neg hkj] at hq
    exact h j q hq

theorem loadPresetLoop_invariant {σ : Type} (M : SoundModule σ) (p : σ) (l : List Nat) :
    ∀ (params result : PluginPatch),
      (loadPresetLoop M p l params = Except.ok result ∨
        loadPresetLoop M p l params = Except.error result) →
      result.length = params.length ∧ (IndicesInOrder params → IndicesInOrder result) := by
  induction l with
  | nil =>
    intro params result h
    simp only [loadPresetLoop] at h
    rcases h with h | h
    · cases h
      exact ⟨rfl, id⟩
    · cases h
  | cons i rest ih =>
    intro params result h
    unfold loadPresetLoop at h
    by_cases hi : i < params.length
    · rw [if_pos hi] at h
      obtain ⟨h1, h2⟩ := ih _ result h
      rw [List.length_set] at h1
      exact ⟨h1, fun hc => h2 (indicesInOrder_set params i _ hc)⟩
    · rw [if_neg hi] at h
      rcases h with h | h
      · cases h
      · cases h
        exact ⟨rfl, id⟩

theorem setParameter_invariant {σ : Type} (M : SoundModule σ) (e e1 : RenderEngine σ)
    (paramIndex : Int) (value : CFloat)
    (h : setParameter M e paramIndex value = some (Except.ok e1) ∨
      setParameter M e paramIndex value = some (Except.error e1)) :
    e1.pluginParameters.length = e.pluginParameters.length ∧
      (IndicesInOrder e.pluginParameters → IndicesInOrder e1.pluginParameters) := by
  unfold setParameter at h
  cases hp : e.plugin with
  | none =>
    rw [hp] at h
    simp at h
  | some p =>
    rw [hp] at h
    simp only [] at h
    by_cases hi : 0 ≤ paramIndex ∧ paramIndex < (e.pluginParameters.length : Int)
    · rw [if_pos hi] at h
      rcases h with h | h
      · simp only [Option.some.injEq, Except.ok.injEq] at h
        subst h
        refine ⟨by simp, ?_⟩
        intro hc
        have hk : paramIndex = ((paramIndex.toNat : Nat) : Int) :=
          (Int.toNat_of_nonneg hi.1).symm
        have := indicesInOrder_set e.pluginParameters paramIndex.toNat
          (M.getParameter (M.setParameter p paramIndex value) paramIndex) hc
        rw [← hk] at this
        exact this
      · simp at h
    · rw [if_neg hi] at h
      rcases h with h | h
      · simp at h
      · simp only [Option.some.injEq, Except.error.injEq] at h
        subst h
        exact ⟨rfl, id⟩

theorem loadPreset_invariant {σ : Type} (M : SoundModule σ) (e e1 : RenderEngine σ)
    (loaded : Bool) (p1 : σ)
    (h : loadPreset M e loaded p1 = some (Except.ok (true, e1))) :
    e1.pluginParameters.length = e.pluginParameters.length ∧
      (IndicesInOrder e.pluginParameters → IndicesInOrder e1.pluginParameters) := by
  unfold loadPreset at h
  cases hp : e.plugin with
  | none =>
    rw [hp] at h
    simp at h
  | some p =>
    rw [hp] at h
    simp only [] at h
    cases loaded with
    | false => simp at h
    | true =>
      simp only [if_true] at h
      cases hl : loadPresetLoop M p1 (List.range (M.getNumParameters p1)) e.pluginParameters with
      | error params =>
        rw [hl] at h
        simp at h
      | ok params =>
        rw [hl] at h
        simp only [Option.some.injEq, Except.ok.injEq, Prod.mk.injEq, true_and] at h
        subst h
        exact loadPresetLoop_invariant M p1 _ e.pluginParameters params (Or.inl hl)

theorem fillAvailablePluginParameters_inOrder {σ : Type} (M : SoundModule σ) (p : σ)
    (h : ∀ i, i < M.getNumParameters p → M.getParameterName p i ≠ "Param") :
    (fillAvailablePluginParameters M p).length = M.getNumParameters p ∧
      IndicesInOrder (fillAvailablePluginParameters M p) := by
  have hf : (List.range (M.getNumParameters p)).filter
      (fun i => decide (M.getParameterName p i ≠ "Param"))
      = List.range (M.getNumParameters p) := by
    rw [List.filter_eq_self]
    intro i hi
    simpa using h i (List.mem_range.mp hi)
  rw [fillAvailablePluginParameters_eq, hf]
  refine ⟨by simp, ?_⟩
  intro k q hq
  rw [List.getElem?_map] at hq
  by_cases hk : k < M.getNumParameters p
  · rw [List.getElem?_range hk] at hq
    simp only [Option.map_some', Option.some.injEq] at hq
    rw [← hq]
  · rw [List.getElem?_eq_none (by simpa using hk)] at hq
    simp at hq

/-- C14 (amended): directly after `fillAvailablePluginParameters` the parameter vector has one
slot per module parameter whose name is not `"Param"`, in module order, every value is `0.0`
and every slot carries the module's own index of its parameter, so the indices are
`0, ..., N-1` in order when no parameter is a placeholder; every later operation keeps the
size `N`: `setPatch` installs the slots of a patch of size `N` as they are supplied (and keeps
the indices `0, ..., N-1` when the supplied patch has them) and ignores any other patch,
`overridePluginParameter` and `removeOverridenParameter` leave the parameter vector as it is,
and `setParameter` and a successful `loadPreset` keep the indices `0, ..., N-1` in order. -/
theorem parameterVector_invariant {σ : Type} (M : SoundModule σ) (e : RenderEngine σ)
    (p : σ) :
    (fillAvailablePluginParameters M p
        = ((List.range (M.getNumParameters p)).filter
            (fun i => decide (M.getParameterName p i ≠ "Param"))).map
            (fun (i : Nat) => ((i : Int), (0 : CFloat)))) ∧
      ((∀ i, i < M.getNumParameters p → M.getParameterName p i ≠ "Param") →
        (fillAvailablePluginParameters M p).length = M.getNumParameters p ∧
          IndicesInOrder (fillAvailablePluginParameters M p)) ∧
      (∀ patch : PluginPatch,
        (setPatch e patch).pluginParameters.length = e.pluginParameters.length ∧
        (setPatch e patch).pluginParameters
          = (if patch.length = e.pluginParameters.length then patch else e.pluginParameters) ∧
        (IndicesInOrder e.pluginParameters → IndicesInOrder patch →
          IndicesInOrder (setPatch e patch).pluginParameters)) ∧
      (∀ (paramIndex : Int) (value : CFloat) (e1 : RenderEngine σ),
        (setParameter M e paramIndex value = some (Except.ok e1) ∨
          setParameter M e paramIndex value = some (Except.error e1)) →
        e1.pluginParameters.length = e.pluginParameters.length ∧
          (IndicesInOrder e.pluginParameters → IndicesInOrder e1.pluginParameters)) ∧
      (∀ (index : Int) (value : CFloat),
        (overridePluginParameter e index value).2.pluginParameters = e.pluginParameters) ∧
      (∀ index : Int,
        (removeOverridenParameter e index).2.pluginParameters = e.pluginParameters) ∧
      (∀ (loaded : Bool) (p1 : σ) (e1 : RenderEngine σ),
        loadPreset M e loaded p1 = some (Except.ok (true, e1)) →
        e1.pluginParameters.length = e.pluginParameters.length ∧
          (IndicesInOrder e.pluginParameters → IndicesInOrder e1.pluginParameters)) := by
  refine ⟨fillAvailablePluginParameters_eq M p, fillAvailablePluginParameters_inOrder M p,
    ?_, ?_, overridePluginParameter_pluginParameters e,
    removeOverridenParameter_pluginParameters e, ?_⟩
  · intro patch
    unfold setPatch
    by_cases h : e.pluginParameters.length = patch.length
    · simp only [h, if_true]
      exact ⟨trivial, trivial, fun _ hp => hp⟩
    · have h1 : ¬ patch.length = e.pluginParameters.length := fun hc => h hc.symm
      simp only [h, h1, if_false]
      exact ⟨trivial, trivial, fun hp _ => hp⟩
  · intro paramIndex value e1 h
    exact setParameter_invariant M e e1 paramIndex value h
  · intro loaded p1 e1 h
    exact loadPreset_invariant M e e1 loaded p1 h

/-- Counterexample to C14 as stated: for the module with the parameter names `A`, `Param`, `B`
`fillAvailablePluginParameters` gives the slots `[(0, 0), (2, 0)]`, whose indices are not
`0, 1`; and on the three-parameter engine, whose indices are `0, 1, 2`, `setPatch` with the
patch `[(5, 0), (6, 0), (7, 0)]` leaves the indices `5, 6, 7`. -/
theorem parameterVector_indices_counterexample :
    fillAvailablePluginParameters (passiveModule ["A", "Param", "B"]) () = [(0, 0), (2, 0)] ∧
      ¬ IndicesInOrder (fillAvailablePluginParameters (passiveModule ["A", "Param", "B"]) ()) ∧
      IndicesInOrder threeParams.pluginParameters ∧
      ¬ IndicesInOrder (setPatch threeParams [(5, 0), (6, 0), (7, 0)]).pluginParameters := by
  have hfill : fillAvailablePluginParameters (passiveModule ["A", "Param", "B"]) ()
      = [(0, 0), (2, 0)] := by decide
  have hset : (setPatch threeParams [(5, 0), (6, 0), (7, 0)]).pluginParameters
      = [(5, 0), (6, 0), (7, 0)] := by
    unfold setPatch
    rw [threeParams_pluginParameters]
    rfl
  refine ⟨hfill, ?_, ?_, ?_⟩
  · rw [hfill]
    intro hc
    have := hc 1 (2, 0) rfl
    simp at this
  · rw [threeParams_pluginParameters]
    intro k q hq
    match k, hq with
    | 0, hq => cases hq; rfl
    | 1, hq => cases hq; rfl
    | 2, hq => cases hq; rfl
    | k + 3, hq => simp at hq
  · rw [hset]
    intro hc
    have := hc 0 (5, 0) rfl
    simp at this

theorem mem_addEvent (buf : MidiBuffer) (m : MidiMessage) (pos : Int) (y : Int × MidiMessage) :
    y ∈ MidiBuffer.addEvent buf m pos ↔ y = (pos, m) ∨ y ∈ buf := by
  rw [addEvent_eq_takeWhile_dropWhile]
  constructor
  · intro h
    rcases List.mem_append.mp h with h | h
    · exact Or.inr ((List.takeWhile_sublist _).subset h)
    · rcases List.mem_cons.mp h with h | h
      · exact Or.inl h
      · exact Or.inr ((List.dropWhile_sublist _).subset h)
  · intro h
    rcases h with h | h
    · exact List.mem_append.mpr (Or.inr (List.mem_cons.mpr (Or.inl h)))
    · have hb : y ∈ buf.takeWhile (fun x => decide (x.1 ≤ pos)) ++
          buf.dropWhile (fun x => decide (x.1 ≤ pos)) := by
        rw [List.takeWhile_append_dropWhile]
        exact h
      rcases List.mem_append.mp hb with hb | hb
      · exact List.mem_append.mpr (Or.inl hb)
      · exact List.mem_append.mpr (Or.inr (List.mem_cons_of_mem _ hb))

theorem addEvent_sorted (buf : MidiBuffer) (m : MidiMessage) (pos : Int)
    (hs : buf.Pairwise (fun x y => x.1 ≤ y.1)) :
    (MidiBuffer.addEvent buf m pos).Pairwise (fun x y => x.1 ≤ y.1) := by
  induction buf with
  | nil => simp [MidiBuffer.addEvent]
  | cons ev rest ih =>
    obtain ⟨t, x⟩ := ev
    obtain ⟨h1, h2⟩ := List.pairwise_cons.mp hs
    by_cases ht : t ≤ pos
    · simp only [MidiBuffer.addEvent, ht, if_true]
      refine List.pairwise_cons.mpr ⟨?_, ih h2⟩
      intro y hy
      rcases (mem_addEvent rest m pos y).mp hy with hy | hy
      · rw [hy]
        exact ht
      · exact h1 y hy
    · simp only [MidiBuffer.addEvent, ht, if_false]
      refine List.pairwise_cons.mpr ⟨?_, hs⟩
      intro y hy
      rcases List.mem_cons.mp hy with hy | hy
      · rw [hy]
        simp only
        omega
      · have := h1 y hy
        simp only at this ⊢
        omega

theorem addMidiNote_midiBuffer {σ : Type} (e : RenderEngine σ) (midiNote midiVelocity : Nat)
    (noteStart noteLength : CDouble) :
    (addMidiNote e midiNote midiVelocity noteStart noteLength).2.sampleRate = e.sampleRate ∧
      ((addMidiNote e midiNote midiVelocity noteStart noteLength).2.midiBuffer = e.midiBuffer ∨
        (¬ noteLength ≤ 0 ∧ ∃ m1 m2,
          (addMidiNote e midiNote midiVelocity noteStart noteLength).2.midiBuffer
            = MidiBuffer.addEvent
                (MidiBuffer.addEvent e.midiBuffer m1
                  (doubleToInt (FloatingPoint.mul noteStart e.sampleRate)))
                m2
                (doubleToInt
                  (FloatingPoint.add (FloatingPoint.mul noteStart e.sampleRate)
                    (FloatingPoint.mul noteLength e.sampleRate))))) := by
  unfold addMidiNote
  by_cases hd : noteLength ≤ 0
  · simp only [hd, if_true]
    exact ⟨trivial, Or.inl trivial⟩
  · simp only [hd, if_false]
    exact ⟨trivial, Or.inr ⟨fun h => h, _, _, rfl⟩⟩

theorem TimelineReachable.sorted {σ : Type} {callOk : CDouble → CDouble → CDouble → Prop}
    {e : RenderEngine σ} (h : TimelineReachable callOk e) :
    e.midiBuffer.Pairwise (fun x y => x.1 ≤ y.1) := by
  induction h with
  | empty e he => rw [he]; exact List.Pairwise.nil
  | addNote n v s d _ _ ih =>
    rcases (addMidiNote_midiBuffer _ n v s d).2 with h | ⟨_, m1, m2, h⟩
    · rw [h]
      exact ih
    · rw [h]
      exact addEvent_sorted _ _ _ (addEvent_sorted _ _ _ ih)
  | clear _ _ => exact List.Pairwise.nil

theorem TimelineReachable.nonneg {σ : Type} {e : RenderEngine σ}
    (h : TimelineReachable noteInRange e) (hR : 0 ≤ e.sampleRate) :
    ∀ x ∈ e.midiBuffer, 0 ≤ x.1 := by
  induction h with
  | empty e he => rw [he]; simp
  | @addNote e0 n v s d hs _ ih =>
    obtain ⟨hrate, hbuf⟩ := addMidiNote_midiBuffer e0 n v s d
    rw [hrate] at hR
    rcases hbuf with h | ⟨hd, m1, m2, h⟩
    · rw [h]
      exact ih hR
    · obtain ⟨hs0, hrange⟩ := hs
      rcases hrange with hrej | ⟨t, ht, hfit⟩
      · exact absurd hrej hd
      · obtain ⟨a, ha, ha0, hat⟩ := addMidiNote_timeStamps s d e0.sampleRate hs0 hd hR t ht
        rw [h, ht, ha, doubleToInt_of_nonneg a ha0 (lt_of_le_of_lt hat hfit),
          doubleToInt_of_nonneg t (le_trans ha0 hat) hfit]
        intro x hx
        rcases (mem_addEvent _ _ _ x).mp hx with hx | hx
        · rw [hx]
          exact Int.floor_nonneg.mpr (le_trans ha0 hat)
        · rcases (mem_addEvent _ _ _ x).mp hx with hx | hx
          · rw [hx]
            exact Int.floor_nonneg.mpr ha0
          · exact ih hR x hx
  | clear _ _ =>
    intro x hx
    simp [clearMidi] at hx

theorem render_reaches {σ : Type} (M : SoundModule σ) (e : RenderEngine σ) (p : σ)
    (renderLength : CDouble) (uninit : AudioData) (hp : e.plugin = some p)
    (hB : 0 < e.bufferSize)
    (hn : 0 ≤ numberOfBuffers renderLength e.sampleRate e.bufferSize)
    (hfit : numberOfBuffers renderLength e.sampleRate e.bufferSize * e.bufferSize
      ≤ 2147483647)
    (hs : e.midiBuffer.Pairwise (fun x y => x.1 ≤ y.1)) (hnn : ∀ x ∈ e.midiBuffer, 0 ≤ x.1) :
    ∃ e1 blocks, render M e renderLength uninit = some (Except.ok (e1, blocks)) ∧
      ∀ ev ∈ e.midiBuffer, ev.1 < (blocks.length : Int) * e.bufferSize →
        ∃ (j : Nat) (bj : BlockRecord), blocks[j]? = some bj ∧
          (j : Int) * e.bufferSize ≤ ev.1 ∧ ev.1 < ((j : Int) + 1) * e.bufferSize ∧
          (ev.1 - (j : Int) * e.bufferSize, ev.2) ∈ bj.added := by
  obtain ⟨e1, blocks, h1, h2, -, -⟩ :=
    render_blocks_spec M e p renderLength uninit hp hB hn hfit hs hnn
  refine ⟨e1, blocks, h1, ?_⟩
  intro ev hev hlt
  have hlen : blocks.length
      = (numberOfBuffers renderLength e.sampleRate e.bufferSize).toNat := by
    have := congrArg List.length h2
    simpa using this
  have h0 : 0 ≤ ev.1 := hnn ev hev
  have hq0 : 0 ≤ ev.1 / e.bufferSize := Int.ediv_nonneg h0 (le_of_lt hB)
  have hlow : ev.1 / e.bufferSize * e.bufferSize ≤ ev.1 := Int.ediv_mul_le _ (ne_of_gt hB)
  have hhigh : ev.1 < (ev.1 / e.bufferSize + 1) * e.bufferSize :=
    Int.lt_ediv_add_one_mul_self _ hB
  have hj : ((ev.1 / e.bufferSize).toNat : Int) = ev.1 / e.bufferSize :=
    Int.toNat_of_nonneg hq0
  have hjlt : (ev.1 / e.bufferSize).toNat < blocks.length := by
    have : ev.1 / e.bufferSize < (blocks.length : Int) := by
      by_contra hc
      push_neg at hc
      have : (blocks.length : Int) * e.bufferSize ≤ ev.1 / e.bufferSize * e.bufferSize :=
        mul_le_mul_of_nonneg_right hc (le_of_lt hB)
      omega
    omega
  obtain ⟨bj, hbj, haj⟩ := getElem?_of_map_eq _ blocks _ h2 (ev.1 / e.bufferSize).toNat
    (blockEvents e.midiBuffer e.bufferSize ((ev.1 / e.bufferSize).toNat : Int))
    (by rw [List.getElem?_map, List.getElem?_range (by omega)]; rfl)
  refine ⟨_, bj, hbj, by rw [hj]; exact hlow, by rw [hj]; exact hhigh, ?_⟩
  rw [haj]
  unfold blockEvents
  apply List.mem_map.mpr
  refine ⟨ev, List.mem_filter.mpr ⟨hev, ?_⟩, rfl⟩
  simp only [decide_eq_true_eq]
  rw [hj]
  exact ⟨hlow, hhigh⟩

/-- C15 (amended): in every state reached from an empty timeline by `clearMidi` calls and by
`addMidiNote` calls whose start time is `≥ 0` and that are either rejected or compute, in
`double` arithmetic, a finite NoteOff time stamp below `2 ^ 31` (`noteInRange`; pitch and
velocity are arbitrary), at a sample rate `≥ 0`, every event of the timeline has a position
`≥ 0` and the events are in ascending position order, so that a `render` whose sample count
fits an `int` adds every event whose position lies before the final block boundary, in the
block that contains it; the ascending order holds after arbitrary calls too. -/
theorem midi_timeline_invariant {σ : Type} (M : SoundModule σ) (e : RenderEngine σ)
    (hr : TimelineReachable noteInRange e) (hR : 0 ≤ e.sampleRate) :
    (∀ x ∈ e.midiBuffer, 0 ≤ x.1) ∧
      e.midiBuffer.Pairwise (fun x y => x.1 ≤ y.1) ∧
      (∀ (p : σ) (renderLength : CDouble) (uninit : AudioData), e.plugin = some p →
        0 < e.bufferSize →
        0 ≤ numberOfBuffers renderLength e.sampleRate e.bufferSize →
        numberOfBuffers renderLength e.sampleRate e.bufferSize * e.bufferSize ≤ 2147483647 →
        ∃ e1 blocks, render M e renderLength uninit = some (Except.ok (e1, blocks)) ∧
          ∀ ev ∈ e.midiBuffer, ev.1 < (blocks.length : Int) * e.bufferSize →
            ∃ (j : Nat) (bj : BlockRecord), blocks[j]? = some bj ∧
              (j : Int) * e.bufferSize ≤ ev.1 ∧ ev.1 < ((j : Int) + 1) * e.bufferSize ∧
              (ev.1 - (j : Int) * e.bufferSize, ev.2) ∈ bj.added) ∧
      (∀ e2 : RenderEngine σ, TimelineReachable (fun _ _ _ => True) e2 →
        e2.midiBuffer.Pairwise (fun x y => x.1 ≤ y.1)) := by
  refine ⟨hr.nonneg hR, hr.sorted, ?_, fun e2 h2 => h2.sorted⟩
  intro p renderLength uninit hp hB hn hfit
  exact render_reaches M e p renderLength uninit hp hB hn hfit hr.sorted (hr.nonneg hR)

theorem renderBlock_stuck {σ : Type} (M : SoundModule σ) (i : Int) (s : RenderLocals σ)
    (hw0 : 0 ≤ wrapInt32 (i * s.engine.bufferSize)) (hsn : s.sampleNumber < 0) :
    (renderBlock M i s).sampleNumber = s.sampleNumber ∧
      (renderBlock M i s).engine.bufferSize = s.engine.bufferSize ∧
      ∃ b : BlockRecord, (renderBlock M i s).blocks = s.blocks ++ [b] ∧ b.added = [] := by
  have hfalse : decide (s.sampleNumber ≥ wrapInt32 (i * s.engine.bufferSize) ∧
      s.sampleNumber < wrapInt32 ((i + 1) * s.engine.bufferSize)) = false := by
    simp only [decide_eq_false_iff_not, not_and]
    intro h
    omega
  obtain ⟨d, hd⟩ : ∃ d, d = doWhile (wrapInt32 (i * s.engine.bufferSize))
      (wrapInt32 ((i + 1) * s.engine.bufferSize)) (s.it.length + 1)
      { s with
        isMessageBetween := decide (s.sampleNumber ≥ wrapInt32 (i * s.engine.bufferSize) ∧
          s.sampleNumber < wrapInt32 ((i + 1) * s.engine.bufferSize)),
        added := [] } := ⟨_, rfl⟩
  have hdw : d = { s with isMessageBetween := false, added := [] } := by
    rw [hd, hfalse]
    simp [doWhile, doWhileBody]
  have h1 : (renderBlock M i s).sampleNumber = d.sampleNumber := by
    rw [hd]
    rfl
  have h2 : (renderBlock M i s).blocks
      = d.blocks ++ [⟨d.added, d.renderMidiBuffer,
          (M.processBlock d.plugin d.audioBuffer.read d.renderMidiBuffer).2.1⟩] := by
    rw [hd]
    rfl
  have h3 : (renderBlock M i s).engine.bufferSize = d.engine.bufferSize := by
    have he : (renderBlock M i s).engine
        = fillAudioFeatures d.engine
            { d.audioBuffer with
              read := (M.processBlock d.plugin d.audioBuffer.read d.renderMidiBuffer).2.1 } := by
      rw [hd]
      rfl
    rw [he, fillAudioFeatures_bufferSize]
  rw [hdw] at h1 h2 h3
  exact ⟨h1, h3, _, h2, rfl⟩

theorem forLoop_stuck {σ : Type} (M : SoundModule σ) (count : Nat) :
    ∀ (i : Int) (s : RenderLocals σ), 0 ≤ i → 0 ≤ s.engine.bufferSize →
      (i + (count : Int)) * s.engine.bufferSize ≤ 2147483647 → s.sampleNumber < 0 →
      (forLoop M count i s).blocks.map (fun b => b.added)
        = s.blocks.map (fun b => b.added) ++ List.replicate count [] := by
  induction count with
  | zero =>
    intro i s _ _ _ _
    simp [forLoop]
  | succ count ih =>
    intro i s hi hB hfit hsn
    obtain ⟨hw0, -⟩ := wrapInt32_block i ((count + 1 : Nat) : Int) s.engine.bufferSize hB hi
      (by push_cast; omega) hfit
    have hpos : 0 ≤ wrapInt32 (i * s.engine.bufferSize) := by
      rw [hw0]
      exact mul_nonneg hi hB
    obtain ⟨r1, r2, b, r3, r4⟩ := renderBlock_stuck M i s hpos hsn
    have hfit1 : (i + 1 + (count : Int)) * (renderBlock M i s).engine.bufferSize
        ≤ 2147483647 := by
      rw [r2]
      have : i + 1 + (count : Int) = i + ((count + 1 : Nat) : Int) := by
        push_cast
        ring
      rw [this]
      exact hfit
    unfold forLoop
    rw [ih (i + 1) (renderBlock M i s) (by omega) (by rw [r2]; exact hB) hfit1
      (by rw [r1]; exact hsn), r3]
    simp [r4, List.replicate_succ]

theorem renderInit_sampleNumber {σ : Type} (M : SoundModule σ) (e : RenderEngine σ) (p : σ)
    (uninit : AudioData) (t : Int) (x : MidiMessage) (rest : MidiBuffer)
    (h : e.midiBuffer = (t, x) :: rest) : (renderInit M e p uninit).sampleNumber = t := by
  unfold renderInit getNextEvent
  simp only [h]

theorem negativeStartEngine_fields :
    negativeStartEngine.sampleRate = FloatingPoint.finite 44100 ∧
      negativeStartEngine.bufferSize = 512 ∧ negativeStartEngine.plugin = some () := by
  have hd : ¬ ((FloatingPoint.finite 1 : CDouble) ≤ 0) := one_not_le_zero
  obtain ⟨-, -, a3, a4, a5⟩ := addMidiNote_accepted
    (plainEngine 512) 60 100 (FloatingPoint.finite (-1)) (FloatingPoint.finite 1) (by decide)
    (by decide) hd
  obtain ⟨-, -, b3, b4, b5⟩ := addMidiNote_accepted
    (addMidiNote (plainEngine 512) 60 100 (FloatingPoint.finite (-1))
      (FloatingPoint.finite 1)).2
    62 100 (FloatingPoint.finite 0) (FloatingPoint.finite 1) (by decide) (by decide) hd
  exact ⟨b3.trans (a3.trans (plainEngine_sampleRate 512)), b4.trans a4, b5.trans a5⟩

theorem negativeStartEngine_midiBuffer :
    negativeStartEngine.midiBuffer
      = [(-44100, MidiMessage.noteOn 1 60 100), (0, MidiMessage.noteOff 1 60 100),
          (0, MidiMessage.noteOn 1 62 100), (44100, MidiMessage.noteOff 1 62 100)] := by
  have hd : ¬ ((FloatingPoint.finite 1 : CDouble) ≤ 0) := one_not_le_zero
  obtain ⟨-, a2, a3, -, -⟩ := addMidiNote_accepted
    (plainEngine 512) 60 100 (FloatingPoint.finite (-1)) (FloatingPoint.finite 1) (by decide)
    (by decide) hd
  obtain ⟨-, b2, -, -, -⟩ := addMidiNote_accepted
    (addMidiNote (plainEngine 512) 60 100 (FloatingPoint.finite (-1))
      (FloatingPoint.finite 1)).2
    62 100 (FloatingPoint.finite 0) (FloatingPoint.finite 1) (by decide) (by decide) hd
  have hM : (plainEngine 512).midiBuffer = [] := rfl
  rw [plainEngine_sampleRate, hM,
    FloatingPoint.mul_finite_grid (-1) 44100 (-44100) (-6061057848115200) (-37)
      (by norm_num) (by norm_num) (by norm_num) (by norm_num) (by norm_num)
      (Or.inr (by norm_num)),
    mul_one_44100,
    FloatingPoint.add_finite_grid (-44100) 44100 0 0 (-1074) (by norm_num) (by norm_num)
      (by norm_num) (by norm_num) (by norm_num) (Or.inl rfl),
    doubleToInt_eq (-44100) (-44100) (by norm_num) (by decide) (by decide),
    doubleToInt_eq 0 0 (by norm_num) (by decide) (by decide)] at a2
  rw [a3, plainEngine_sampleRate, a2, FloatingPoint.mul_zero_finite, mul_one_44100,
    FloatingPoint.add_zero_finite 44100 6061057848115200 (-37) (by norm_num) (by norm_num)
      (by norm_num) (by norm_num) (Or.inr (by norm_num)),
    doubleToInt_eq 0 0 (by norm_num) (by decide) (by decide),
    doubleToInt_eq 44100 44100 (by norm_num) (by decide) (by decide)] at b2
  rw [show negativeStartEngine.midiBuffer
      = (addMidiNote
          (addMidiNote (plainEngine 512) 60 100 (FloatingPoint.finite (-1))
            (FloatingPoint.finite 1)).2
          62 100 (FloatingPoint.finite 0) (FloatingPoint.finite 1)).2.midiBuffer from rfl, b2]
  decide

/-- Counterexample to C15 as stated.  After `addMidiNote (60, 100, -1.0, 1.0)` and
`addMidiNote (62, 100, 0.0, 1.0)` at 44100 Hz the timeline holds an event at the sample
`-44100`; a render of one second (87 blocks of 512 samples) then adds no event in any block,
although the events at the samples 0 and 44100 lie before the final block boundary 44544.
After `addMidiNote (60, 100, 50000.0, 1.0)` at 44100 Hz, whose time stamps `2205000000` and
`2205044100` exceed the largest `int`, both events are stored at the sample `-2147483648`. -/
theorem midi_timeline_negative_counterexample :
    TimelineReachable (fun _ _ _ => True) negativeStartEngine ∧
      negativeStartEngine.midiBuffer
        = [(-44100, MidiMessage.noteOn 1 60 100), (0, MidiMessage.noteOff 1 60 100),
            (0, MidiMessage.noteOn 1 62 100), (44100, MidiMessage.noteOff 1 62 100)] ∧
      (∃ x ∈ negativeStartEngine.midiBuffer, x.1 < 0) ∧
      (∃ e1 blocks,
        render (passiveModule []) negativeStartEngine (FloatingPoint.finite 1) (fun _ _ => 0)
          = some (Except.ok (e1, blocks)) ∧
        blocks.length = 87 ∧ ∀ b ∈ blocks, b.added = []) ∧
      (addMidiNote (plainEngine 512) 60 100 (FloatingPoint.finite 50000)
        (FloatingPoint.finite 1)).2.midiBuffer
        = [(-2147483648, MidiMessage.noteOn 1 60 100),
            (-2147483648, MidiMessage.noteOff 1 60 100)] := by
  have hreach0 : TimelineReachable (fun _ _ _ => True) (plainEngine 512) :=
    TimelineReachable.empty _ rfl
  have hreach1 : TimelineReachable (fun _ _ _ => True)
      (addMidiNote (plainEngine 512) 60 100 (FloatingPoint.finite (-1))
        (FloatingPoint.finite 1)).2 :=
    TimelineReachable.addNote 60 100 (FloatingPoint.finite (-1)) (FloatingPoint.finite 1)
      trivial hreach0
  have hreach2 : TimelineReachable (fun _ _ _ => True)
      (addMidiNote
        (addMidiNote (plainEngine 512) 60 100 (FloatingPoint.finite (-1))
          (FloatingPoint.finite 1)).2
        62 100 (FloatingPoint.finite 0) (FloatingPoint.finite 1)).2 :=
    TimelineReachable.addNote 62 100 (FloatingPoint.finite 0) (FloatingPoint.finite 1)
      trivial hreach1
  have hreach : TimelineReachable (fun _ _ _ => True) negativeStartEngine := hreach2
  have hm := negativeStartEngine_midiBuffer
  obtain ⟨hR, hB, hP⟩ := negativeStartEngine_fields
  have hn : numberOfBuffers (FloatingPoint.finite 1) negativeStartEngine.sampleRate
      negativeStartEngine.bufferSize = 87 := by
    rw [hR, hB]
    exact numberOfBuffers_of_ceil _ _ _ 87 ceil_one_second (by decide) (by decide)
  have hsn : (renderInit (passiveModule []) negativeStartEngine () (fun _ _ => 0)).sampleNumber
      = -44100 :=
    renderInit_sampleNumber (passiveModule []) negativeStartEngine () (fun _ _ => 0) _ _ _ hm
  obtain ⟨i1, -, -, -, i5, -, -⟩ :=
    renderInit_fields (passiveModule []) negativeStartEngine () (fun _ _ => 0)
  have hstuck := forLoop_stuck (passiveModule []) 87 0
    (renderInit (passiveModule []) negativeStartEngine () (fun _ _ => 0)) (le_refl 0)
    (by rw [i5, hB]; decide) (by rw [i5, hB]; decide) (by rw [hsn]; decide)
  rw [i1] at hstuck
  have hr := render_of_plugin (passiveModule []) negativeStartEngine ()
    (FloatingPoint.finite 1) (fun _ _ => 0) hP (by rw [hn, hB]; decide)
  rw [hn] at hr
  have h87 : (87 : Int).toNat = 87 := rfl
  rw [h87] at hr
  have hd : ¬ ((FloatingPoint.finite 1 : CDouble) ≤ 0) := one_not_le_zero
  obtain ⟨-, c2, -, -, -⟩ := addMidiNote_accepted
    (plainEngine 512) 60 100 (FloatingPoint.finite 50000) (FloatingPoint.finite 1) (by decide)
    (by decide) hd
  have hM : (plainEngine 512).midiBuffer = [] := rfl
  have hbig1 : doubleToInt (FloatingPoint.finite 2205000000) = -2147483648 :=
    doubleToInt_of_large 2205000000 (by norm_num)
  have hbig2 : doubleToInt (FloatingPoint.finite 2205044100) = -2147483648 :=
    doubleToInt_of_large 2205044100 (by norm_num)
  rw [plainEngine_sampleRate, hM,
    FloatingPoint.mul_finite_grid 50000 44100 2205000000 4624220160000000 (-21)
      (by norm_num) (by norm_num) (by norm_num) (by norm_num) (by norm_num)
      (Or.inr (by norm_num)),
    mul_one_44100,
    FloatingPoint.add_finite_grid 2205000000 44100 2205044100 4624312644403200 (-21)
      (by norm_num) (by norm_num) (by norm_num) (by norm_num) (by norm_num)
      (Or.inr (by norm_num)),
    hbig1, hbig2] at c2
  refine ⟨hreach, hm, ⟨(-44100, MidiMessage.noteOn 1 60 100), by rw [hm]; simp, by decide⟩,
    ⟨_, _, hr, ?_, ?_⟩, ?_⟩
  · have := congrArg List.length hstuck
    simpa using this
  · intro b hb
    have : b.added ∈ List.map (fun b => b.added)
        (forLoop (passiveModule []) 87 0
          (renderInit (passiveModule []) negativeStartEngine () (fun _ _ => 0))).blocks :=
      List.mem_map_of_mem _ hb
    rw [hstuck] at this
    simp only [List.map_nil, List.nil_append] at this
    exact List.eq_of_mem_replicate this
  · rw [c2]
    simp [MidiBuffer.addEvent]

/-- Witness for C15: the timeline after `addMidiNote (60, 100, 1.0, 1.0)` at 44100 Hz. -/
theorem midi_timeline_invariant_witness :
    TimelineReachable noteInRange boundaryEngine ∧ 0 ≤ boundaryEngine.sampleRate ∧
      (∀ x ∈ boundaryEngine.midiBuffer, 0 ≤ x.1) ∧
      boundaryEngine.midiBuffer.Pairwise (fun x y => x.1 ≤ y.1) := by
  have hcall : noteInRange (plainEngine 441).sampleRate (FloatingPoint.finite 1)
      (FloatingPoint.finite 1) := by
    refine ⟨FloatingPoint.zero_le_finite _ (by norm_num), Or.inr ⟨88200, ?_, by norm_num⟩⟩
    rw [plainEngine_sampleRate, mul_one_44100]
    exact FloatingPoint.add_finite_grid 44100 44100 88200 6061057848115200 (-36)
      (by norm_num) (by norm_num) (by norm_num) (by norm_num) (by norm_num)
      (Or.inr (by norm_num))
  have hreach0 : TimelineReachable noteInRange (plainEngine 441) :=
    TimelineReachable.empty _ rfl
  have hreach1 : TimelineReachable noteInRange
      (addMidiNote (plainEngine 441) 60 100 (FloatingPoint.finite 1)
        (FloatingPoint.finite 1)).2 :=
    TimelineReachable.addNote 60 100 (FloatingPoint.finite 1) (FloatingPoint.finite 1) hcall
      hreach0
  have hreach : TimelineReachable noteInRange boundaryEngine := hreach1
  have hR : 0 ≤ boundaryEngine.sampleRate := by
    rw [boundaryEngine_fields.1]
    exact FloatingPoint.zero_le_finite _ (by norm_num)
  have hw := midi_timeline_invariant (passiveModule []) boundaryEngine hreach hR
  exact ⟨hreach, hR, hw.1, hw.2.1⟩

end RenderMan
